import Mathlib

/-!
# Conway's game of life (`main.c`): embedding and verification

The C program keeps two `bool [HEIGHT][WIDTH]` boards and an `int32_t` counter of
living cells.  The functions of `main.c` are embedded as Lean functions with explicit
state passing:

* a board is a vector of `HEIGHT` rows, each a vector of `WIDTH` booleans;
* `int32_t` values are `Int`s; the additions on the counters (`*cellCpt_ += ...`,
  `sumCellAliveFrame++`, `cpt++`, `noIteration++`) are followed by `wrapInt32`, the
  reduction into the `int32_t` range; coordinates are computed in unbounded integers:
  the program only adds offsets between -4 and 5 to the anchors (20,20) and (4,4) and to
  loop variables between 0 and 41;
* the unguarded array read of `isCellAlive` returns `Option Bool`, `none` standing for
  a read outside the array, and every function that reads is `Option`-valued;
* `for` loops with fixed bounds are folds over the list of values of the loop variable;
* the `do ... while` loop of the random fill is a recursion on a fuel argument and the
  values returned by `rand()` after `srand(0)` are a parameter.
-/

namespace GameOfLife

/-! ## Constants and machine integers -/

/-- `#define WIDTH 42`, width of the cell array. -/
abbrev WIDTH : Nat := 42

/-- `#define HEIGHT 42`, height of the cell array. -/
abbrev HEIGHT : Nat := 42

/-- `#define BLOCK 1`. -/
def BLOCK : Int := 1

/-- `#define TUB 2`. -/
def TUB : Int := 2

/-- `#define NAVIRE 3`. -/
def NAVIRE : Int := 3

/-- `#define CLIGNOTANT 4`. -/
def CLIGNOTANT : Int := 4

/-- `#define GALAXIEDEKOK 5`. -/
def GALAXIEDEKOK : Int := 5

/-- `#define PENTADECATHLON 6`. -/
def PENTADECATHLON : Int := 6

/-- `#define PLANEUR 7`. -/
def PLANEUR : Int := 7

/-- `#define RANDOM 8`. -/
def RANDOM : Nat := 8

/-- Largest `int32_t`. -/
def INT32_MAX : Int := 2147483647

/-- Smallest `int32_t`. -/
def INT32_MIN : Int := -2147483648

/-- The integer is representable as an `int32_t`. -/
def isInt32 (x : Int) : Prop := INT32_MIN ≤ x ∧ x ≤ INT32_MAX

instance (x : Int) : Decidable (isInt32 x) := by
  unfold isInt32; exact inferInstance

/-- Result of an `int32_t` operation whose mathematical value is `x`: the value is
reduced modulo `2^32` into the range `-2^31 .. 2^31 - 1`. -/
def wrapInt32 (x : Int) : Int := (x + 2147483648) % 4294967296 - 2147483648

/-- The values taken by `i` in `for (i = lo; i < hi; i++)`, in order. -/
def loopRange (lo hi : Int) : List Int :=
  (List.range (hi - lo).toNat).map (fun (k : Nat) => lo + (k : Int))

/-! ## Boards -/

/-- A cell array `bool cell[HEIGHT][WIDTH]`. -/
abbrev Grid := Mathlib.Vector (Mathlib.Vector Bool WIDTH) HEIGHT

/-- The cell `cell[r][c]`. -/
def Grid.cell (g : Grid) (r : Fin HEIGHT) (c : Fin WIDTH) : Bool := (g.get r).get c

/-- The array `= {false}` of `main`: every cell dead. -/
def allDead : Grid := Mathlib.Vector.replicate HEIGHT (Mathlib.Vector.replicate WIDTH false)

/-- The assignment `cell_[r][c] = life_`. -/
def writeCell (cell : Grid) (r : Fin HEIGHT) (c : Fin WIDTH) (life : Bool) : Grid :=
  cell.set r ((cell.get r).set c life)

/-- `isCellAlive`: `return cell_[line_][column_];`.  The function has no guard, the
read is defined only for indices inside the array. -/
def isCellAlive (cell : Grid) (line column : Int) : Option Bool :=
  if h : 0 ≤ line ∧ line < (HEIGHT : Int) ∧ 0 ≤ column ∧ column < (WIDTH : Int) then
    some (cell.cell ⟨line.toNat, by simp only [HEIGHT] at h ⊢; omega⟩
               ⟨column.toNat, by simp only [WIDTH] at h ⊢; omega⟩)
  else
    none

/-- `setCell`: the guarded assignment, then `*cellCpt_ += life_ ? 1 : 0;`. -/
def setCell (cell : Grid) (line column : Int) (life : Bool) (cellCpt : Int) : Grid × Int :=
  let cell1 :=
    if h : line > 0 ∧ line < (WIDTH : Int) ∧ column > 0 ∧ column < (WIDTH : Int) then
      writeCell cell ⟨line.toNat, by simp only [HEIGHT, WIDTH] at h ⊢; omega⟩
        ⟨column.toNat, by simp only [WIDTH] at h ⊢; omega⟩ life
    else
      cell
  (cell1, wrapInt32 (cellCpt + (if life then 1 else 0)))

/-! ## The engine -/

/-- The variables `lifeGameUpdate` modifies: the board it writes, the counter behind
`cellAliveCpt_` and the local `sumCellAliveFrame`. -/
structure UpdateState where
  cellsB : Grid
  cellAliveCpt : Int
  sumCellAliveFrame : Int

/-- The innermost loop of `lifeGameUpdate`,
`for (frameColumn = column - 1; frameColumn <= column + 1; frameColumn++)`. -/
def frameColumnLoop (cellsA : Grid) (line column frameLine : Int) (sum : Int) : Option Int :=
  (loopRange (column - 1) (column + 1 + 1)).foldlM
    (fun sum frameColumn => do
      let alive ← isCellAlive cellsA frameLine frameColumn
      pure (if alive && (frameLine != line || frameColumn != column)
            then wrapInt32 (sum + 1) else sum))
    sum

/-- The loop `for (frameLine = line - 1; frameLine <= line + 1; frameLine++)`. -/
def frameLineLoop (cellsA : Grid) (line column : Int) (sum : Int) : Option Int :=
  (loopRange (line - 1) (line + 1 + 1)).foldlM
    (fun sum frameLine => frameColumnLoop cellsA line column frameLine sum)
    sum

/-- The body of the `column` loop of `lifeGameUpdate`: scan of the frame, the three-way
test on `sumCellAliveFrame`, and `sumCellAliveFrame = 0;`. -/
def updateCell (cellsA : Grid) (line column : Int) (st : UpdateState) : Option UpdateState := do
  let sum ← frameLineLoop cellsA line column st.sumCellAliveFrame
  if sum = 3 then
    let w := setCell st.cellsB line column true st.cellAliveCpt
    pure ⟨w.1, w.2, 0⟩
  else if sum = 2 then
    let life ← isCellAlive cellsA line column
    let w := setCell st.cellsB line column life st.cellAliveCpt
    pure ⟨w.1, w.2, 0⟩
  else
    let w := setCell st.cellsB line column false st.cellAliveCpt
    pure ⟨w.1, w.2, 0⟩

/-- `lifeGameUpdate`: reset of the counter, then the loops
`for (line = 1; line < (WIDTH - 1); line++)` and
`for (column = 1; column < (HEIGHT - 1); column++)`.  Returns the written board and
the counter. -/
def lifeGameUpdate (cellsA cellsB : Grid) (_cellAliveCpt : Int) : Option (Grid × Int) := do
  let st ← (loopRange 1 ((WIDTH : Int) - 1)).foldlM
    (fun st line =>
      (loopRange 1 ((HEIGHT : Int) - 1)).foldlM
        (fun st column => updateCell cellsA line column st) st)
    (UpdateState.mk cellsB 0 0)
  pure (st.cellsB, st.cellAliveCpt)

/-- `copie`: the two loops over `1 .. WIDTH - 2` and `1 .. HEIGHT - 2`, each cell going
through `setCell` with the local counter `cellAliveCpt = 0`, which is dropped on
return. -/
def copie (tableauOriginal tableauCopie : Grid) : Option Grid := do
  let st ← (loopRange 1 ((WIDTH : Int) - 1)).foldlM
    (fun st line =>
      (loopRange 1 ((HEIGHT : Int) - 1)).foldlM
        (fun (st : Grid × Int) column => do
          let life ← isCellAlive tableauOriginal line column
          pure (setCell st.1 line column life st.2))
        st)
    ((tableauCopie, 0) : Grid × Int)
  pure st.1

/-! ## Patterns and initial configurations -/

/-- `addPattern`: the `switch (choice_)` with its eight cases and the `default` case,
which only prints a message. -/
def addPattern (cell : Grid) (line column choice : Int) (cellAliveCpt : Int) : Grid × Int :=
  if choice = 1 then
    let s := setCell cell line column true cellAliveCpt
    let s := setCell s.1 line (column + 1) true s.2
    let s := setCell s.1 (line + 1) column true s.2
    setCell s.1 (line + 1) (column + 1) true s.2
  else if choice = 2 then
    let s := setCell cell (line - 1) column true cellAliveCpt
    let s := setCell s.1 line (column - 1) true s.2
    let s := setCell s.1 line (column + 1) true s.2
    setCell s.1 (line + 1) column true s.2
  else if choice = 3 then
    let s := setCell cell (line - 1) (column - 1) true cellAliveCpt
    let s := setCell s.1 line (column - 1) true s.2
    let s := setCell s.1 (line - 1) column true s.2
    let s := setCell s.1 (line + 1) (column + 1) true s.2
    let s := setCell s.1 line (column + 1) true s.2
    setCell s.1 (line + 1) column true s.2
  else if choice = 4 then
    (loopRange (-1) (1 + 1)).foldl
      (fun s indexA => setCell s.1 line (column + indexA) true s.2) (cell, cellAliveCpt)
  else if choice = 5 then
    let s := (loopRange (-4) (-3 + 1)).foldl
      (fun s indexA => (loopRange (-1) (4 + 1)).foldl
        (fun s indexB => setCell s.1 (line + indexA) (column + indexB) true s.2) s)
      (cell, cellAliveCpt)
    let s := (loopRange (-4) (1 + 1)).foldl
      (fun s indexA => (loopRange (-4) (-3 + 1)).foldl
        (fun s indexB => setCell s.1 (line + indexA) (column + indexB) true s.2) s) s
    let s := (loopRange (-1) (4 + 1)).foldl
      (fun s indexA => (loopRange 3 (4 + 1)).foldl
        (fun s indexB => setCell s.1 (line + indexA) (column + indexB) true s.2) s) s
    (loopRange 3 (4 + 1)).foldl
      (fun s indexA => (loopRange (-4) (1 + 1)).foldl
        (fun s indexB => setCell s.1 (line + indexA) (column + indexB) true s.2) s) s
  else if choice = 6 then
    let s := setCell cell (line - 1) (column - 2) true cellAliveCpt
    let s := setCell s.1 (line - 1) (column + 3) true s.2
    let s := (loopRange (-4) (5 + 1)).foldl
      (fun s indexA =>
        if (indexA != -2 && indexA != 3) then setCell s.1 line (column + indexA) true s.2
        else s) s
    let s := setCell s.1 (line + 1) (column - 2) true s.2
    setCell s.1 (line + 1) (column + 3) true s.2
  else if choice = 7 then
    let s := setCell cell line (column + 1) true cellAliveCpt
    let s := setCell s.1 (line + 1) (column + 2) true s.2
    (loopRange 0 (2 + 1)).foldl
      (fun s indexA => setCell s.1 (line + 2) (column + indexA) true s.2) s
  else if choice = 8 then
    let s := setCell cell line column true cellAliveCpt
    let s := setCell s.1 line (column + 3) true s.2
    let s := setCell s.1 (line + 1) (column + 4) true s.2
    let s := setCell s.1 (line + 2) column true s.2
    let s := setCell s.1 (line + 2) (column + 4) true s.2
    (loopRange 1 (4 + 1)).foldl
      (fun s indexA => setCell s.1 (line + 3) (column + indexA) true s.2) s
  else
    (cell, cellAliveCpt)

/-- What the random fill of `prepareCells` takes from the C library: the constant
`RAND_MAX` and the sequence of values `rand()` returns after `srand(0)`. -/
structure RandEnv where
  RAND_MAX : Int
  draws : Nat → Nat

/-- The variables of the `do ... while` loop of the random fill, with the number of
calls of `rand()` made so far. -/
structure FillState where
  cells : Grid
  cellAliveCpt : Int
  cpt : Int
  drawn : Nat

/-- The loop `do ... while (cpt < (HEIGHT - 2) * (WIDTH - 2) / 2)` of the random fill;
`randomNo` is the local of that name, which the loop never assigns.  The first
argument bounds the number of iterations: `none` also stands for a loop that has not
ended within it. -/
def randomFill (env : RandEnv) (randomNo : Int) : Nat → FillState → Option FillState
  | 0, _ => none
  | fuel + 1, st =>
    let line : Int := (env.draws st.drawn : Int) % ((HEIGHT : Int) - 1)
    let column : Int := (env.draws (st.drawn + 1) : Int) % ((WIDTH : Int) - 1)
    let test : Option Bool :=
      if randomNo < env.RAND_MAX / 2 then
        (isCellAlive st.cells line column).map (fun alive => alive == false)
      else
        some false
    match test with
    | none => none
    | some accept =>
      let st1 : FillState :=
        if accept then
          let w := setCell st.cells line column true st.cellAliveCpt
          ⟨w.1, w.2, wrapInt32 (st.cpt + 1), st.drawn + 2⟩
        else
          ⟨st.cells, st.cellAliveCpt, st.cpt, st.drawn + 2⟩
      if st1.cpt < ((HEIGHT : Int) - 2) * ((WIDTH : Int) - 2) / 2 then
        randomFill env randomNo fuel st1
      else
        some st1

/-- `prepareCells`: the `switch (userChoice_)`; `userChoice_` is an `unsigned char`.
Cases 1 to 7 place a pattern, case 8 is the random fill, case 9 the full fill and the
`default` case only prints a message. -/
def prepareCells (env : RandEnv) (fuel : Nat) (cells : Grid) (userChoice : Nat)
    (cellAliveCpt : Int) : Option (Grid × Int) :=
  let randomNo : Int := 0
  let lineCenter : Int := ((HEIGHT : Int) / 2) - 1
  let columnCenter : Int := ((WIDTH : Int) / 2) - 1
  if userChoice = 1 then
    some (addPattern cells lineCenter columnCenter BLOCK cellAliveCpt)
  else if userChoice = 2 then
    some (addPattern cells lineCenter columnCenter TUB cellAliveCpt)
  else if userChoice = 3 then
    some (addPattern cells lineCenter columnCenter NAVIRE cellAliveCpt)
  else if userChoice = 4 then
    some (addPattern cells lineCenter columnCenter CLIGNOTANT cellAliveCpt)
  else if userChoice = 5 then
    some (addPattern cells lineCenter columnCenter GALAXIEDEKOK cellAliveCpt)
  else if userChoice = 6 then
    some (addPattern cells lineCenter columnCenter PENTADECATHLON cellAliveCpt)
  else if userChoice = 7 then
    some (addPattern cells 4 4 PLANEUR cellAliveCpt)
  else if userChoice = 8 then
    (randomFill env randomNo fuel ⟨cells, cellAliveCpt, 0, 0⟩).map
      (fun st => (st.cells, st.cellAliveCpt))
  else if userChoice = 9 then
    some ((loopRange 1 ((HEIGHT : Int) - 1)).foldl
      (fun s line => (loopRange 1 ((WIDTH : Int) - 1)).foldl
        (fun s column => setCell s.1 line column true s.2) s)
      (cells, cellAliveCpt))
  else
    some (cells, cellAliveCpt)

/-! ## The driver -/

/-- The variables of `main`. -/
structure Driver where
  cells1 : Grid
  cells2 : Grid
  cellAliveCpt : Int
  noIteration : Int

/-- One turn of the `while (1)` loop of `main` without its output and its pause:
`noIteration++`, `lifeGameUpdate(cells1, cells2, &cellAliveCpt)`,
`copie(cells2, cells1)`. -/
def generation (d : Driver) : Option Driver := do
  let u ← lifeGameUpdate d.cells1 d.cells2 d.cellAliveCpt
  let c ← copie u.1 d.cells1
  pure ⟨c, u.1, u.2, wrapInt32 (d.noIteration + 1)⟩

/-- The driver state after `n` turns of the loop. -/
def generations : Nat → Driver → Option Driver
  | 0, d => some d
  | n + 1, d => (generation d).bind (generations n)

/-! ## Specification-level notions -/

/-- The cell at integer coordinates, dead when the coordinates are outside the board. -/
def Grid.cellAt (g : Grid) (line column : Int) : Bool :=
  if h : 0 ≤ line ∧ line < (HEIGHT : Int) ∧ 0 ≤ column ∧ column < (WIDTH : Int) then
    g.cell ⟨line.toNat, by simp only [HEIGHT] at h ⊢; omega⟩
      ⟨column.toNat, by simp only [WIDTH] at h ⊢; omega⟩
  else
    false

/-- Interior cells: rows and columns `1 .. 40`. -/
def interior (r : Fin HEIGHT) (c : Fin WIDTH) : Prop :=
  1 ≤ r.val ∧ r.val ≤ 40 ∧ 1 ≤ c.val ∧ c.val ≤ 40

instance (r : Fin HEIGHT) (c : Fin WIDTH) : Decidable (interior r c) := by
  unfold interior; exact inferInstance

/-- Border cells: row 0, row 41, column 0, column 41. -/
def border (r : Fin HEIGHT) (c : Fin WIDTH) : Prop :=
  r.val = 0 ∨ r.val = 41 ∨ c.val = 0 ∨ c.val = 41

instance (r : Fin HEIGHT) (c : Fin WIDTH) : Decidable (border r c) := by
  unfold border; exact inferInstance

/-- The guard of `setCell`: `0 < line < 42` and `0 < column < 42`. -/
def accepted (line column : Int) : Prop :=
  0 < line ∧ line < 42 ∧ 0 < column ∧ column < 42

instance (line column : Int) : Decidable (accepted line column) := by
  unfold accepted; exact inferInstance

/-- The number of alive cells among the 8 neighbours of `(r, c)`: the 3x3 window around
the cell without its centre, cells outside the board counting as absent. -/
def liveNeighbours (g : Grid) (r : Fin HEIGHT) (c : Fin WIDTH) : Nat :=
  ([((-1 : Int), (-1 : Int)), (-1, 0), (-1, 1), (0, -1), (0, 1), (1, -1), (1, 0), (1, 1)].filter
    (fun d => g.cellAt ((r.val : Int) + d.1) ((c.val : Int) + d.2))).length

/-- Conway's rule for the cell `(r, c)` of the grid `g`: alive with exactly 3 alive
neighbours, unchanged with exactly 2, dead otherwise. -/
def conwayNext (g : Grid) (r : Fin HEIGHT) (c : Fin WIDTH) : Bool :=
  if liveNeighbours g r c = 3 then true
  else if liveNeighbours g r c = 2 then g.cell r c
  else false

/-- The number of interior cells (rows and columns `1 .. 40`) of the grid that are
alive. -/
def aliveInterior (g : Grid) : Nat :=
  (Finset.univ.filter
    (fun p : Fin HEIGHT × Fin WIDTH => interior p.1 p.2 ∧ g.cell p.1 p.2 = true)).card

/-! ## Auxiliary definitions for the proofs -/

/-- One row of writes through `setCell`: the cell `(line, column)` receives `v column`
for each `column` of the list. -/
def paintRow (v : Int → Bool) (line : Int) (cols : List Int) (s : Grid × Int) : Grid × Int :=
  cols.foldl (fun s column => setCell s.1 line column (v column) s.2) s

/-- Rows of writes through `setCell`: the cell `(line, column)` receives `v line column`
for each `line` and `column` of the lists, line after line. -/
def paint (v : Int → Int → Bool) (lines cols : List Int) (s : Grid × Int) : Grid × Int :=
  lines.foldl (fun s line => paintRow (v line) line cols s) s

/-- The number of writes of a true value made by `paint`. -/
def paintCount (v : Int → Int → Bool) (lines cols : List Int) : Nat :=
  (lines.map (fun line => cols.countP (v line))).sum

/-- Conway's rule at integer coordinates for cells given by a function. -/
def conwayOf (f : Int → Int → Bool) (line column : Int) : Bool :=
  let n : Nat :=
    ([((-1 : Int), (-1 : Int)), (-1, 0), (-1, 1), (0, -1), (0, 1), (1, -1), (1, 0), (1, 1)].filter
      (fun d => f (line + d.1) (column + d.2))).length
  if n = 3 then true else if n = 2 then f line column else false

/-- Conway's rule at integer coordinates, as `lifeGameUpdate` evaluates it. -/
def conwayAt (g : Grid) (line column : Int) : Bool :=
  conwayOf (fun l c => g.cellAt l c) line column

/-- The cells of the listed positions `(row, column)` are alive, all others dead. -/
def ofList (alive : List (Nat × Nat)) (i j : Nat) : Bool :=
  alive.any (fun p => Nat.beq p.1 i && Nat.beq p.2 j)

/-- The number of alive cells among the 8 neighbours of `(i, j)`, for cells given by a
function on natural coordinates and `1 ≤ i`, `1 ≤ j`. -/
def nbrs (f : Nat → Nat → Bool) (i j : Nat) : Nat :=
  (f (i - 1) (j - 1)).toNat + (f (i - 1) j).toNat + (f (i - 1) (j + 1)).toNat
    + (f i (j - 1)).toNat + (f i (j + 1)).toNat
    + (f (i + 1) (j - 1)).toNat + (f (i + 1) j).toNat + (f (i + 1) (j + 1)).toNat

/-- Conway's rule for cells given by a function on natural coordinates. -/
def stepNat (f : Nat → Nat → Bool) (i j : Nat) : Bool :=
  Nat.beq (nbrs f i j) 3 || (Nat.beq (nbrs f i j) 2 && f i j)

/-- The position lies in the square `lo .. hi` of rows and columns. -/
def inBox (lo hi : Nat) (p : Nat × Nat) : Bool :=
  Nat.ble lo p.1 && Nat.ble p.1 hi && Nat.ble lo p.2 && Nat.ble p.2 hi

/-- A check that the cells listed in `l1` are Conway's successor of the cells listed in
`l`: both lists lie in the square `lo .. hi`, which leaves a margin of two cells to the
edge of the board, and the rule is evaluated on the square enlarged by one cell. -/
def checkStep (l l1 : List (Nat × Nat)) (lo hi : Nat) : Bool :=
  Nat.ble 2 lo && Nat.ble hi 39 && l.all (inBox lo hi) && l1.all (inBox lo hi) &&
    (List.range (hi + 3 - lo)).all (fun a => (List.range (hi + 3 - lo)).all (fun b =>
      stepNat (ofList l) (lo - 1 + a) (lo - 1 + b) == ofList l1 (lo - 1 + a) (lo - 1 + b)))

/-- The integer 1 for an alive cell, 0 for a dead one. -/
def ind (b : Bool) : Int := if b then 1 else 0

/-- A C library for the examples: `RAND_MAX` is 32767 and `rand()` returns 0, 1, 2, ...
modulo 32768. -/
def sampleEnv : RandEnv := ⟨32767, fun k => k % 32768⟩

/-- A sequence of calls `setCell(cell_, line, column, true, cellAliveCpt_)`, one for
each listed position, in order. -/
def setCells (ps : List (Nat × Nat)) (s : Grid × Int) : Grid × Int :=
  ps.foldl (fun s p => setCell s.1 (p.1 : Int) (p.2 : Int) true s.2) s

/-- The number of cells of the whole grid that are alive. -/
def aliveCells (g : Grid) : Nat :=
  (Finset.univ.filter (fun p : Fin HEIGHT × Fin WIDTH => g.cell p.1 p.2 = true)).card

/-- The body of the `do ... while` loop of the random fill: the two draws, the test on
`randomNo` and on the picked cell, and the accepted write with `cpt++`. -/
def fillIteration (env : RandEnv) (randomNo : Int) (st : FillState) : Option FillState :=
  let line : Int := (env.draws st.drawn : Int) % ((HEIGHT : Int) - 1)
  let column : Int := (env.draws (st.drawn + 1) : Int) % ((WIDTH : Int) - 1)
  let test : Option Bool :=
    if randomNo < env.RAND_MAX / 2 then
      (isCellAlive st.cells line column).map (fun alive => alive == false)
    else
      some false
  test.map (fun accept =>
    if accept then
      let w := setCell st.cells line column true st.cellAliveCpt
      (⟨w.1, w.2, wrapInt32 (st.cpt + 1), st.drawn + 2⟩ : FillState)
    else
      ⟨st.cells, st.cellAliveCpt, st.cpt, st.drawn + 2⟩)

/-- The row picked by the iteration of the random fill that starts at the draw `k`. -/
def pickLine (env : RandEnv) (k : Nat) : Nat := env.draws k % 41

/-- The column picked by the iteration of the random fill that starts at the draw `k`. -/
def pickColumn (env : RandEnv) (k : Nat) : Nat := env.draws (k + 1) % 41

/-- The iteration number `i` of the random fill (counted from 0, it uses the draws `2 i`
and `2 i + 1`) picks the row 0 or the column 0. -/
def borderPick (env : RandEnv) (i : Nat) : Bool :=
  Nat.beq (pickLine env (2 * i)) 0 || Nat.beq (pickColumn env (2 * i)) 0

/-- The number of iterations among the first `n` of the random fill whose picked row or
picked column is 0. -/
def borderPicks (env : RandEnv) (n : Nat) : Nat :=
  ((List.range n).filter (borderPick env)).length

/-- A C library whose `rand()` always returns 0, with `RAND_MAX` 32767. -/
def zeroEnv : RandEnv := ⟨32767, fun _ => 0⟩

/-- The invariant of the loop of the random fill started on an all-dead grid with the
counter 0: the border is dead, an even number of draws is consumed, the counter equals
the loop count, which is at most 800, and the number of alive cells plus the number of
past iterations that picked the row 0 or the column 0 is the loop count. -/
def FillInv (env : RandEnv) (st : FillState) : Prop :=
  (∀ r c, border r c → st.cells.cell r c = false) ∧ st.drawn % 2 = 0 ∧
    st.cellAliveCpt = st.cpt ∧ 0 ≤ st.cpt ∧ st.cpt ≤ 800 ∧
    (aliveCells st.cells : Int) + (borderPicks env (st.drawn / 2) : Int) = st.cpt

/-- A C library whose `rand()` returns 0 for the first 1600 calls and the number of the
call afterwards, with `RAND_MAX` 32767. -/
def zeroPrefixEnv : RandEnv := ⟨32767, fun k => if k < 1600 then 0 else k⟩

/-- A sequence of calls `setCell(cell_, line, column, true, cellAliveCpt_)` at integer
positions, in order. -/
def writes (ps : List (Int × Int)) (s : Grid × Int) : Grid × Int :=
  ps.foldl (fun s p => setCell s.1 p.1 p.2 true s.2) s

/-- The rectangle of offsets `r0 .. r1` by `c0 .. c1`, row after row. -/
def rect (r0 r1 c0 c1 : Int) : List (Int × Int) :=
  (loopRange r0 (r1 + 1)).flatMap (fun a => (loopRange c0 (c1 + 1)).map (fun b => (a, b)))

/-- The cells of the named patterns of `addPattern`, as offsets `(row, column)` from the
anchor, in the order of the calls of `setCell`: 1 block, 2 tub, 3 ship, 4 blinker,
5 Kok's galaxy, 6 pentadecathlon, 7 glider. -/
def patternOffsets : Nat → List (Int × Int)
  | 1 => [(0, 0), (0, 1), (1, 0), (1, 1)]
  | 2 => [(-1, 0), (0, -1), (0, 1), (1, 0)]
  | 3 => [(-1, -1), (0, -1), (-1, 0), (1, 1), (0, 1), (1, 0)]
  | 4 => [(0, -1), (0, 0), (0, 1)]
  | 5 => rect (-4) (-3) (-1) 4 ++ rect (-4) 1 (-4) (-3) ++ rect (-1) 4 3 4 ++ rect 3 4 (-4) 1
  | 6 => [(-1, -2), (-1, 3), (0, -4), (0, -3), (0, -1), (0, 0), (0, 1), (0, 2), (0, 4), (0, 5),
      (1, -2), (1, 3)]
  | 7 => [(0, 1), (1, 2), (2, 0), (2, 1), (2, 2)]
  | _ => []

/-- The anchor `prepareCells` passes to `addPattern`: `(4, 4)` for the glider
(selector 7), the centre `(HEIGHT / 2 - 1, WIDTH / 2 - 1) = (20, 20)` otherwise. -/
def patternAnchor (s : Nat) : Int × Int := if s = 7 then (4, 4) else (20, 20)

/-- The positions on the board of the cells of the pattern of a selector. -/
def patternCells (s : Nat) : List (Nat × Nat) :=
  (patternOffsets s).map
    (fun d => (((patternAnchor s).1 + d.1).toNat, ((patternAnchor s).2 + d.2).toNat))

/-! ## Boards as rows of bits -/

/-- The cell `(i, j)` of a board given by one natural number per row, the bit `j` of the
number standing for the column `j`. -/
def bitAt (rows : List Nat) (i j : Nat) : Bool := (rows.getD i 0).testBit j

/-- The bits set in at least two of three numbers. -/
def maj3 (a b c : Nat) : Nat := (a &&& b) ||| (a &&& c) ||| (b &&& c)

/-- Conway's rule on three consecutive rows of bits, all columns at once: the eight
neighbours of a column are added bit by bit, the result has the bit of a column set when
the count is 3, or 2 with the cell alive. -/
def rowStep (up mid down : Nat) : Nat :=
  let s0 := (up >>> 1) ^^^ up ^^^ (up <<< 1)
  let c0 := maj3 (up >>> 1) up (up <<< 1)
  let s1 := (down >>> 1) ^^^ down ^^^ (down <<< 1)
  let c1 := maj3 (down >>> 1) down (down <<< 1)
  let s2 := (mid >>> 1) ^^^ (mid <<< 1)
  let c2 := (mid >>> 1) &&& (mid <<< 1)
  let ones := s0 ^^^ s1 ^^^ s2
  let c3 := maj3 s0 s1 s2
  let parity := c0 ^^^ c1 ^^^ c2 ^^^ c3
  let two := (c0 &&& c1) ||| (c0 &&& c2) ||| (c0 &&& c3) ||| (c1 &&& c2) ||| (c1 &&& c3)
    ||| (c2 &&& c3)
  (parity ^^^ (parity &&& two)) &&& (ones ||| mid)

/-- The bits of the columns 1 to 40. -/
def interiorMask : Nat := 2199023255550

/-- The bits of the columns 0 and 41. -/
def borderMask : Nat := 2199023255553

/-- The rows of the board shown after one turn of the driver loop: Conway's successor in
the rows and columns 1 to 40, the same bits elsewhere. -/
def stepRows (rows : List Nat) : List Nat :=
  (List.range 42).map (fun i =>
    if 1 ≤ i ∧ i ≤ 40 then
      (rowStep (rows.getD (i - 1) 0) (rows.getD i 0) (rows.getD (i + 1) 0) &&& interiorMask)
        ||| (rows.getD i 0 &&& borderMask)
    else rows.getD i 0)

/-- The rows of bits of the board whose alive cells are the listed ones. -/
def rowsOfList (alive : List (Nat × Nat)) : List Nat :=
  (List.range 42).map (fun i =>
    (alive.filter (fun p => Nat.beq p.1 i)).foldl (fun m p => m ||| (1 <<< p.2)) 0)

/-- The rows of bits after `n` turns of the driver loop. -/
def iterRows : Nat → List Nat → List Nat
  | 0, rows => rows
  | n + 1, rows => iterRows n (stepRows rows)

/-- At least two of three bits. -/
def maj3B (a b c : Bool) : Bool := (a && b) || (a && c) || (b && c)

/-- The adder of `rowStep` on single bits: `a1 a2 a3` are the bits of the row above at
the columns `j + 1`, `j`, `j - 1`, `b1 b2 b3` those of the row below, `m1 m3` those of
the row itself at `j + 1` and `j - 1`, and `m` the bit of the cell. -/
def ruleBool (a1 a2 a3 b1 b2 b3 m1 m3 m : Bool) : Bool :=
  let s0 := Bool.xor (Bool.xor a1 a2) a3
  let c0 := maj3B a1 a2 a3
  let s1 := Bool.xor (Bool.xor b1 b2) b3
  let c1 := maj3B b1 b2 b3
  let s2 := Bool.xor m1 m3
  let c2 := m1 && m3
  let ones := Bool.xor (Bool.xor s0 s1) s2
  let c3 := maj3B s0 s1 s2
  let parity := Bool.xor (Bool.xor (Bool.xor c0 c1) c2) c3
  let two := (c0 && c1) || (c0 && c2) || (c0 && c3) || (c1 && c2) || (c1 && c3) || (c2 && c3)
  (Bool.xor parity (parity && two)) && (ones || m)

/-! ## The generator of the C library as explicit state -/

/-- The pseudo-random generator of the C library with its hidden state made explicit, a
natural number: `srand seed` is the state in which `srand(seed)` leaves the generator,
whatever its state was before, and `rand s` is the value that `rand()` returns in the
state `s` with the state it leaves. -/
structure Generator where
  RAND_MAX : Int
  srand : Nat → Nat
  rand : Nat → Nat × Nat

/-- The state of the generator after `k` calls of `rand()` from the state `s`. -/
def Generator.stateAfter (lib : Generator) (s : Nat) : Nat → Nat
  | 0 => s
  | k + 1 => (lib.rand (Generator.stateAfter lib s k)).2

/-- The value of the call number `k` (from 0) of `rand()` from the state `s`. -/
def Generator.draw (lib : Generator) (s k : Nat) : Nat :=
  (lib.rand (lib.stateAfter s k)).1

/-- The constant `RAND_MAX` and the sequence of values of `rand()` after `srand(0)`. -/
def Generator.env (lib : Generator) : RandEnv := ⟨lib.RAND_MAX, lib.draw (lib.srand 0)⟩

/-- The variables of the loop of the random fill and the state of the generator. -/
structure GenFillState where
  cells : Grid
  cellAliveCpt : Int
  cpt : Int
  gen : Nat

/-- The loop `do ... while (cpt < (HEIGHT - 2) * (WIDTH - 2) / 2)` of the random fill on
the generator state: `line = rand() % (HEIGHT - 1)`, then
`column = rand() % (WIDTH - 1)`, the test, the write with `cpt++`.  The first argument
bounds the number of iterations. -/
def randomFillGen (lib : Generator) (randomNo : Int) : Nat → GenFillState → Option GenFillState
  | 0, _ => none
  | fuel + 1, st =>
    let r1 := lib.rand st.gen
    let line : Int := (r1.1 : Int) % ((HEIGHT : Int) - 1)
    let r2 := lib.rand r1.2
    let column : Int := (r2.1 : Int) % ((WIDTH : Int) - 1)
    let test : Option Bool :=
      if randomNo < lib.RAND_MAX / 2 then
        (isCellAlive st.cells line column).map (fun alive => alive == false)
      else
        some false
    match test with
    | none => none
    | some accept =>
      let st1 : GenFillState :=
        if accept then
          let w := setCell st.cells line column true st.cellAliveCpt
          ⟨w.1, w.2, wrapInt32 (st.cpt + 1), r2.2⟩
        else
          ⟨st.cells, st.cellAliveCpt, st.cpt, r2.2⟩
      if st1.cpt < ((HEIGHT : Int) - 2) * ((WIDTH : Int) - 2) / 2 then
        randomFillGen lib randomNo fuel st1
      else
        some st1

/-- `prepareCells` on the generator state: `gen` is the state of the generator when the
function is called and the result holds the state when it returns.  The case 8 calls
`srand(0)` and then runs the loop of the random fill with `randomNo` 0; no other case
calls the library. -/
def prepareCellsGen (lib : Generator) (fuel : Nat) (gen : Nat) (cells : Grid)
    (userChoice : Nat) (cellAliveCpt : Int) : Option ((Grid × Int) × Nat) :=
  if userChoice = 8 then
    (randomFillGen lib 0 fuel ⟨cells, cellAliveCpt, 0, lib.srand 0⟩).map
      (fun st => ((st.cells, st.cellAliveCpt), st.gen))
  else
    (prepareCells lib.env fuel cells userChoice cellAliveCpt).map (fun r => (r, gen))

/-- A generator for the examples: `srand(seed)` sets the state to `seed`, the state
counts the calls, and the calls `2 i` and `2 i + 1` return the row `1 + (i / 40) % 40`
and the column `1 + i % 40`, so that 1600 calls run through the interior row by row;
`RAND_MAX` is 32767. -/
def sweepGen : Generator :=
  ⟨32767, fun seed => seed,
    fun s => (if s % 2 = 0 then 1 + (s / 2 / 40) % 40 else 1 + (s / 2) % 40, s + 1)⟩

/-- The cells `(r, c)` of the interior that come before the position `i` in the order
row by row: the cells written by the first `i` iterations of the random fill with the
generator `sweepGen`. -/
def sweepCells (i r c : Nat) : Bool :=
  decide (1 ≤ r ∧ 1 ≤ c ∧ c ≤ 40 ∧ (r - 1) * 40 + (c - 1) < i)
/-! ## Machine integers and loop ranges -/

theorem wrapInt32_of_isInt32 {x : Int} (h : isInt32 x) : wrapInt32 x = x := by
  unfold isInt32 INT32_MIN INT32_MAX at h
  unfold wrapInt32
  omega

theorem isInt32_wrapInt32 (x : Int) : isInt32 (wrapInt32 x) := by
  unfold isInt32 INT32_MIN INT32_MAX wrapInt32
  omega

theorem wrapInt32_wrapInt32_add (a b : Int) :
    wrapInt32 (wrapInt32 a + b) = wrapInt32 (a + b) := by
  unfold wrapInt32
  omega

theorem mem_loopRange {lo hi x : Int} : x ∈ loopRange lo hi ↔ lo ≤ x ∧ x < hi := by
  unfold loopRange
  simp only [List.mem_map, List.mem_range]
  constructor
  · rintro ⟨k, hk, rfl⟩
    omega
  · intro h
    exact ⟨(x - lo).toNat, by omega, by omega⟩

theorem loopRange_three (x : Int) : loopRange (x - 1) (x + 1 + 1) = [x - 1, x, x + 1] := by
  unfold loopRange
  have h : (x + 1 + 1 - (x - 1)).toNat = 3 := by omega
  rw [h]
  simp [List.range_succ]
  omega

/-! ## Reading and writing cells -/

theorem Grid.ext_cell {g h : Grid} (H : ∀ r c, g.cell r c = h.cell r c) : g = h := by
  apply Mathlib.Vector.ext
  intro r
  apply Mathlib.Vector.ext
  intro c
  exact H r c

theorem cell_allDead (r : Fin HEIGHT) (c : Fin WIDTH) : allDead.cell r c = false := by
  unfold allDead Grid.cell
  rw [Mathlib.Vector.get_replicate, Mathlib.Vector.get_replicate]

theorem cell_writeCell (g : Grid) (r r1 : Fin HEIGHT) (c c1 : Fin WIDTH) (v : Bool) :
    (writeCell g r c v).cell r1 c1 = if r1 = r ∧ c1 = c then v else g.cell r1 c1 := by
  unfold writeCell Grid.cell
  by_cases hr : r1 = r
  · subst hr
    rw [Mathlib.Vector.get_set_same]
    by_cases hc : c1 = c
    · subst hc
      simp [Mathlib.Vector.get_set_same]
    · rw [Mathlib.Vector.get_set_of_ne (Ne.symm hc)]
      simp [hc]
  · rw [Mathlib.Vector.get_set_of_ne (Ne.symm hr)]
    simp [hr]

theorem isCellAlive_of_inside (g : Grid) (line column : Int)
    (h : 0 ≤ line ∧ line < 42 ∧ 0 ≤ column ∧ column < 42) :
    isCellAlive g line column = some (g.cellAt line column) := by
  have h1 : 0 ≤ line ∧ line < (HEIGHT : Int) ∧ 0 ≤ column ∧ column < (WIDTH : Int) := by
    simp only [HEIGHT, WIDTH]; omega
  simp only [isCellAlive, Grid.cellAt, dif_pos h1]

theorem cellAt_coe (g : Grid) (r : Fin HEIGHT) (c : Fin WIDTH) :
    g.cellAt (r.val : Int) (c.val : Int) = g.cell r c := by
  have h1 : 0 ≤ (r.val : Int) ∧ (r.val : Int) < (HEIGHT : Int) ∧ 0 ≤ (c.val : Int) ∧
      (c.val : Int) < (WIDTH : Int) := by
    have := r.isLt; have := c.isLt
    simp only [HEIGHT, WIDTH] at *; omega
  simp only [Grid.cellAt, dif_pos h1, Int.toNat_ofNat]

theorem setCell_snd (g : Grid) (line column : Int) (life : Bool) (k : Int) :
    (setCell g line column life k).2 = wrapInt32 (k + (if life then 1 else 0)) := rfl

theorem setCell_fst_of_not_accepted (g : Grid) {line column : Int} (life : Bool) (k : Int)
    (h : ¬ accepted line column) : (setCell g line column life k).1 = g := by
  have h1 : ¬ (line > 0 ∧ line < (WIDTH : Int) ∧ column > 0 ∧ column < (WIDTH : Int)) := by
    unfold accepted at h
    simp only [WIDTH]; omega
  simp only [setCell, dif_neg h1]

theorem cell_setCell (g : Grid) (line column : Int) (life : Bool) (k : Int)
    (r : Fin HEIGHT) (c : Fin WIDTH) :
    (setCell g line column life k).1.cell r c =
      if accepted line column ∧ (r.val : Int) = line ∧ (c.val : Int) = column then life
      else g.cell r c := by
  by_cases h : accepted line column
  · have h1 : line > 0 ∧ line < (WIDTH : Int) ∧ column > 0 ∧ column < (WIDTH : Int) := by
      unfold accepted at h
      simp only [WIDTH]; omega
    simp only [setCell, dif_pos h1, cell_writeCell, h, true_and]
    unfold accepted at h
    have e : (r = (⟨line.toNat, by simp only [HEIGHT]; omega⟩ : Fin HEIGHT) ∧
        c = (⟨column.toNat, by simp only [WIDTH]; omega⟩ : Fin WIDTH)) ↔
        ((r.val : Int) = line ∧ (c.val : Int) = column) := by
      rw [Fin.ext_iff, Fin.ext_iff]
      simp only
      omega
    simp only [e]
  · rw [setCell_fst_of_not_accepted g life k h]
    simp [h]

/-! ## Loops -/

/-- A loop whose body always succeeds and is simulated by a pure step succeeds and is
simulated by the pure fold. -/
theorem foldlM_simulation {σ τ α : Type} (f : σ → α → Option σ) (g : τ → α → τ)
    (R : σ → τ → Prop) (l : List α)
    (hstep : ∀ s t x, x ∈ l → R s t → ∃ s1, f s x = some s1 ∧ R s1 (g t x)) :
    ∀ s t, R s t → ∃ s1, l.foldlM f s = some s1 ∧ R s1 (l.foldl g t) := by
  induction l with
  | nil =>
    intro s t h
    exact ⟨s, rfl, h⟩
  | cons x xs ih =>
    intro s t h
    obtain ⟨s1, h1, h2⟩ := hstep s t x (List.mem_cons_self x xs) h
    obtain ⟨s2, h3, h4⟩ :=
      ih (fun s t y hy hR => hstep s t y (List.mem_cons_of_mem x hy) hR) s1 (g t x) h2
    refine ⟨s2, ?_, h4⟩
    simp only [List.foldlM, h1, List.foldl]
    exact h3

theorem paintRow_nil (v : Int → Bool) (line : Int) (s : Grid × Int) :
    paintRow v line [] s = s := rfl

theorem paintRow_cons (v : Int → Bool) (line x : Int) (xs : List Int) (s : Grid × Int) :
    paintRow v line (x :: xs) s = paintRow v line xs (setCell s.1 line x (v x) s.2) := rfl

theorem paint_nil (v : Int → Int → Bool) (cols : List Int) (s : Grid × Int) :
    paint v [] cols s = s := rfl

theorem paint_cons (v : Int → Int → Bool) (x : Int) (xs cols : List Int) (s : Grid × Int) :
    paint v (x :: xs) cols s = paint v xs cols (paintRow (v x) x cols s) := rfl

theorem cell_paintRow (v : Int → Bool) (line : Int) (cols : List Int) (r : Fin HEIGHT)
    (c : Fin WIDTH) :
    ∀ s : Grid × Int, (paintRow v line cols s).1.cell r c =
      if 0 < r.val ∧ 0 < c.val ∧ (r.val : Int) = line ∧ (c.val : Int) ∈ cols
      then v (c.val : Int) else s.1.cell r c := by
  induction cols with
  | nil => intro s; simp [paintRow_nil]
  | cons x xs ih =>
    intro s
    rw [paintRow_cons, ih, cell_setCell]
    have hr := r.isLt
    have hc := c.isLt
    simp only [HEIGHT, WIDTH] at hr hc
    by_cases h1 : 0 < r.val ∧ 0 < c.val ∧ (r.val : Int) = line ∧ (c.val : Int) ∈ xs
    · have h2 : 0 < r.val ∧ 0 < c.val ∧ (r.val : Int) = line ∧ (c.val : Int) ∈ x :: xs :=
        ⟨h1.1, h1.2.1, h1.2.2.1, List.mem_cons_of_mem x h1.2.2.2⟩
      rw [if_pos h1, if_pos h2]
    · rw [if_neg h1]
      by_cases h3 : accepted line x ∧ (r.val : Int) = line ∧ (c.val : Int) = x
      · have h2 : 0 < r.val ∧ 0 < c.val ∧ (r.val : Int) = line ∧ (c.val : Int) ∈ x :: xs := by
          obtain ⟨ha, hl, hx⟩ := h3
          unfold accepted at ha
          refine ⟨by omega, by omega, hl, ?_⟩
          rw [hx]
          exact List.mem_cons_self x xs
        rw [if_pos h3, if_pos h2, h3.2.2]
      · have h2 : ¬ (0 < r.val ∧ 0 < c.val ∧ (r.val : Int) = line ∧ (c.val : Int) ∈ x :: xs) := by
          rintro ⟨p1, p2, p3, p4⟩
          rcases List.mem_cons.mp p4 with p5 | p5
          · apply h3
            refine ⟨?_, p3, p5⟩
            unfold accepted
            omega
          · exact h1 ⟨p1, p2, p3, p5⟩
        rw [if_neg h3, if_neg h2]

theorem cell_paint (v : Int → Int → Bool) (lines cols : List Int) (r : Fin HEIGHT)
    (c : Fin WIDTH) :
    ∀ s : Grid × Int, (paint v lines cols s).1.cell r c =
      if 0 < r.val ∧ 0 < c.val ∧ (r.val : Int) ∈ lines ∧ (c.val : Int) ∈ cols
      then v (r.val : Int) (c.val : Int) else s.1.cell r c := by
  induction lines with
  | nil => intro s; simp [paint_nil]
  | cons x xs ih =>
    intro s
    rw [paint_cons, ih, cell_paintRow]
    by_cases h1 : 0 < r.val ∧ 0 < c.val ∧ (r.val : Int) ∈ xs ∧ (c.val : Int) ∈ cols
    · have h2 : 0 < r.val ∧ 0 < c.val ∧ (r.val : Int) ∈ x :: xs ∧ (c.val : Int) ∈ cols :=
        ⟨h1.1, h1.2.1, List.mem_cons_of_mem x h1.2.2.1, h1.2.2.2⟩
      rw [if_pos h1, if_pos h2]
    · rw [if_neg h1]
      by_cases h3 : 0 < r.val ∧ 0 < c.val ∧ (r.val : Int) = x ∧ (c.val : Int) ∈ cols
      · have h2 : 0 < r.val ∧ 0 < c.val ∧ (r.val : Int) ∈ x :: xs ∧ (c.val : Int) ∈ cols := by
          obtain ⟨p1, p2, p3, p4⟩ := h3
          refine ⟨p1, p2, ?_, p4⟩
          rw [p3]
          exact List.mem_cons_self x xs
        rw [if_pos h3, if_pos h2, h3.2.2.1]
      · have h2 : ¬ (0 < r.val ∧ 0 < c.val ∧ (r.val : Int) ∈ x :: xs ∧ (c.val : Int) ∈ cols) := by
          rintro ⟨p1, p2, p3, p4⟩
          rcases List.mem_cons.mp p3 with p5 | p5
          · exact h3 ⟨p1, p2, p5, p4⟩
          · exact h1 ⟨p1, p2, p5, p4⟩
        rw [if_neg h3, if_neg h2]

theorem snd_paintRow (v : Int → Bool) (line : Int) (cols : List Int) :
    ∀ s : Grid × Int, isInt32 s.2 →
      (paintRow v line cols s).2 = wrapInt32 (s.2 + (cols.countP v : Nat)) := by
  induction cols with
  | nil =>
    intro s hs
    simp [paintRow_nil, wrapInt32_of_isInt32 hs]
  | cons x xs ih =>
    intro s _
    rw [paintRow_cons, ih _ (by rw [setCell_snd]; exact isInt32_wrapInt32 _), setCell_snd,
      wrapInt32_wrapInt32_add, List.countP_cons]
    congr 1
    cases v x
    · simp
    · simp
      omega

theorem snd_paint (v : Int → Int → Bool) (lines cols : List Int) :
    ∀ s : Grid × Int, isInt32 s.2 →
      (paint v lines cols s).2 = wrapInt32 (s.2 + (paintCount v lines cols : Nat)) := by
  induction lines with
  | nil =>
    intro s hs
    simp [paint_nil, paintCount, wrapInt32_of_isInt32 hs]
  | cons x xs ih =>
    intro s hs
    have h1 : isInt32 (paintRow (v x) x cols s).2 := by
      rw [snd_paintRow _ _ _ _ hs]
      exact isInt32_wrapInt32 _
    rw [paint_cons, ih _ h1, snd_paintRow _ _ _ _ hs, wrapInt32_wrapInt32_add]
    congr 1
    simp only [paintCount, List.map_cons, List.sum_cons]
    push_cast
    omega

/-! ## The engine: one cell -/

theorem wrapInt32_small {x : Int} (h : 0 ≤ x ∧ x ≤ 2000) : wrapInt32 x = x := by
  apply wrapInt32_of_isInt32
  unfold isInt32 INT32_MIN INT32_MAX
  omega

theorem frameColumnLoop_inside (g : Grid) (line column fl sum : Int)
    (hfl : 0 ≤ fl ∧ fl < 42) (hc : 1 ≤ column ∧ column ≤ 40) (hs : 0 ≤ sum ∧ sum ≤ 1000) :
    frameColumnLoop g line column fl sum =
      some (sum + ind (g.cellAt fl (column - 1)) + ind (g.cellAt fl column && (fl != line))
        + ind (g.cellAt fl (column + 1))) := by
  have r1 := isCellAlive_of_inside g fl (column - 1) (by omega)
  have r2 := isCellAlive_of_inside g fl column (by omega)
  have r3 := isCellAlive_of_inside g fl (column + 1) (by omega)
  have e3 : (column - 1 != column) = true := by simp
  have e4 : (column + 1 != column) = true := by simp
  have e6 : (column != column) = false := by simp
  have w1 : wrapInt32 (sum + 1) = sum + 1 := wrapInt32_small (by omega)
  have w2 : wrapInt32 (sum + 1 + 1) = sum + 1 + 1 := wrapInt32_small (by omega)
  have w3 : wrapInt32 (sum + 1 + 1 + 1) = sum + 1 + 1 + 1 := wrapInt32_small (by omega)
  simp only [frameColumnLoop, loopRange_three, List.foldlM_cons, List.foldlM_nil, r1, r2, r3,
    Option.bind_eq_bind, Option.some_bind, Option.pure_def, e3, e4, e6, Bool.or_true,
    Bool.or_false, Bool.and_true]
  generalize g.cellAt fl (column - 1) = a
  generalize g.cellAt fl column = b
  generalize g.cellAt fl (column + 1) = c
  generalize (fl != line) = d
  cases a <;> cases b <;> cases c <;> cases d <;> simp [ind, w1, w2, w3]

theorem length_filter_cons_ind {α : Type} (p : α → Bool) (x : α) (xs : List α) :
    (((x :: xs).filter p).length : Int) = ind (p x) + ((xs.filter p).length : Int) := by
  rw [List.filter_cons]
  cases p x <;> simp [ind]
  omega

theorem frameLineLoop_interior (g : Grid) {line column : Int}
    (hl : 1 ≤ line ∧ line ≤ 40) (hc : 1 ≤ column ∧ column ≤ 40) :
    frameLineLoop g line column 0 =
      some ((([((-1 : Int), (-1 : Int)), (-1, 0), (-1, 1), (0, -1), (0, 1), (1, -1), (1, 0),
        (1, 1)].filter (fun d => g.cellAt (line + d.1) (column + d.2))).length : Nat) : Int) := by
  have e1 : (line - 1 != line) = true := by simp
  have e2 : (line + 1 != line) = true := by simp
  have e5 : (line != line) = false := by simp
  have a1 : line + -1 = line - 1 := by omega
  have a2 : column + -1 = column - 1 := by omega
  have b0 : ∀ b : Bool, 0 ≤ ind b ∧ ind b ≤ 1 := by
    intro b; cases b <;> simp [ind]
  have s1 := frameColumnLoop_inside g line column (line - 1) 0 (by omega) hc
    (by omega)
  rw [e1] at s1
  simp only [Bool.and_true, Bool.and_false] at s1
  have s2 := frameColumnLoop_inside g line column line
    (0 + ind (g.cellAt (line - 1) (column - 1)) + ind (g.cellAt (line - 1) column)
      + ind (g.cellAt (line - 1) (column + 1))) (by omega) hc
    (by
      have := b0 (g.cellAt (line - 1) (column - 1))
      have := b0 (g.cellAt (line - 1) column)
      have := b0 (g.cellAt (line - 1) (column + 1))
      omega)
  rw [e5] at s2
  simp only [Bool.and_true, Bool.and_false] at s2
  have s3 := frameColumnLoop_inside g line column (line + 1)
    (0 + ind (g.cellAt (line - 1) (column - 1)) + ind (g.cellAt (line - 1) column)
      + ind (g.cellAt (line - 1) (column + 1)) + ind (g.cellAt line (column - 1)) + ind false
      + ind (g.cellAt line (column + 1))) (by omega) hc
    (by
      have := b0 (g.cellAt (line - 1) (column - 1))
      have := b0 (g.cellAt (line - 1) column)
      have := b0 (g.cellAt (line - 1) (column + 1))
      have := b0 (g.cellAt line (column - 1))
      have := b0 (g.cellAt line (column + 1))
      have := b0 false
      omega)
  rw [e2] at s3
  simp only [Bool.and_true, Bool.and_false] at s3
  simp only [frameLineLoop, loopRange_three, List.foldlM_cons, List.foldlM_nil, s1, s2, s3,
    Option.bind_eq_bind, Option.some_bind, Option.pure_def, length_filter_cons_ind,
    List.filter_nil, List.length_nil, a1, a2, add_zero]
  have i0 : ind false = 0 := rfl
  rw [i0]
  congr 1
  omega

theorem updateCell_interior (g : Grid) {line column : Int}
    (hl : 1 ≤ line ∧ line ≤ 40) (hc : 1 ≤ column ∧ column ≤ 40) (b : Grid) (k : Int) :
    updateCell g line column ⟨b, k, 0⟩ =
      some ⟨(setCell b line column (conwayAt g line column) k).1,
        (setCell b line column (conwayAt g line column) k).2, 0⟩ := by
  have r := isCellAlive_of_inside g line column (by omega)
  simp only [updateCell, frameLineLoop_interior g hl hc, Option.bind_eq_bind, Option.some_bind,
    Option.pure_def, conwayAt, conwayOf, r]
  generalize (([((-1 : Int), (-1 : Int)), (-1, 0), (-1, 1), (0, -1), (0, 1), (1, -1), (1, 0),
        (1, 1)].filter (fun d => g.cellAt (line + d.1) (column + d.2))).length : Nat) = n
  by_cases h3 : n = 3
  · subst h3
    simp
  · by_cases h2 : n = 2
    · subst h2
      simp
    · have h3i : ¬ ((n : Int) = 3) := by omega
      have h2i : ¬ ((n : Int) = 2) := by omega
      simp [h3, h2, h3i, h2i]

/-! ## The engine and the copy as sweeps over the interior -/

theorem loopRange_width : loopRange 1 ((WIDTH : Int) - 1) = loopRange 1 41 := by
  simp only [WIDTH]; rfl

theorem lifeGameUpdate_eq_paint (cellsA cellsB : Grid) (k : Int) :
    lifeGameUpdate cellsA cellsB k =
      some (paint (conwayAt cellsA) (loopRange 1 41) (loopRange 1 41) (cellsB, 0)) := by
  have inner : ∀ line : Int, line ∈ loopRange 1 41 → ∀ (s : UpdateState) (t : Grid × Int),
      s = ⟨t.1, t.2, 0⟩ →
      ∃ s1, (loopRange 1 41).foldlM (fun st column => updateCell cellsA line column st) s
          = some s1 ∧
        s1 = ⟨(paintRow (conwayAt cellsA line) line (loopRange 1 41) t).1,
          (paintRow (conwayAt cellsA line) line (loopRange 1 41) t).2, 0⟩ := by
    intro line hline
    have hl := mem_loopRange.mp hline
    apply foldlM_simulation (fun st column => updateCell cellsA line column st)
      (fun (s : Grid × Int) column => setCell s.1 line column (conwayAt cellsA line column) s.2)
      (fun (s : UpdateState) (t : Grid × Int) => s = ⟨t.1, t.2, 0⟩)
    intro s t column hcol hR
    have hc := mem_loopRange.mp hcol
    subst hR
    exact ⟨_, updateCell_interior cellsA (by omega) (by omega) t.1 t.2, rfl⟩
  have outer := foldlM_simulation
    (fun st line => (loopRange 1 41).foldlM (fun st column => updateCell cellsA line column st) st)
    (fun (s : Grid × Int) line => paintRow (conwayAt cellsA line) line (loopRange 1 41) s)
    (fun (s : UpdateState) (t : Grid × Int) => s = ⟨t.1, t.2, 0⟩) (loopRange 1 41)
    (fun s t line hline hR => inner line hline s t hR) ⟨cellsB, 0, 0⟩ (cellsB, 0) rfl
  obtain ⟨s1, h1, h2⟩ := outer
  unfold lifeGameUpdate
  rw [loopRange_width, h1, h2]
  simp only [Option.bind_eq_bind, Option.some_bind, Option.pure_def, paint]

theorem copie_eq_paint (src dst : Grid) :
    copie src dst =
      some (paint (fun line column => src.cellAt line column) (loopRange 1 41) (loopRange 1 41)
        (dst, 0)).1 := by
  have inner : ∀ line : Int, line ∈ loopRange 1 41 → ∀ (s t : Grid × Int), s = t →
      ∃ s1, (loopRange 1 41).foldlM (fun (st : Grid × Int) column => do
            let life ← isCellAlive src line column
            pure (setCell st.1 line column life st.2)) s = some s1 ∧
        s1 = paintRow (fun column => src.cellAt line column) line (loopRange 1 41) t := by
    intro line hline
    have hl := mem_loopRange.mp hline
    apply foldlM_simulation _
      (fun (s : Grid × Int) column => setCell s.1 line column (src.cellAt line column) s.2)
      (fun (s t : Grid × Int) => s = t)
    intro s t column hcol hR
    have hc := mem_loopRange.mp hcol
    subst hR
    have r := isCellAlive_of_inside src line column (by omega)
    refine ⟨_, ?_, rfl⟩
    simp only [r, Option.bind_eq_bind, Option.some_bind, Option.pure_def]
  have outer := foldlM_simulation
    (fun (st : Grid × Int) line => (loopRange 1 41).foldlM (fun (st : Grid × Int) column => do
            let life ← isCellAlive src line column
            pure (setCell st.1 line column life st.2)) st)
    (fun (s : Grid × Int) line =>
      paintRow (fun column => src.cellAt line column) line (loopRange 1 41) s)
    (fun (s t : Grid × Int) => s = t) (loopRange 1 41)
    (fun s t line hline hR => inner line hline s t hR) (dst, 0) (dst, 0) rfl
  obtain ⟨s1, h1, h2⟩ := outer
  unfold copie
  rw [loopRange_width, h1, h2]
  simp only [Option.bind_eq_bind, Option.some_bind, Option.pure_def, paint]

theorem mem_interior_range (r : Fin HEIGHT) (c : Fin WIDTH) :
    (0 < r.val ∧ 0 < c.val ∧ (r.val : Int) ∈ loopRange 1 41 ∧ (c.val : Int) ∈ loopRange 1 41)
      ↔ interior r c := by
  simp only [mem_loopRange, interior]
  omega

/-- The board produced by a sweep of writes over the interior. -/
theorem cell_paint_interior (v : Int → Int → Bool) (s : Grid × Int) (r : Fin HEIGHT)
    (c : Fin WIDTH) :
    (paint v (loopRange 1 41) (loopRange 1 41) s).1.cell r c =
      if interior r c then v (r.val : Int) (c.val : Int) else s.1.cell r c := by
  rw [cell_paint]
  simp only [mem_interior_range]

theorem conwayAt_coe (g : Grid) (r : Fin HEIGHT) (c : Fin WIDTH) :
    conwayAt g (r.val : Int) (c.val : Int) = conwayNext g r c := by
  simp only [conwayAt, conwayOf, conwayNext, liveNeighbours, cellAt_coe]

/-! ## Counting alive cells -/

theorem countP_eq_sum_ite {α : Type} (p : α → Bool) (l : List α) :
    l.countP p = (l.map (fun x => if p x = true then 1 else 0)).sum := by
  induction l with
  | nil => rfl
  | cons x xs ih =>
    rw [List.countP_cons, ih, List.map_cons, List.sum_cons]
    omega

theorem sum_map_range (f : Nat → Nat) (n : Nat) :
    ((List.range n).map f).sum = ∑ i in Finset.range n, f i := by
  induction n with
  | zero => rfl
  | succ n ih =>
    rw [List.range_succ, List.map_append, List.sum_append, ih, Finset.sum_range_succ]
    simp

theorem sum_map_loopRange (f : Int → Nat) :
    ((loopRange 1 41).map f).sum = ∑ i in Finset.range 40, f ((i : Int) + 1) := by
  have h : loopRange 1 41 = (List.range 40).map (fun (k : Nat) => 1 + (k : Int)) := rfl
  rw [h, List.map_map, sum_map_range]
  apply Finset.sum_congr rfl
  intro i _
  simp only [Function.comp]
  congr 1
  omega

theorem sum_fin_interior (h : Nat → Nat) (h0 : h 0 = 0) (h41 : h 41 = 0) :
    ∑ i : Fin 42, h i.val = ∑ i in Finset.range 40, h (i + 1) := by
  rw [← Finset.sum_range h, Finset.sum_range_succ, Finset.sum_range_succ', h0, h41, add_zero,
    add_zero]

theorem paintCount_eq_aliveInterior (v : Int → Int → Bool) (g : Grid)
    (h : ∀ r c, interior r c → g.cell r c = v (r.val : Int) (c.val : Int)) :
    paintCount v (loopRange 1 41) (loopRange 1 41) = aliveInterior g := by
  have e1 : aliveInterior g = ∑ r : Fin 42, ∑ c : Fin 42,
      (fun i j : Nat => if (1 ≤ i ∧ i ≤ 40 ∧ 1 ≤ j ∧ j ≤ 40) ∧ v (i : Int) (j : Int) = true
        then 1 else 0) r.val c.val := by
    unfold aliveInterior
    rw [Finset.card_filter, Fintype.sum_prod_type]
    apply Finset.sum_congr rfl
    intro r _
    apply Finset.sum_congr rfl
    intro c _
    by_cases hi : interior r c
    · rw [h r c hi]
      have hi2 := hi
      unfold interior at hi2
      simp only [hi, hi2, true_and, and_self]
    · have hi2 := hi
      unfold interior at hi2
      simp only [hi, hi2, false_and]
  rw [e1]
  rw [sum_fin_interior (fun i => ∑ c : Fin 42,
      (fun i j : Nat => if (1 ≤ i ∧ i ≤ 40 ∧ 1 ≤ j ∧ j ≤ 40) ∧ v (i : Int) (j : Int) = true
        then 1 else 0) i c.val) (by simp) (by simp)]
  unfold paintCount
  rw [sum_map_loopRange]
  apply Finset.sum_congr rfl
  intro i hi
  have hi40 : i < 40 := Finset.mem_range.mp hi
  rw [sum_fin_interior (fun j =>
      (fun i j : Nat => if (1 ≤ i ∧ i ≤ 40 ∧ 1 ≤ j ∧ j ≤ 40) ∧ v (i : Int) (j : Int) = true
        then 1 else 0) (i + 1) j) (by simp) (by simp)]
  rw [countP_eq_sum_ite, sum_map_loopRange]
  apply Finset.sum_congr rfl
  intro j hj
  have hj40 : j < 40 := Finset.mem_range.mp hj
  have hb : (1 ≤ i + 1 ∧ i + 1 ≤ 40 ∧ 1 ≤ j + 1 ∧ j + 1 ≤ 40) := by omega
  simp only [hb, true_and, Nat.cast_add, Nat.cast_one]

/-! ## What the engine, the copy and one driver turn compute -/

theorem aliveInterior_le (g : Grid) : aliveInterior g ≤ 1764 := by
  unfold aliveInterior
  calc (Finset.univ.filter
        (fun p : Fin HEIGHT × Fin WIDTH => interior p.1 p.2 ∧ g.cell p.1 p.2 = true)).card
      ≤ (Finset.univ : Finset (Fin HEIGHT × Fin WIDTH)).card := Finset.card_filter_le _ _
    _ = 1764 := by
      rw [Finset.card_univ, Fintype.card_prod, Fintype.card_fin]
      norm_num [HEIGHT]

/-- The sweep of writes over the interior, started with the counter 0: the board it
leaves and the counter, which is the number of alive interior cells of that board. -/
theorem paint_interior_zero (v : Int → Int → Bool) (b : Grid) :
    (∀ r c, (paint v (loopRange 1 41) (loopRange 1 41) (b, 0)).1.cell r c =
      if interior r c then v (r.val : Int) (c.val : Int) else b.cell r c) ∧
    (paint v (loopRange 1 41) (loopRange 1 41) (b, 0)).2 =
      (aliveInterior (paint v (loopRange 1 41) (loopRange 1 41) (b, 0)).1 : Int) := by
  have hcell := cell_paint_interior v (b, 0)
  refine ⟨hcell, ?_⟩
  have hcount := paintCount_eq_aliveInterior v
    (paint v (loopRange 1 41) (loopRange 1 41) (b, 0)).1
    (fun r c hi => by rw [hcell r c, if_pos hi])
  have hle := aliveInterior_le (paint v (loopRange 1 41) (loopRange 1 41) (b, 0)).1
  have hz : isInt32 (0 : Int) := by
    unfold isInt32 INT32_MIN INT32_MAX
    omega
  have hsnd := snd_paint v (loopRange 1 41) (loopRange 1 41) (b, 0) hz
  rw [hcount] at hsnd
  have hw : wrapInt32 (0 + (aliveInterior
      (paint v (loopRange 1 41) (loopRange 1 41) (b, 0)).1 : Int)) =
      (aliveInterior (paint v (loopRange 1 41) (loopRange 1 41) (b, 0)).1 : Int) := by
    rw [zero_add]
    exact wrapInt32_small ⟨by omega, by omega⟩
  rw [hsnd]
  exact hw

/-- `lifeGameUpdate` returns; the board it returns has Conway's successor of the
current grid in the interior and the cells of the buffer elsewhere, and the counter it
returns is the number of alive interior cells of that board. -/
theorem lifeGameUpdate_spec (cellsA cellsB : Grid) (k : Int) :
    ∃ next : Grid, lifeGameUpdate cellsA cellsB k = some (next, (aliveInterior next : Int)) ∧
      ∀ r c, next.cell r c = if interior r c then conwayNext cellsA r c else cellsB.cell r c := by
  obtain ⟨h1, h2⟩ := paint_interior_zero (conwayAt cellsA) cellsB
  refine ⟨(paint (conwayAt cellsA) (loopRange 1 41) (loopRange 1 41) (cellsB, 0)).1, ?_, ?_⟩
  · rw [lifeGameUpdate_eq_paint, ← h2]
  · intro r c
    rw [h1 r c, conwayAt_coe]

/-- `copie` returns; the board it returns has the cells of the source in the interior
and the cells of the destination elsewhere. -/
theorem copie_spec (src dst : Grid) :
    ∃ out : Grid, copie src dst = some out ∧
      ∀ r c, out.cell r c = if interior r c then src.cell r c else dst.cell r c := by
  refine ⟨_, copie_eq_paint src dst, ?_⟩
  intro r c
  rw [cell_paint_interior, cellAt_coe]

/-- One turn of the driver loop returns; the board shown next has Conway's successor in
the interior and its previous cells on the border. -/
theorem generation_spec (d : Driver) :
    ∃ c1 c2 : Grid,
      generation d = some ⟨c1, c2, (aliveInterior c2 : Int), wrapInt32 (d.noIteration + 1)⟩ ∧
      (∀ r c, c2.cell r c =
        if interior r c then conwayNext d.cells1 r c else d.cells2.cell r c) ∧
      (∀ r c, c1.cell r c =
        if interior r c then conwayNext d.cells1 r c else d.cells1.cell r c) := by
  obtain ⟨c2, h1, h2⟩ := lifeGameUpdate_spec d.cells1 d.cells2 d.cellAliveCpt
  obtain ⟨c1, h3, h4⟩ := copie_spec c2 d.cells1
  refine ⟨c1, c2, ?_, h2, ?_⟩
  · simp only [generation, h1, h3, Option.bind_eq_bind, Option.some_bind, Option.pure_def]
  · intro r c
    rw [h4 r c]
    by_cases hi : interior r c
    · rw [if_pos hi, if_pos hi, h2 r c, if_pos hi]
    · rw [if_neg hi, if_neg hi]

theorem not_interior_of_border {r : Fin HEIGHT} {c : Fin WIDTH} (h : border r c) :
    ¬ interior r c := by
  unfold border at h
  unfold interior
  omega

theorem interior_or_border (r : Fin HEIGHT) (c : Fin WIDTH) : interior r c ∨ border r c := by
  have hr := r.isLt
  have hc := c.isLt
  simp only [HEIGHT, WIDTH] at hr hc
  unfold border interior
  omega

theorem liveNeighbours_le (g : Grid) (r : Fin HEIGHT) (c : Fin WIDTH) :
    liveNeighbours g r c ≤ 8 := by
  unfold liveNeighbours
  exact List.length_filter_le _ _

/-! ## Boards given by a list of alive cells -/

theorem nat_beq_eq_false {a b : Nat} (h : ¬ a = b) : Nat.beq a b = false := by
  cases hb : Nat.beq a b
  · rfl
  · rw [Nat.beq_eq] at hb
    exact absurd hb h

theorem ofList_eq_true_iff (l : List (Nat × Nat)) (i j : Nat) :
    ofList l i j = true ↔ (i, j) ∈ l := by
  unfold ofList
  rw [List.any_eq_true]
  constructor
  · rintro ⟨p, hp, h⟩
    rw [Bool.and_eq_true, Nat.beq_eq, Nat.beq_eq] at h
    have e : p = (i, j) := Prod.ext h.1 h.2
    rw [← e]
    exact hp
  · intro h
    exact ⟨(i, j), h, by simp⟩

theorem ofList_eq_false_of_not_mem {l : List (Nat × Nat)} {i j : Nat} (h : (i, j) ∉ l) :
    ofList l i j = false := by
  cases hb : ofList l i j
  · rfl
  · exact absurd ((ofList_eq_true_iff l i j).mp hb) h

theorem inBox_iff (lo hi : Nat) (p : Nat × Nat) :
    inBox lo hi p = true ↔ lo ≤ p.1 ∧ p.1 ≤ hi ∧ lo ≤ p.2 ∧ p.2 ≤ hi := by
  unfold inBox
  simp only [Bool.and_eq_true, Nat.ble_eq]
  omega

theorem ofList_outside {l : List (Nat × Nat)} {lo hi : Nat}
    (hl : ∀ p ∈ l, inBox lo hi p = true) {i j : Nat}
    (h : ¬ (lo ≤ i ∧ i ≤ hi ∧ lo ≤ j ∧ j ≤ hi)) : ofList l i j = false := by
  apply ofList_eq_false_of_not_mem
  intro hm
  exact h ((inBox_iff lo hi (i, j)).mp (hl _ hm))

/-- Soundness of `checkStep`: Conway's rule holds at every interior cell, and both lists
lie in the interior. -/
theorem checkStep_sound {l l1 : List (Nat × Nat)} {lo hi : Nat}
    (h : checkStep l l1 lo hi = true) :
    (∀ i j, 1 ≤ i → i ≤ 40 → 1 ≤ j → j ≤ 40 → stepNat (ofList l) i j = ofList l1 i j) ∧
    (∀ p ∈ l, 1 ≤ p.1 ∧ p.1 ≤ 40 ∧ 1 ≤ p.2 ∧ p.2 ≤ 40) ∧
    (∀ p ∈ l1, 1 ≤ p.1 ∧ p.1 ≤ 40 ∧ 1 ≤ p.2 ∧ p.2 ≤ 40) := by
  unfold checkStep at h
  simp only [Bool.and_eq_true, Nat.ble_eq, List.all_eq_true, List.mem_range, beq_iff_eq] at h
  obtain ⟨⟨⟨⟨hlo, hhi⟩, hl⟩, hl1⟩, hwin⟩ := h
  refine ⟨?_, ?_, ?_⟩
  · intro i j hi1 hi2 hj1 hj2
    by_cases hin : lo - 1 ≤ i ∧ i ≤ hi + 1 ∧ lo - 1 ≤ j ∧ j ≤ hi + 1
    · have h1 := hwin (i - (lo - 1)) (by omega) (j - (lo - 1)) (by omega)
      have ei : lo - 1 + (i - (lo - 1)) = i := by omega
      have ej : lo - 1 + (j - (lo - 1)) = j := by omega
      rw [ei, ej] at h1
      exact h1
    · have o1 : ofList l1 i j = false := ofList_outside hl1 (by omega)
      have n1 : ofList l (i - 1) (j - 1) = false := ofList_outside hl (by omega)
      have n2 : ofList l (i - 1) j = false := ofList_outside hl (by omega)
      have n3 : ofList l (i - 1) (j + 1) = false := ofList_outside hl (by omega)
      have n4 : ofList l i (j - 1) = false := ofList_outside hl (by omega)
      have n5 : ofList l i (j + 1) = false := ofList_outside hl (by omega)
      have n6 : ofList l (i + 1) (j - 1) = false := ofList_outside hl (by omega)
      have n7 : ofList l (i + 1) j = false := ofList_outside hl (by omega)
      have n8 : ofList l (i + 1) (j + 1) = false := ofList_outside hl (by omega)
      rw [o1]
      have z3 : Nat.beq 0 3 = false := rfl
      have z2 : Nat.beq 0 2 = false := rfl
      simp [stepNat, nbrs, n1, n2, n3, n4, n5, n6, n7, n8, z3, z2]
  · intro p hp
    have := (inBox_iff lo hi p).mp (hl p hp)
    omega
  · intro p hp
    have := (inBox_iff lo hi p).mp (hl1 p hp)
    omega

theorem cellAt_nat {g : Grid} {f : Nat → Nat → Bool}
    (H : ∀ r c, g.cell r c = f r.val c.val) (i j : Nat) (hi : i < 42) (hj : j < 42) :
    g.cellAt (i : Int) (j : Int) = f i j := by
  have h := cellAt_coe g ⟨i, hi⟩ ⟨j, hj⟩
  rw [H] at h
  exact h

theorem ind_eq_toNat (b : Bool) : ind b = (b.toNat : Int) := by
  cases b <;> rfl

/-- Conway's rule on a board whose cells are given by a function on natural
coordinates. -/
theorem conwayNext_eq_stepNat {g : Grid} {f : Nat → Nat → Bool}
    (H : ∀ r c, g.cell r c = f r.val c.val) (r : Fin HEIGHT) (c : Fin WIDTH)
    (hi : interior r c) : conwayNext g r c = stepNat f r.val c.val := by
  unfold interior at hi
  have a1 : (r.val : Int) + -1 = ((r.val - 1 : Nat) : Int) := by omega
  have a2 : (c.val : Int) + -1 = ((c.val - 1 : Nat) : Int) := by omega
  have a3 : (r.val : Int) + 1 = ((r.val + 1 : Nat) : Int) := by omega
  have a4 : (c.val : Int) + 1 = ((c.val + 1 : Nat) : Int) := by omega
  have hn : ((liveNeighbours g r c : Nat) : Int) = ((nbrs f r.val c.val : Nat) : Int) := by
    unfold liveNeighbours nbrs
    simp only [length_filter_cons_ind, List.filter_nil, List.length_nil, a1, a2, a3, a4,
      add_zero, ind_eq_toNat]
    rw [cellAt_nat H _ _ (by omega) (by omega), cellAt_nat H _ _ (by omega) (by omega),
      cellAt_nat H _ _ (by omega) (by omega), cellAt_nat H _ _ (by omega) (by omega),
      cellAt_nat H _ _ (by omega) (by omega), cellAt_nat H _ _ (by omega) (by omega),
      cellAt_nat H _ _ (by omega) (by omega), cellAt_nat H _ _ (by omega) (by omega)]
    push_cast
    omega
  have hn2 : liveNeighbours g r c = nbrs f r.val c.val := by exact_mod_cast hn
  unfold conwayNext stepNat
  rw [hn2, H r c]
  by_cases h3 : nbrs f r.val c.val = 3
  · simp [h3]
  · by_cases h2 : nbrs f r.val c.val = 2
    · simp [h2]
    · rw [if_neg h3, if_neg h2, nat_beq_eq_false h3, nat_beq_eq_false h2]
      rfl

theorem aliveInterior_ofList {g : Grid} {l : List (Nat × Nat)}
    (H : ∀ r c, interior r c → g.cell r c = ofList l r.val c.val)
    (hbox : ∀ p ∈ l, 1 ≤ p.1 ∧ p.1 ≤ 40 ∧ 1 ≤ p.2 ∧ p.2 ≤ 40) (hnd : l.Nodup) :
    aliveInterior g = l.length := by
  rw [← List.toFinset_card_of_nodup hnd]
  unfold aliveInterior
  apply Finset.card_bij (fun (p : Fin HEIGHT × Fin WIDTH) _ => (p.1.val, p.2.val))
  · intro p hp
    rw [Finset.mem_filter] at hp
    obtain ⟨_, h1, h2⟩ := hp
    rw [H p.1 p.2 h1, ofList_eq_true_iff] at h2
    exact List.mem_toFinset.mpr h2
  · intro p _ q _ hpq
    have e1 : p.1.val = q.1.val := congrArg Prod.fst hpq
    have e2 : p.2.val = q.2.val := congrArg Prod.snd hpq
    exact Prod.ext (Fin.ext e1) (Fin.ext e2)
  · intro b hb
    have hm : b ∈ l := List.mem_toFinset.mp hb
    have hb4 := hbox b hm
    refine ⟨(⟨b.1, by simp only [HEIGHT]; omega⟩, ⟨b.2, by simp only [WIDTH]; omega⟩), ?_, rfl⟩
    rw [Finset.mem_filter]
    have hi : interior (⟨b.1, by simp only [HEIGHT]; omega⟩ : Fin HEIGHT)
        (⟨b.2, by simp only [WIDTH]; omega⟩ : Fin WIDTH) := hb4
    refine ⟨Finset.mem_univ _, hi, ?_⟩
    rw [H _ _ hi, ofList_eq_true_iff]
    exact hm

theorem ofList_border {l : List (Nat × Nat)}
    (hbox : ∀ p ∈ l, 1 ≤ p.1 ∧ p.1 ≤ 40 ∧ 1 ≤ p.2 ∧ p.2 ≤ 40) {r : Fin HEIGHT} {c : Fin WIDTH}
    (hi : ¬ interior r c) : ofList l r.val c.val = false := by
  apply ofList_eq_false_of_not_mem
  intro hm
  exact hi (hbox _ hm)

/-- One turn of the driver loop on a board given by a list of alive cells, when
`checkStep` accepts the list of the next board: the turn returns, the board shown next
is given by the second list, the counter is the length of that list, and the second
buffer has the same interior and keeps its border. -/
theorem generation_pattern (d : Driver) {l l1 : List (Nat × Nat)} {lo hi : Nat}
    (H : ∀ r c, d.cells1.cell r c = ofList l r.val c.val)
    (hcheck : checkStep l l1 lo hi = true) (hnd : l1.Nodup) :
    ∃ d1, generation d = some d1 ∧
      (∀ r c, d1.cells1.cell r c = ofList l1 r.val c.val) ∧
      d1.cellAliveCpt = (l1.length : Int) ∧
      (∀ r c, interior r c → d1.cells2.cell r c = ofList l1 r.val c.val) ∧
      (∀ r c, ¬ interior r c → d1.cells2.cell r c = d.cells2.cell r c) ∧
      d1.noIteration = wrapInt32 (d.noIteration + 1) := by
  obtain ⟨hstep, hb, hb1⟩ := checkStep_sound hcheck
  obtain ⟨c1, c2, h1, h2, h3⟩ := generation_spec d
  have hc2 : ∀ r c, interior r c → c2.cell r c = ofList l1 r.val c.val := by
    intro r c hi
    rw [h2 r c, if_pos hi, conwayNext_eq_stepNat H r c hi]
    exact hstep r.val c.val hi.1 hi.2.1 hi.2.2.1 hi.2.2.2
  refine ⟨_, h1, ?_, ?_, hc2, ?_, rfl⟩
  · intro r c
    show c1.cell r c = _
    rw [h3 r c]
    by_cases hi : interior r c
    · rw [if_pos hi, conwayNext_eq_stepNat H r c hi]
      exact hstep r.val c.val hi.1 hi.2.1 hi.2.2.1 hi.2.2.2
    · rw [if_neg hi, H r c, ofList_border hb hi, ofList_border hb1 hi]
  · show ((aliveInterior c2 : Nat) : Int) = _
    rw [aliveInterior_ofList hc2 hb1 hnd]
  · intro r c hi
    show c2.cell r c = _
    rw [h2 r c, if_neg hi]

theorem setCells_nil (s : Grid × Int) : setCells [] s = s := rfl

theorem setCells_cons (p : Nat × Nat) (ps : List (Nat × Nat)) (s : Grid × Int) :
    setCells (p :: ps) s = setCells ps (setCell s.1 (p.1 : Int) (p.2 : Int) true s.2) := rfl

/-- The board after a sequence of `setCell` calls with `life` true at accepted
positions. -/
theorem cell_setCells (ps : List (Nat × Nat)) (r : Fin HEIGHT) (c : Fin WIDTH) :
    ∀ s : Grid × Int, (∀ p ∈ ps, 0 < p.1 ∧ p.1 < 42 ∧ 0 < p.2 ∧ p.2 < 42) →
      (setCells ps s).1.cell r c = (ofList ps r.val c.val || s.1.cell r c) := by
  induction ps with
  | nil =>
    intro s _
    simp [setCells_nil, ofList]
  | cons p ps ih =>
    intro s hacc
    have hp := hacc p (List.mem_cons_self p ps)
    have ha : accepted (p.1 : Int) (p.2 : Int) := by
      unfold accepted
      omega
    rw [setCells_cons, ih _ (fun q hq => hacc q (List.mem_cons_of_mem p hq)), cell_setCell]
    simp only [ha, true_and]
    by_cases h : (r.val : Int) = (p.1 : Int) ∧ (c.val : Int) = (p.2 : Int)
    · have e1 : p.1 = r.val := by omega
      have e2 : p.2 = c.val := by omega
      have hm : ofList (p :: ps) r.val c.val = true := by
        rw [ofList_eq_true_iff, ← e1, ← e2]
        exact List.mem_cons_self _ _
      rw [if_pos h, hm]
      simp
    · rw [if_neg h]
      have e : ofList (p :: ps) r.val c.val = ofList ps r.val c.val := by
        have hne : (Nat.beq p.1 r.val && Nat.beq p.2 c.val) = false := by
          by_cases h1 : p.1 = r.val
          · have h2 : ¬ p.2 = c.val := by omega
            rw [nat_beq_eq_false h2]
            simp
          · rw [nat_beq_eq_false h1]
            simp
        simp only [ofList, List.any_cons, hne, Bool.false_or]
      rw [e]

/-- The counter after a sequence of `setCell` calls with `life` true. -/
theorem snd_setCells (ps : List (Nat × Nat)) :
    ∀ s : Grid × Int, isInt32 s.2 →
      (setCells ps s).2 = wrapInt32 (s.2 + (ps.length : Nat)) := by
  induction ps with
  | nil =>
    intro s hs
    simp [setCells_nil, wrapInt32_of_isInt32 hs]
  | cons p ps ih =>
    intro s _
    rw [setCells_cons, ih _ (by rw [setCell_snd]; exact isInt32_wrapInt32 _), setCell_snd,
      wrapInt32_wrapInt32_add]
    congr 1
    simp only [if_true, List.length_cons]
    push_cast
    omega

/-! ## The claims -/

/-- C1: Conway rule of `lifeGameUpdate`.  For every current grid, every next buffer,
every prior counter value and every interior cell `(r, c)` (rows and columns 1 to 40),
`lifeGameUpdate` returns, and in the board it wrote the cell `(r, c)` is alive when
exactly 3 of the 8 neighbours of `(r, c)` in the current grid are alive, equals the cell
of the current grid when exactly 2 are alive, and is dead for every other count; the
count is at most 8. -/
theorem lifeGameUpdate_conway_rule (cur next : Grid) (cpt : Int) (r : Fin HEIGHT)
    (c : Fin WIDTH) (hr : 1 ≤ r.val ∧ r.val ≤ 40) (hc : 1 ≤ c.val ∧ c.val ≤ 40) :
    ∃ next1 cpt1, lifeGameUpdate cur next cpt = some (next1, cpt1) ∧
      liveNeighbours cur r c ≤ 8 ∧
      (liveNeighbours cur r c = 3 → next1.cell r c = true) ∧
      (liveNeighbours cur r c = 2 → next1.cell r c = cur.cell r c) ∧
      (liveNeighbours cur r c ≠ 3 → liveNeighbours cur r c ≠ 2 → next1.cell r c = false) := by
  obtain ⟨next1, h1, h2⟩ := lifeGameUpdate_spec cur next cpt
  have hi : interior r c := ⟨hr.1, hr.2, hc.1, hc.2⟩
  have hcell : next1.cell r c = conwayNext cur r c := by rw [h2 r c, if_pos hi]
  refine ⟨next1, _, h1, liveNeighbours_le cur r c, ?_, ?_, ?_⟩
  · intro h3
    rw [hcell, conwayNext, if_pos h3]
  · intro h2n
    have h3 : ¬ liveNeighbours cur r c = 3 := by omega
    rw [hcell, conwayNext, if_neg h3, if_pos h2n]
  · intro h3 h2n
    rw [hcell, conwayNext, if_neg h3, if_neg h2n]

/-- Witness of C1: the cell `(19, 20)` above the middle of a horizontal blinker placed
at `(20, 20)`, with a next buffer and a prior counter that are not zero. -/
theorem lifeGameUpdate_conway_rule_witness :
    ((1 ≤ (19 : Fin HEIGHT).val ∧ (19 : Fin HEIGHT).val ≤ 40) ∧
      (1 ≤ (20 : Fin WIDTH).val ∧ (20 : Fin WIDTH).val ≤ 40)) ∧
    ∃ next1 cpt1,
      lifeGameUpdate (addPattern allDead 20 20 4 0).1 (addPattern allDead 20 20 1 0).1 7
        = some (next1, cpt1) ∧
      liveNeighbours (addPattern allDead 20 20 4 0).1 19 20 ≤ 8 ∧
      (liveNeighbours (addPattern allDead 20 20 4 0).1 19 20 = 3 → next1.cell 19 20 = true) ∧
      (liveNeighbours (addPattern allDead 20 20 4 0).1 19 20 = 2 →
        next1.cell 19 20 = (addPattern allDead 20 20 4 0).1.cell 19 20) ∧
      (liveNeighbours (addPattern allDead 20 20 4 0).1 19 20 ≠ 3 →
        liveNeighbours (addPattern allDead 20 20 4 0).1 19 20 ≠ 2 →
        next1.cell 19 20 = false) :=
  ⟨⟨by decide, by decide⟩,
    lifeGameUpdate_conway_rule (addPattern allDead 20 20 4 0).1 (addPattern allDead 20 20 1 0).1
      7 19 20 (by decide) (by decide)⟩

/-- C2: live counter of a generation pass.  For every current grid, next buffer and
prior counter value, `lifeGameUpdate` returns a counter equal to the number of alive
interior cells (rows and columns 1 to 40) of the board it wrote, and the result is the
same for every other prior counter value. -/
theorem lifeGameUpdate_counter (cur next : Grid) (cpt cpt0 : Int) :
    (∃ next1, lifeGameUpdate cur next cpt = some (next1, (aliveInterior next1 : Int))) ∧
      lifeGameUpdate cur next cpt0 = lifeGameUpdate cur next cpt := by
  obtain ⟨next1, h1, _⟩ := lifeGameUpdate_spec cur next cpt
  refine ⟨⟨next1, h1⟩, ?_⟩
  rw [lifeGameUpdate_eq_paint, lifeGameUpdate_eq_paint]

/-- C3: frozen border.  For every current grid, next buffer and prior counter,
`lifeGameUpdate` returns and every border cell (row 0, row 41, column 0, column 41) of
the board it wrote has the value it had in the next buffer.  The current grid is a
read-only argument (`const`): the function returns only the written board and the
counter. -/
theorem lifeGameUpdate_border_frozen (cur next : Grid) (cpt : Int) (r : Fin HEIGHT)
    (c : Fin WIDTH) (hb : border r c) :
    ∃ next1 cpt1, lifeGameUpdate cur next cpt = some (next1, cpt1) ∧
      next1.cell r c = next.cell r c := by
  obtain ⟨next1, h1, h2⟩ := lifeGameUpdate_spec cur next cpt
  exact ⟨next1, _, h1, by rw [h2 r c, if_neg (not_interior_of_border hb)]⟩

/-- Witness of C3: the corner cell `(41, 0)` with a full current grid. -/
theorem lifeGameUpdate_border_frozen_witness :
    border (41 : Fin HEIGHT) (0 : Fin WIDTH) ∧
    ∃ next1 cpt1,
      lifeGameUpdate (addPattern allDead 20 20 4 0).1 (addPattern allDead 20 20 1 0).1 7
        = some (next1, cpt1) ∧
      next1.cell 41 0 = (addPattern allDead 20 20 1 0).1.cell 41 0 :=
  ⟨by decide,
    lifeGameUpdate_border_frozen (addPattern allDead 20 20 4 0).1
      (addPattern allDead 20 20 1 0).1 7 41 0 (by decide)⟩

/-- Counterexample to C4 as stated: with the counter at the largest `int32_t` value,
`setCell` with `life` true does not leave the counter increased by exactly 1. -/
theorem setCell_counter_overflow :
    ¬ ((setCell allDead 1 1 true 2147483647).2 = 2147483647 + 1) := by
  rw [setCell_snd]
  decide

/-- C4 (amended): cell write contract of `setCell`.  For every grid, every pair of
coordinates, every life value and every `int32_t` counter that is below the largest
`int32_t` value when `life` is true, `setCell` increases the counter by exactly 1 when
`life` is true and leaves it unchanged when `life` is false, whether or not the
coordinates are accepted; when `0 < line < 42` and `0 < column < 42` exactly the cell
`(line, column)` is set to `life` and every other cell is unchanged (index 0 rejected,
index 41 accepted); for all other coordinates the whole grid is unchanged.  The function
is total: no error is raised. -/
theorem setCell_contract (g : Grid) (line column : Int) (life : Bool) (cpt : Int)
    (hcpt : isInt32 cpt) (hmax : life = true → cpt < INT32_MAX) :
    (setCell g line column life cpt).2 = cpt + (if life then 1 else 0) ∧
    ((0 < line ∧ line < 42 ∧ 0 < column ∧ column < 42) →
      ∀ (r : Fin HEIGHT) (c : Fin WIDTH),
        (setCell g line column life cpt).1.cell r c =
          if (r.val : Int) = line ∧ (c.val : Int) = column then life else g.cell r c) ∧
    (¬ (0 < line ∧ line < 42 ∧ 0 < column ∧ column < 42) →
      (setCell g line column life cpt).1 = g) := by
  refine ⟨?_, ?_, ?_⟩
  · rw [setCell_snd]
    apply wrapInt32_of_isInt32
    unfold isInt32 INT32_MIN INT32_MAX at *
    cases life
    · simpa using hcpt
    · have := hmax rfl
      simp only [if_true]
      omega
  · intro h r c
    have ha : accepted line column := h
    rw [cell_setCell]
    simp only [ha, true_and]
  · intro h
    exact setCell_fst_of_not_accepted g life cpt h

/-- Witness of C4: a write at `(41, 41)`, the accepted index 41, with the counter 5. -/
theorem setCell_contract_witness :
    (isInt32 5 ∧ (true = true → (5 : Int) < INT32_MAX)) ∧
    ((setCell allDead 41 41 true 5).2 = 5 + (if true then 1 else 0) ∧
    ((0 < (41 : Int) ∧ (41 : Int) < 42 ∧ 0 < (41 : Int) ∧ (41 : Int) < 42) →
      ∀ (r : Fin HEIGHT) (c : Fin WIDTH),
        (setCell allDead 41 41 true 5).1.cell r c =
          if (r.val : Int) = 41 ∧ (c.val : Int) = 41 then true else allDead.cell r c) ∧
    (¬ (0 < (41 : Int) ∧ (41 : Int) < 42 ∧ 0 < (41 : Int) ∧ (41 : Int) < 42) →
      (setCell allDead 41 41 true 5).1 = allDead)) :=
  ⟨⟨by decide, by decide⟩, setCell_contract allDead 41 41 true 5 (by decide) (by decide)⟩

/-! ## Initial configurations and concrete runs -/

theorem generations_succ (n : Nat) (d : Driver) :
    generations (n + 1) d = (generation d).bind (generations n) := rfl

theorem prepareCells_block (env : RandEnv) (fuel : Nat) (g : Grid) (k : Int) :
    prepareCells env fuel g 1 k =
      some (setCells [(20, 20), (20, 21), (21, 20), (21, 21)] (g, k)) := rfl

theorem prepareCells_blinker (env : RandEnv) (fuel : Nat) (g : Grid) (k : Int) :
    prepareCells env fuel g 4 k = some (setCells [(20, 19), (20, 20), (20, 21)] (g, k)) := rfl

theorem prepareCells_fill (env : RandEnv) (fuel : Nat) (g : Grid) (k : Int) :
    prepareCells env fuel g 9 k =
      some (paint (fun _ _ => true) (loopRange 1 41) (loopRange 1 41) (g, k)) := rfl

/-- The board and the counter after a sequence of `setCell` calls on the all-dead grid
with the counter 0. -/
theorem setCells_allDead (ps : List (Nat × Nat))
    (hacc : ∀ p ∈ ps, 0 < p.1 ∧ p.1 < 42 ∧ 0 < p.2 ∧ p.2 < 42) (hlen : ps.length ≤ 2000) :
    (∀ r c, (setCells ps (allDead, 0)).1.cell r c = ofList ps r.val c.val) ∧
      (setCells ps (allDead, 0)).2 = (ps.length : Int) := by
  constructor
  · intro r c
    rw [cell_setCells ps r c (allDead, 0) hacc, cell_allDead, Bool.or_false]
  · have hz : isInt32 (0 : Int) := by
      unfold isInt32 INT32_MIN INT32_MAX
      omega
    have h := snd_setCells ps (allDead, 0) hz
    have hw : wrapInt32 (0 + (ps.length : Int)) = (ps.length : Int) := by
      rw [zero_add]
      exact wrapInt32_small ⟨by omega, by omega⟩
    rw [h]
    exact hw

theorem iff_mem_of_ofList {g : Grid} {l : List (Nat × Nat)}
    (H : ∀ r c, g.cell r c = ofList l r.val c.val) (r : Fin HEIGHT) (c : Fin WIDTH) :
    g.cell r c = true ↔ (r.val, c.val) ∈ l := by
  rw [H r c, ofList_eq_true_iff]

theorem block_checkStep :
    checkStep [(20, 20), (20, 21), (21, 20), (21, 21)] [(20, 20), (20, 21), (21, 20), (21, 21)]
      19 22 = true := by
  decide!

theorem block_generations (n : Nat) : ∀ d : Driver,
    (∀ r c, d.cells1.cell r c = ofList [(20, 20), (20, 21), (21, 20), (21, 21)] r.val c.val) →
    ∃ d1, generations (n + 1) d = some d1 ∧
      (∀ r c, d1.cells1.cell r c
        = ofList [(20, 20), (20, 21), (21, 20), (21, 21)] r.val c.val) ∧
      d1.cellAliveCpt = 4 := by
  induction n with
  | zero =>
    intro d H
    obtain ⟨d1, h1, h2, h3, _⟩ := generation_pattern d H block_checkStep (by decide)
    refine ⟨d1, ?_, h2, h3⟩
    rw [generations_succ, h1]
    rfl
  | succ n ih =>
    intro d H
    obtain ⟨d1, h1, h2, _⟩ := generation_pattern d H block_checkStep (by decide)
    obtain ⟨d2, h4, h5, h6⟩ := ih d1 h2
    refine ⟨d2, ?_, h5, h6⟩
    rw [generations_succ, h1]
    exact h4

/-- C5: block still life.  Starting from an all-dead grid and the counter 0,
`prepareCells` with the selector 1 returns the counter 4 and a grid in which exactly the
cells (20,20), (20,21), (21,20), (21,21) are alive; for every `n ≥ 1`, `n` turns of the
driver loop, started with that grid, an all-dead second buffer and that counter, return
a state whose current grid is the grid right after `prepareCells` and whose counter
is 4. -/
theorem block_still_life (env : RandEnv) (fuel n : Nat) (hn : 1 ≤ n) :
    ∃ g0 : Grid, prepareCells env fuel allDead 1 0 = some (g0, 4) ∧
      (∀ r c, g0.cell r c = true ↔
        (r.val, c.val) ∈ [(20, 20), (20, 21), (21, 20), (21, 21)]) ∧
      ∃ d, generations n ⟨g0, allDead, 4, 1⟩ = some d ∧ d.cells1 = g0 ∧
        d.cellAliveCpt = 4 := by
  obtain ⟨hcells, hcpt⟩ := setCells_allDead [(20, 20), (20, 21), (21, 20), (21, 21)]
    (by decide) (by decide)
  refine ⟨(setCells [(20, 20), (20, 21), (21, 20), (21, 21)] (allDead, 0)).1, ?_,
    iff_mem_of_ofList hcells, ?_⟩
  · rw [prepareCells_block, ← Prod.eta (setCells _ _), hcpt]
    rfl
  · obtain ⟨m, rfl⟩ : ∃ m, n = m + 1 := ⟨n - 1, by omega⟩
    obtain ⟨d, h1, h2, h3⟩ := block_generations m
      ⟨(setCells [(20, 20), (20, 21), (21, 20), (21, 21)] (allDead, 0)).1, allDead, 4, 1⟩ hcells
    refine ⟨d, h1, ?_, h3⟩
    apply Grid.ext_cell
    intro r c
    rw [h2 r c, hcells r c]

/-- Witness of C5: three turns of the driver loop. -/
theorem block_still_life_witness :
    1 ≤ 3 ∧
    ∃ g0 : Grid, prepareCells sampleEnv 0 allDead 1 0 = some (g0, 4) ∧
      (∀ r c, g0.cell r c = true ↔
        (r.val, c.val) ∈ [(20, 20), (20, 21), (21, 20), (21, 21)]) ∧
      ∃ d, generations 3 ⟨g0, allDead, 4, 1⟩ = some d ∧ d.cells1 = g0 ∧
        d.cellAliveCpt = 4 :=
  ⟨by decide, block_still_life sampleEnv 0 3 (by decide)⟩

theorem blinker_checkStep_one :
    checkStep [(20, 19), (20, 20), (20, 21)] [(19, 20), (20, 20), (21, 20)] 19 21 = true := by
  decide!

theorem blinker_checkStep_two :
    checkStep [(19, 20), (20, 20), (21, 20)] [(20, 19), (20, 20), (20, 21)] 19 21 = true := by
  decide!

/-- C6: blinker of period 2.  Starting from an all-dead grid and the counter 0,
`prepareCells` with the selector 4 returns the counter 3 and a grid in which exactly the
horizontal line (20,19), (20,20), (20,21) is alive; after one turn of the driver loop
(started with an all-dead second buffer) the alive cells are exactly the vertical line
(19,20), (20,20), (21,20); after two turns the grid is the initial one; the counter is 3
after each turn. -/
theorem blinker_period_two (env : RandEnv) (fuel : Nat) :
    ∃ (g0 : Grid) (d1 d2 : Driver), prepareCells env fuel allDead 4 0 = some (g0, 3) ∧
      (∀ r c, g0.cell r c = true ↔ (r.val, c.val) ∈ [(20, 19), (20, 20), (20, 21)]) ∧
      generations 1 ⟨g0, allDead, 3, 1⟩ = some d1 ∧
      (∀ r c, d1.cells1.cell r c = true ↔ (r.val, c.val) ∈ [(19, 20), (20, 20), (21, 20)]) ∧
      d1.cellAliveCpt = 3 ∧
      generations 2 ⟨g0, allDead, 3, 1⟩ = some d2 ∧ d2.cells1 = g0 ∧
      d2.cellAliveCpt = 3 := by
  obtain ⟨hcells, hcpt⟩ := setCells_allDead [(20, 19), (20, 20), (20, 21)]
    (by decide) (by decide)
  obtain ⟨d1, h1, h2, h3, _⟩ := generation_pattern
    ⟨(setCells [(20, 19), (20, 20), (20, 21)] (allDead, 0)).1, allDead, 3, 1⟩ hcells
    blinker_checkStep_one (by decide)
  obtain ⟨d2, h4, h5, h6, _⟩ := generation_pattern d1 h2 blinker_checkStep_two (by decide)
  refine ⟨(setCells [(20, 19), (20, 20), (20, 21)] (allDead, 0)).1, d1, d2, ?_,
    iff_mem_of_ofList hcells, ?_, iff_mem_of_ofList h2, h3, ?_, ?_, h6⟩
  · rw [prepareCells_blinker, ← Prod.eta (setCells _ _), hcpt]
    rfl
  · rw [generations_succ, h1]
    rfl
  · rw [generations_succ, h1]
    show generations 1 d1 = some d2
    rw [generations_succ, h4]
    rfl
  · apply Grid.ext_cell
    intro r c
    rw [h5 r c, hcells r c]

theorem cellAt_allDead (line column : Int) : allDead.cellAt line column = false := by
  unfold Grid.cellAt
  split
  · exact cell_allDead _ _
  · rfl

theorem conwayNext_allDead (r : Fin HEIGHT) (c : Fin WIDTH) : conwayNext allDead r c = false := by
  have h : liveNeighbours allDead r c = 0 := by
    simp [liveNeighbours, cellAt_allDead]
  simp [conwayNext, h]

theorem aliveInterior_eq_zero {g : Grid} (h : ∀ r c, interior r c → g.cell r c = false) :
    aliveInterior g = 0 := by
  unfold aliveInterior
  rw [Finset.card_eq_zero, Finset.filter_eq_empty_iff]
  rintro p _ ⟨h1, h2⟩
  rw [h p.1 p.2 h1] at h2
  exact Bool.noConfusion h2

/-- C7: the dead state is stable.  When every cell of the current grid is dead, then for
every next buffer and every prior counter value `lifeGameUpdate` returns the counter 0
and a board whose interior cells are all dead; when the border of the next buffer was
dead as well, that board is the all-dead grid. -/
theorem lifeGameUpdate_dead_stable (cur next : Grid) (cpt : Int)
    (hcur : ∀ r c, cur.cell r c = false) :
    ∃ next1, lifeGameUpdate cur next cpt = some (next1, 0) ∧
      (∀ r c, interior r c → next1.cell r c = false) ∧
      ((∀ r c, border r c → next.cell r c = false) → next1 = allDead) := by
  have hd : cur = allDead := Grid.ext_cell (fun r c => by rw [hcur r c, cell_allDead])
  subst hd
  obtain ⟨next1, h1, h2⟩ := lifeGameUpdate_spec allDead next cpt
  have hint : ∀ r c, interior r c → next1.cell r c = false := by
    intro r c hi
    rw [h2 r c, if_pos hi, conwayNext_allDead]
  refine ⟨next1, ?_, hint, ?_⟩
  · rw [h1, aliveInterior_eq_zero hint]
    rfl
  · intro hb
    apply Grid.ext_cell
    intro r c
    rw [cell_allDead]
    rcases interior_or_border r c with hi | hbo
    · exact hint r c hi
    · rw [h2 r c, if_neg (not_interior_of_border hbo)]
      exact hb r c hbo

/-- Witness of C7: the all-dead grid as current grid, a next buffer holding a block and
the prior counter 7. -/
theorem lifeGameUpdate_dead_stable_witness :
    (∀ r c, allDead.cell r c = false) ∧
    ∃ next1, lifeGameUpdate allDead (addPattern allDead 20 20 1 0).1 7 = some (next1, 0) ∧
      (∀ r c, interior r c → next1.cell r c = false) ∧
      ((∀ r c, border r c → (addPattern allDead 20 20 1 0).1.cell r c = false) →
        next1 = allDead) :=
  ⟨cell_allDead,
    lifeGameUpdate_dead_stable allDead (addPattern allDead 20 20 1 0).1 7 cell_allDead⟩

theorem paintCount_true :
    paintCount (fun _ _ => true) (loopRange 1 41) (loopRange 1 41) = 1600 := by
  decide!

theorem snd_prepareCells_fill (g : Grid) (k : Int) (hk : isInt32 k) :
    (paint (fun _ _ => true) (loopRange 1 41) (loopRange 1 41) (g, k)).2
      = wrapInt32 (k + 1600) := by
  have h := snd_paint (fun _ _ => true) (loopRange 1 41) (loopRange 1 41) (g, k) hk
  rw [paintCount_true] at h
  exact h

/-- Counterexample to C8 as stated: with the initial counter at the largest `int32_t`
value, the full fill does not end with the counter at `k + 1600`. -/
theorem full_fill_counter_overflow :
    ¬ ∃ g : Grid, prepareCells sampleEnv 0 allDead 9 2147483647
      = some (g, 2147483647 + 1600) := by
  rintro ⟨g, h⟩
  rw [prepareCells_fill] at h
  have e : (paint (fun _ _ => true) (loopRange 1 41) (loopRange 1 41)
      (allDead, 2147483647)).2 = 2147483647 + 1600 := congrArg Prod.snd (Option.some.inj h)
  rw [snd_prepareCells_fill allDead 2147483647 (by decide)] at e
  revert e
  decide

/-- C8 (amended): full fill.  `prepareCells` with the selector 9 on an all-dead grid
makes every interior cell (rows and columns 1 to 40) alive and leaves every border cell
dead; for an initial `int32_t` counter `k` with `k + 1600 ≤ 2147483647` the counter ends
at `k + 1600`, where `1600 = (42 - 2) * (42 - 2)`; with the initial counter 0 it ends at
1600. -/
theorem full_fill (env : RandEnv) (fuel : Nat) (k : Int) (hk : isInt32 k)
    (hmax : k + 1600 ≤ INT32_MAX) :
    ∃ g : Grid, prepareCells env fuel allDead 9 k = some (g, k + 1600) ∧
      (1600 : Int) = ((HEIGHT : Int) - 2) * ((WIDTH : Int) - 2) ∧
      (∀ r c, interior r c → g.cell r c = true) ∧
      (∀ r c, border r c → g.cell r c = false) := by
  refine ⟨(paint (fun _ _ => true) (loopRange 1 41) (loopRange 1 41) (allDead, k)).1,
    ?_, by decide, ?_, ?_⟩
  · rw [prepareCells_fill, ← Prod.eta (paint _ _ _ _), snd_prepareCells_fill allDead k hk]
    have hw : wrapInt32 (k + 1600) = k + 1600 := by
      apply wrapInt32_of_isInt32
      unfold isInt32 INT32_MIN INT32_MAX at *
      omega
    rw [hw]
  · intro r c hi
    rw [cell_paint_interior, if_pos hi]
  · intro r c hb
    rw [cell_paint_interior, if_neg (not_interior_of_border hb)]
    exact cell_allDead r c

/-- Witness of C8: the initial counter 0, the full fill ends with the counter 1600. -/
theorem full_fill_witness :
    (isInt32 0 ∧ (0 : Int) + 1600 ≤ INT32_MAX) ∧
    ∃ g : Grid, prepareCells sampleEnv 0 allDead 9 0 = some (g, 0 + 1600) ∧
      (1600 : Int) = ((HEIGHT : Int) - 2) * ((WIDTH : Int) - 2) ∧
      (∀ r c, interior r c → g.cell r c = true) ∧
      (∀ r c, border r c → g.cell r c = false) :=
  ⟨⟨by decide, by decide⟩, full_fill sampleEnv 0 0 (by decide) (by decide)⟩

/-- C9: copy fidelity.  For every source grid and every destination grid `copie`
returns a board in which each interior cell (rows and columns 1 to 40) equals the cell
of the source and each border cell keeps the value it had in the destination.  The
source is a read-only argument (`const`): the function returns only the written
board. -/
theorem copie_fidelity (src dst : Grid) :
    ∃ out, copie src dst = some out ∧
      (∀ r c, interior r c → out.cell r c = src.cell r c) ∧
      (∀ r c, border r c → out.cell r c = dst.cell r c) := by
  obtain ⟨out, h1, h2⟩ := copie_spec src dst
  refine ⟨out, h1, ?_, ?_⟩
  · intro r c hi
    rw [h2 r c, if_pos hi]
  · intro r c hb
    rw [h2 r c, if_neg (not_interior_of_border hb)]

/-- C10: unknown selectors are no-ops.  For every selector value outside 1 to 9, every
grid and every counter, `prepareCells` returns the grid and the counter unchanged, for
every C library and every bound on the random fill; for every choice outside 1 to 8,
every anchor, grid and counter, `addPattern` returns the grid and the counter
unchanged.  Both return normally. -/
theorem unknown_selector_noop (env : RandEnv) (fuel : Nat) (g : Grid) (cpt : Int)
    (userChoice : Nat) (line column choice : Int)
    (hu : userChoice < 1 ∨ 9 < userChoice) (hc : choice < 1 ∨ 8 < choice) :
    prepareCells env fuel g userChoice cpt = some (g, cpt) ∧
      addPattern g line column choice cpt = (g, cpt) := by
  constructor
  · have h1 : ¬ userChoice = 1 := by omega
    have h2 : ¬ userChoice = 2 := by omega
    have h3 : ¬ userChoice = 3 := by omega
    have h4 : ¬ userChoice = 4 := by omega
    have h5 : ¬ userChoice = 5 := by omega
    have h6 : ¬ userChoice = 6 := by omega
    have h7 : ¬ userChoice = 7 := by omega
    have h8 : ¬ userChoice = 8 := by omega
    have h9 : ¬ userChoice = 9 := by omega
    simp only [prepareCells, if_neg h1, if_neg h2, if_neg h3, if_neg h4, if_neg h5, if_neg h6,
      if_neg h7, if_neg h8, if_neg h9]
  · have h1 : ¬ choice = 1 := by omega
    have h2 : ¬ choice = 2 := by omega
    have h3 : ¬ choice = 3 := by omega
    have h4 : ¬ choice = 4 := by omega
    have h5 : ¬ choice = 5 := by omega
    have h6 : ¬ choice = 6 := by omega
    have h7 : ¬ choice = 7 := by omega
    have h8 : ¬ choice = 8 := by omega
    simp only [addPattern, if_neg h1, if_neg h2, if_neg h3, if_neg h4, if_neg h5, if_neg h6,
      if_neg h7, if_neg h8]

/-- Witness of C10: the selector 10 and the choice 0, on a grid holding a block and with
the counter 4. -/
theorem unknown_selector_noop_witness :
    (((10 : Nat) < 1 ∨ 9 < (10 : Nat)) ∧ ((0 : Int) < 1 ∨ (8 : Int) < 0)) ∧
    (prepareCells sampleEnv 100 (addPattern allDead 20 20 1 0).1 10 4
        = some ((addPattern allDead 20 20 1 0).1, 4) ∧
      addPattern (addPattern allDead 20 20 1 0).1 20 20 0 4
        = ((addPattern allDead 20 20 1 0).1, 4)) :=
  ⟨⟨by decide, by decide⟩,
    unknown_selector_noop sampleEnv 100 (addPattern allDead 20 20 1 0).1 4 10 20 20 0
      (by decide) (by decide)⟩

/-! ## The random fill -/

theorem prepareCells_random (env : RandEnv) (fuel : Nat) (g : Grid) (k : Int) :
    prepareCells env fuel g 8 k =
      (randomFill env 0 fuel ⟨g, k, 0, 0⟩).map (fun st => (st.cells, st.cellAliveCpt)) := rfl

theorem randomFill_zero (env : RandEnv) (rn : Int) (st : FillState) :
    randomFill env rn 0 st = none := rfl

/-- The loop of the random fill, one iteration unfolded. -/
theorem randomFill_succ (env : RandEnv) (rn : Int) (fuel : Nat) (st : FillState) :
    randomFill env rn (fuel + 1) st =
      match fillIteration env rn st with
      | none => none
      | some st1 => if st1.cpt < 800 then randomFill env rn fuel st1 else some st1 := by
  rw [randomFill]
  unfold fillIteration
  simp only []
  cases h : (if rn < env.RAND_MAX / 2 then
      Option.map (fun alive => alive == false)
        (isCellAlive st.cells ((env.draws st.drawn : Int) % ((HEIGHT : Int) - 1))
          ((env.draws (st.drawn + 1) : Int) % ((WIDTH : Int) - 1)))
    else some false) with
  | none => rfl
  | some accept => rfl

theorem pick_cast (n : Nat) : ((n : Int) % ((HEIGHT : Int) - 1)) = ((n % 41 : Nat) : Int) := by
  simp only [HEIGHT]
  omega

/-- One iteration of the random fill when the test on `randomNo` holds. -/
theorem fillIteration_of_gate (env : RandEnv) (rn : Int) (st : FillState)
    (hg : rn < env.RAND_MAX / 2) :
    fillIteration env rn st = some
      (if st.cells.cellAt (pickLine env st.drawn : Int) (pickColumn env st.drawn : Int) = false
        then ⟨(setCell st.cells (pickLine env st.drawn : Int) (pickColumn env st.drawn : Int)
            true st.cellAliveCpt).1,
          (setCell st.cells (pickLine env st.drawn : Int) (pickColumn env st.drawn : Int)
            true st.cellAliveCpt).2, wrapInt32 (st.cpt + 1), st.drawn + 2⟩
        else ⟨st.cells, st.cellAliveCpt, st.cpt, st.drawn + 2⟩) := by
  have hl : pickLine env st.drawn < 41 := Nat.mod_lt _ (by decide)
  have hc : pickColumn env st.drawn < 41 := Nat.mod_lt _ (by decide)
  have r := isCellAlive_of_inside st.cells (pickLine env st.drawn : Int)
    (pickColumn env st.drawn : Int) (by omega)
  unfold fillIteration
  simp only [if_pos hg, pick_cast]
  have e1 : ((env.draws st.drawn % 41 : Nat) : Int) = (pickLine env st.drawn : Int) := rfl
  have e2 : ((env.draws (st.drawn + 1) % 41 : Nat) : Int) = (pickColumn env st.drawn : Int) := rfl
  rw [e1, e2, r]
  cases st.cells.cellAt (pickLine env st.drawn : Int) (pickColumn env st.drawn : Int) <;> rfl

/-- One iteration of the random fill when the test on `randomNo` fails: nothing but the
two draws. -/
theorem fillIteration_of_not_gate (env : RandEnv) (rn : Int) (st : FillState)
    (hg : ¬ rn < env.RAND_MAX / 2) :
    fillIteration env rn st = some ⟨st.cells, st.cellAliveCpt, st.cpt, st.drawn + 2⟩ := by
  unfold fillIteration
  simp only [if_neg hg]
  rfl

/-- Every iteration of the random fill returns, with two more draws consumed. -/
theorem fillIteration_drawn (env : RandEnv) (rn : Int) (st : FillState) :
    ∃ st1, fillIteration env rn st = some st1 ∧ st1.drawn = st.drawn + 2 := by
  by_cases hg : rn < env.RAND_MAX / 2
  · rw [fillIteration_of_gate env rn st hg]
    refine ⟨_, rfl, ?_⟩
    split <;> rfl
  · rw [fillIteration_of_not_gate env rn st hg]
    exact ⟨_, rfl, rfl⟩

/-- One iteration of the random fill reads only the draws number `st.drawn` and
`st.drawn + 1` and the constant `RAND_MAX`. -/
theorem fillIteration_congr (env1 env2 : RandEnv) (rn : Int) (st : FillState)
    (hmax : env1.RAND_MAX = env2.RAND_MAX) (h0 : env1.draws st.drawn = env2.draws st.drawn)
    (h1 : env1.draws (st.drawn + 1) = env2.draws (st.drawn + 1)) :
    fillIteration env1 rn st = fillIteration env2 rn st := by
  unfold fillIteration
  rw [hmax, h0, h1]

theorem randomFill_drawn (env : RandEnv) (rn : Int) :
    ∀ (fuel : Nat) (st a : FillState), randomFill env rn fuel st = some a →
      st.drawn + 2 ≤ a.drawn := by
  intro fuel
  induction fuel with
  | zero =>
    intro st a h
    rw [randomFill_zero] at h
    exact absurd h (by simp)
  | succ n ih =>
    intro st a h
    obtain ⟨st1, h1, h2⟩ := fillIteration_drawn env rn st
    rw [randomFill_succ, h1] at h
    simp only at h
    by_cases hc : st1.cpt < 800
    · rw [if_pos hc] at h
      have := ih st1 a h
      omega
    · rw [if_neg hc] at h
      have e : st1 = a := Option.some.inj h
      rw [← e]
      omega

/-- A run of the random fill that returns depends only on the draws it consumed. -/
theorem randomFill_congr (env1 env2 : RandEnv) (rn : Int)
    (hmax : env1.RAND_MAX = env2.RAND_MAX) :
    ∀ (fuel : Nat) (st a : FillState), randomFill env1 rn fuel st = some a →
      (∀ k, k < a.drawn → env1.draws k = env2.draws k) →
      randomFill env2 rn fuel st = some a := by
  intro fuel
  induction fuel with
  | zero =>
    intro st a h
    rw [randomFill_zero] at h
    exact absurd h (by simp)
  | succ n ih =>
    intro st a h hd
    have hdr := randomFill_drawn env1 rn (n + 1) st a h
    have hc := fillIteration_congr env1 env2 rn st hmax (hd _ (by omega)) (hd _ (by omega))
    obtain ⟨st1, h1, _⟩ := fillIteration_drawn env1 rn st
    rw [randomFill_succ, ← hc, h1]
    rw [randomFill_succ, h1] at h
    simp only at h ⊢
    by_cases hcp : st1.cpt < 800
    · rw [if_pos hcp] at h ⊢
      exact ih st1 a h hd
    · rw [if_neg hcp] at h ⊢
      exact h

/-- Two runs of the random fill that return from the same state return the same
state, whatever the bounds on their iterations. -/
theorem randomFill_fuel (env : RandEnv) (rn : Int) :
    ∀ (f1 f2 : Nat) (st a b : FillState), randomFill env rn f1 st = some a →
      randomFill env rn f2 st = some b → a = b := by
  intro f1
  induction f1 with
  | zero =>
    intro f2 st a b h
    rw [randomFill_zero] at h
    exact absurd h (by simp)
  | succ n ih =>
    intro f2 st a b h1 h2
    cases f2 with
    | zero =>
      rw [randomFill_zero] at h2
      exact absurd h2 (by simp)
    | succ m =>
      obtain ⟨st1, hs, _⟩ := fillIteration_drawn env rn st
      rw [randomFill_succ, hs] at h1 h2
      simp only at h1 h2
      by_cases hcp : st1.cpt < 800
      · rw [if_pos hcp] at h1 h2
        exact ih m st1 a b h1 h2
      · rw [if_neg hcp] at h1 h2
        rw [← Option.some.inj h1, ← Option.some.inj h2]

/-- One iteration of the random fill on the all-dead grid when both draws are 0: the
pick `(0, 0)` reads dead, both counters advance and the grid stays all-dead. -/
theorem fillIteration_zero_pick (env : RandEnv) (hg : (0 : Int) < env.RAND_MAX / 2)
    (c : Int) (hc : 0 ≤ c ∧ c ≤ 1000) (d : Nat) (h0 : env.draws d = 0)
    (h1 : env.draws (d + 1) = 0) :
    fillIteration env 0 ⟨allDead, c, c, d⟩ = some ⟨allDead, c + 1, c + 1, d + 2⟩ := by
  rw [fillIteration_of_gate env 0 _ hg]
  have e1 : pickLine env d = 0 := by simp [pickLine, h0]
  have e2 : pickColumn env d = 0 := by simp [pickColumn, h1]
  have hna : ¬ accepted ((0 : Nat) : Int) ((0 : Nat) : Int) := by
    unfold accepted
    omega
  have hw : wrapInt32 (c + 1) = c + 1 := wrapInt32_small ⟨by omega, by omega⟩
  simp only [e1, e2, cellAt_allDead, if_true, setCell_snd, hw,
    setCell_fst_of_not_accepted allDead true c hna]

/-- The random fill on the all-dead grid when the first 1600 draws are 0: the run
returns after the iteration that brings the loop count to 800, with the grid still
all-dead. -/
theorem randomFill_zero_draws (env : RandEnv) (hg : (0 : Int) < env.RAND_MAX / 2)
    (hz : ∀ k, k < 1600 → env.draws k = 0) (extra : Nat) :
    ∀ (m d : Nat), m < 800 → d + 2 * (m + 1) ≤ 1600 →
      randomFill env 0 (m + 1 + extra) ⟨allDead, 799 - (m : Int), 799 - (m : Int), d⟩ =
        some ⟨allDead, 800, 800, d + 2 * (m + 1)⟩ := by
  intro m
  induction m with
  | zero =>
    intro d _ hd
    have e : 0 + 1 + extra = extra + 1 := by omega
    rw [e, randomFill_succ, fillIteration_zero_pick env hg _ (by omega) d (hz d (by omega))
      (hz (d + 1) (by omega))]
    simp only [Nat.cast_zero, sub_zero]
    norm_num
  | succ n ih =>
    intro d hm hd
    have e : n + 1 + 1 + extra = (n + 1 + extra) + 1 := by omega
    rw [e, randomFill_succ, fillIteration_zero_pick env hg _ (by omega) d (hz d (by omega))
      (hz (d + 1) (by omega))]
    have e2 : (799 : Int) - ((n + 1 : Nat) : Int) + 1 = 799 - (n : Int) := by
      push_cast
      omega
    simp only [e2]
    have hlt : (799 : Int) - (n : Int) < 800 := by omega
    rw [if_pos hlt, ih (d + 2) (by omega) (by omega)]
    have e3 : d + 2 + 2 * (n + 1) = d + 2 * (n + 1 + 1) := by omega
    rw [e3]

theorem zeroEnv_gate : (0 : Int) < zeroEnv.RAND_MAX / 2 := by decide

/-- The random fill with a generator that always returns 0, on the all-dead grid with
the counter 0 and any bound of at least 800 iterations. -/
theorem randomFill_zeroEnv (extra : Nat) :
    randomFill zeroEnv 0 (800 + extra) ⟨allDead, 0, 0, 0⟩ = some ⟨allDead, 800, 800, 1600⟩ := by
  have h := randomFill_zero_draws zeroEnv zeroEnv_gate (fun _ _ => rfl) extra 799 0
    (by omega) (by omega)
  have e1 : (799 : Int) - ((799 : Nat) : Int) = 0 := by norm_num
  rw [e1] at h
  exact h

theorem aliveCells_eq_zero {g : Grid} (h : ∀ r c, g.cell r c = false) : aliveCells g = 0 := by
  unfold aliveCells
  rw [Finset.card_eq_zero, Finset.filter_eq_empty_iff]
  intro p _ h2
  rw [h p.1 p.2] at h2
  exact Bool.noConfusion h2

/-- Evaluation for C11 at the failing input: with a generator that always returns 0
(every pick is the border cell `(0, 0)`), the random fill on the all-dead grid with the
counter 0 returns after 800 iterations with the counter 800 and the all-dead grid, which
holds no alive cell instead of 800. -/
theorem random_fill_zero_draws_population :
    prepareCells zeroEnv 800 allDead 8 0 = some (allDead, 800) ∧ aliveCells allDead = 0 := by
  constructor
  · rw [prepareCells_random, randomFill_zeroEnv 0]
    rfl
  · exact aliveCells_eq_zero cell_allDead

theorem borderPicks_succ (env : RandEnv) (n : Nat) :
    borderPicks env (n + 1) = borderPicks env n + (if borderPick env n = true then 1 else 0) := by
  unfold borderPicks
  rw [List.range_succ, List.filter_append, List.length_append]
  congr 1
  by_cases h : borderPick env n = true
  · simp [h]
  · simp [h]

theorem borderPick_iff (env : RandEnv) (n : Nat) :
    borderPick env n = true ↔ pickLine env (2 * n) = 0 ∨ pickColumn env (2 * n) = 0 := by
  unfold borderPick
  rw [Bool.or_eq_true, Nat.beq_eq, Nat.beq_eq]

theorem cellAt_natCast (g : Grid) (i j : Nat) (hi : i < 42) (hj : j < 42) :
    g.cellAt (i : Int) (j : Int) = g.cell ⟨i, hi⟩ ⟨j, hj⟩ :=
  cellAt_coe g ⟨i, hi⟩ ⟨j, hj⟩

/-- An accepted write of `true` on a dead cell adds one alive cell. -/
theorem aliveCells_setCell_dead (g : Grid) (i j : Nat) (k : Int)
    (hi : 0 < i ∧ i < 42) (hj : 0 < j ∧ j < 42) (hd : g.cell ⟨i, hi.2⟩ ⟨j, hj.2⟩ = false) :
    aliveCells (setCell g (i : Int) (j : Int) true k).1 = aliveCells g + 1 := by
  have ha : accepted (i : Int) (j : Int) := by
    unfold accepted
    omega
  unfold aliveCells
  have hset : Finset.univ.filter (fun p : Fin HEIGHT × Fin WIDTH =>
        (setCell g (i : Int) (j : Int) true k).1.cell p.1 p.2 = true) =
      insert ((⟨i, hi.2⟩, ⟨j, hj.2⟩) : Fin HEIGHT × Fin WIDTH)
        (Finset.univ.filter (fun p : Fin HEIGHT × Fin WIDTH => g.cell p.1 p.2 = true)) := by
    ext p
    rw [Finset.mem_filter, Finset.mem_insert, Finset.mem_filter, cell_setCell]
    by_cases hp : (p.1.val : Int) = (i : Int) ∧ (p.2.val : Int) = (j : Int)
    · have e : p = (⟨i, hi.2⟩, ⟨j, hj.2⟩) := by
        apply Prod.ext
        · apply Fin.ext
          show p.1.val = i
          omega
        · apply Fin.ext
          show p.2.val = j
          omega
      rw [if_pos ⟨ha, hp⟩]
      exact ⟨fun _ => Or.inl e, fun _ => ⟨Finset.mem_univ _, rfl⟩⟩
    · have ne : p ≠ (⟨i, hi.2⟩, ⟨j, hj.2⟩) := by
        intro e
        apply hp
        rw [e]
        exact ⟨rfl, rfl⟩
      have hn : ¬ (accepted (i : Int) (j : Int) ∧ (p.1.val : Int) = (i : Int) ∧
          (p.2.val : Int) = (j : Int)) := fun hh => hp hh.2
      rw [if_neg hn]
      constructor
      · intro hh
        exact Or.inr hh
      · rintro (hh | hh)
        · exact absurd hh ne
        · exact hh
  rw [hset, Finset.card_insert_of_not_mem]
  rw [Finset.mem_filter]
  rintro ⟨_, h⟩
  rw [hd] at h
  exact Bool.noConfusion h

/-- The invariant holds when the random fill starts on the all-dead grid with the
counter 0. -/
theorem fillInv_start (env : RandEnv) : FillInv env ⟨allDead, 0, 0, 0⟩ := by
  refine ⟨fun r c _ => cell_allDead r c, rfl, rfl, le_refl _, by decide, ?_⟩
  show ((aliveCells allDead : Nat) : Int) + ((borderPicks env (0 / 2) : Nat) : Int) = 0
  rw [aliveCells_eq_zero cell_allDead]
  rfl

/-- One iteration of the random fill keeps the invariant and advances the loop count by
at most 1. -/
theorem fillInv_step (env : RandEnv) (hg : (0 : Int) < env.RAND_MAX / 2) (st st1 : FillState)
    (hinv : FillInv env st) (hlt : st.cpt < 800) (h : fillIteration env 0 st = some st1) :
    FillInv env st1 ∧ st1.cpt ≤ st.cpt + 1 := by
  obtain ⟨hb, hev, hcc, h0, _, hsum⟩ := hinv
  rw [fillIteration_of_gate env 0 st hg] at h
  have hl : pickLine env st.drawn < 41 := Nat.mod_lt _ (by decide)
  have hc : pickColumn env st.drawn < 41 := Nat.mod_lt _ (by decide)
  have hl42 : pickLine env st.drawn < 42 := by omega
  have hc42 : pickColumn env st.drawn < 42 := by omega
  have hm : 2 * (st.drawn / 2) = st.drawn := by omega
  have hm1 : (st.drawn + 2) / 2 = st.drawn / 2 + 1 := by omega
  have hbp := borderPick_iff env (st.drawn / 2)
  rw [hm] at hbp
  have hps := borderPicks_succ env (st.drawn / 2)
  have hw : wrapInt32 (st.cpt + 1) = st.cpt + 1 := wrapInt32_small ⟨by omega, by omega⟩
  have hcell := cellAt_natCast st.cells (pickLine env st.drawn) (pickColumn env st.drawn)
    hl42 hc42
  by_cases hdead : st.cells.cellAt (pickLine env st.drawn : Int) (pickColumn env st.drawn : Int)
      = false
  · rw [if_pos hdead] at h
    have e := Option.some.inj h
    subst e
    by_cases hbo : pickLine env st.drawn = 0 ∨ pickColumn env st.drawn = 0
    · have hna : ¬ accepted (pickLine env st.drawn : Int) (pickColumn env st.drawn : Int) := by
        unfold accepted
        omega
      have hbt : borderPick env (st.drawn / 2) = true := hbp.mpr hbo
      rw [if_pos hbt] at hps
      refine ⟨⟨?_, ?_, ?_, ?_, ?_, ?_⟩, ?_⟩
      · intro r c hrc
        show (setCell st.cells _ _ true st.cellAliveCpt).1.cell r c = false
        rw [setCell_fst_of_not_accepted st.cells true st.cellAliveCpt hna]
        exact hb r c hrc
      · show (st.drawn + 2) % 2 = 0
        omega
      · show (setCell st.cells (pickLine env st.drawn : Int) (pickColumn env st.drawn : Int) true
          st.cellAliveCpt).2 = wrapInt32 (st.cpt + 1)
        rw [setCell_snd, hcc]
        rfl
      · show 0 ≤ wrapInt32 (st.cpt + 1)
        omega
      · show wrapInt32 (st.cpt + 1) ≤ 800
        omega
      · show ((aliveCells (setCell st.cells (pickLine env st.drawn : Int)
            (pickColumn env st.drawn : Int) true st.cellAliveCpt).1 : Nat) : Int)
          + ((borderPicks env ((st.drawn + 2) / 2) : Nat) : Int) = wrapInt32 (st.cpt + 1)
        rw [setCell_fst_of_not_accepted st.cells true st.cellAliveCpt hna, hm1, hps, hw]
        push_cast
        omega
      · show wrapInt32 (st.cpt + 1) ≤ st.cpt + 1
        omega
    · have hi : 0 < pickLine env st.drawn ∧ pickLine env st.drawn < 42 := by omega
      have hj : 0 < pickColumn env st.drawn ∧ pickColumn env st.drawn < 42 := by omega
      have hbf : ¬ borderPick env (st.drawn / 2) = true := fun hh => hbo (hbp.mp hh)
      rw [if_neg hbf] at hps
      have hd2 : st.cells.cell ⟨pickLine env st.drawn, hi.2⟩ ⟨pickColumn env st.drawn, hj.2⟩
          = false := by
        rw [← hcell]
        exact hdead
      have hal := aliveCells_setCell_dead st.cells _ _ st.cellAliveCpt hi hj hd2
      refine ⟨⟨?_, ?_, ?_, ?_, ?_, ?_⟩, ?_⟩
      · intro r c hrc
        show (setCell st.cells _ _ true st.cellAliveCpt).1.cell r c = false
        rw [cell_setCell]
        have hne : ¬ (accepted (pickLine env st.drawn : Int) (pickColumn env st.drawn : Int) ∧
            (r.val : Int) = (pickLine env st.drawn : Int) ∧
            (c.val : Int) = (pickColumn env st.drawn : Int)) := by
          rintro ⟨_, e1, e2⟩
          unfold border at hrc
          omega
        rw [if_neg hne]
        exact hb r c hrc
      · show (st.drawn + 2) % 2 = 0
        omega
      · show (setCell st.cells (pickLine env st.drawn : Int) (pickColumn env st.drawn : Int) true
          st.cellAliveCpt).2 = wrapInt32 (st.cpt + 1)
        rw [setCell_snd, hcc]
        rfl
      · show 0 ≤ wrapInt32 (st.cpt + 1)
        omega
      · show wrapInt32 (st.cpt + 1) ≤ 800
        omega
      · show ((aliveCells (setCell st.cells (pickLine env st.drawn : Int)
            (pickColumn env st.drawn : Int) true st.cellAliveCpt).1 : Nat) : Int)
          + ((borderPicks env ((st.drawn + 2) / 2) : Nat) : Int) = wrapInt32 (st.cpt + 1)
        rw [hal, hm1, hps, hw]
        push_cast
        omega
      · show wrapInt32 (st.cpt + 1) ≤ st.cpt + 1
        omega
  · rw [if_neg hdead] at h
    have e := Option.some.inj h
    subst e
    have halive : st.cells.cell ⟨pickLine env st.drawn, hl42⟩
        ⟨pickColumn env st.drawn, hc42⟩ = true := by
      rw [← hcell]
      cases hv : st.cells.cellAt (pickLine env st.drawn : Int) (pickColumn env st.drawn : Int)
      · exact absurd hv hdead
      · rfl
    have hbo : ¬ (pickLine env st.drawn = 0 ∨ pickColumn env st.drawn = 0) := by
      intro hh
      have hbor : border (⟨pickLine env st.drawn, hl42⟩ : Fin HEIGHT)
          (⟨pickColumn env st.drawn, hc42⟩ : Fin WIDTH) := by
        unfold border
        show pickLine env st.drawn = 0 ∨ pickLine env st.drawn = 41 ∨
          pickColumn env st.drawn = 0 ∨ pickColumn env st.drawn = 41
        omega
      rw [hb _ _ hbor] at halive
      exact Bool.noConfusion halive
    have hbf : ¬ borderPick env (st.drawn / 2) = true := fun hh => hbo (hbp.mp hh)
    rw [if_neg hbf] at hps
    refine ⟨⟨hb, ?_, hcc, h0, by assumption, ?_⟩, ?_⟩
    · show (st.drawn + 2) % 2 = 0
      omega
    · show ((aliveCells st.cells : Nat) : Int)
        + ((borderPicks env ((st.drawn + 2) / 2) : Nat) : Int) = st.cpt
      rw [hm1, hps]
      push_cast
      omega
    · show st.cpt ≤ st.cpt + 1
      omega

/-- The loop of the random fill started in a state of the invariant with a loop count
below 800: when it returns, the invariant holds and the loop count is 800. -/
theorem randomFill_inv (env : RandEnv) (hg : (0 : Int) < env.RAND_MAX / 2) :
    ∀ (fuel : Nat) (st a : FillState), FillInv env st → st.cpt < 800 →
      randomFill env 0 fuel st = some a → FillInv env a ∧ a.cpt = 800 := by
  intro fuel
  induction fuel with
  | zero =>
    intro st a _ _ h
    rw [randomFill_zero] at h
    exact absurd h (by simp)
  | succ n ih =>
    intro st a hinv hlt h
    obtain ⟨st1, h1, _⟩ := fillIteration_drawn env 0 st
    obtain ⟨hinv1, _⟩ := fillInv_step env hg st st1 hinv hlt h1
    rw [randomFill_succ, h1] at h
    simp only at h
    by_cases hc : st1.cpt < 800
    · rw [if_pos hc] at h
      exact ih st1 a hinv1 hc h
    · rw [if_neg hc] at h
      have e : st1 = a := Option.some.inj h
      subst e
      refine ⟨hinv1, ?_⟩
      have := hinv1.2.2.2.2.1
      omega

/-- When the test on `randomNo` fails, the loop of the random fill never ends. -/
theorem randomFill_none_of_not_gate (env : RandEnv) (rn : Int)
    (hg : ¬ rn < env.RAND_MAX / 2) :
    ∀ (fuel : Nat) (st : FillState), st.cpt < 800 → randomFill env rn fuel st = none := by
  intro fuel
  induction fuel with
  | zero => intro st _; rfl
  | succ n ih =>
    intro st hlt
    rw [randomFill_succ, fillIteration_of_not_gate env rn st hg]
    simp only
    rw [if_pos hlt]
    exact ih _ hlt

/-- The loop of the random fill never writes on the border. -/
theorem randomFill_border (env : RandEnv) (rn : Int) :
    ∀ (fuel : Nat) (st a : FillState), (∀ r c, border r c → st.cells.cell r c = false) →
      randomFill env rn fuel st = some a → ∀ r c, border r c → a.cells.cell r c = false := by
  intro fuel
  induction fuel with
  | zero =>
    intro st a _ h
    rw [randomFill_zero] at h
    exact absurd h (by simp)
  | succ n ih =>
    intro st a hb h
    obtain ⟨st1, h1, _⟩ := fillIteration_drawn env rn st
    have hb1 : ∀ r c, border r c → st1.cells.cell r c = false := by
      by_cases hg : rn < env.RAND_MAX / 2
      · rw [fillIteration_of_gate env rn st hg] at h1
        have e := Option.some.inj h1
        have hl : pickLine env st.drawn < 41 := Nat.mod_lt _ (by decide)
        have hc : pickColumn env st.drawn < 41 := Nat.mod_lt _ (by decide)
        intro r c hrc
        rw [← e]
        split
        · show (setCell st.cells (pickLine env st.drawn : Int) (pickColumn env st.drawn : Int)
            true st.cellAliveCpt).1.cell r c = false
          rw [cell_setCell]
          have hne : ¬ (accepted (pickLine env st.drawn : Int) (pickColumn env st.drawn : Int) ∧
              (r.val : Int) = (pickLine env st.drawn : Int) ∧
              (c.val : Int) = (pickColumn env st.drawn : Int)) := by
            rintro ⟨ha, e1, e2⟩
            unfold accepted at ha
            unfold border at hrc
            omega
          rw [if_neg hne]
          exact hb r c hrc
        · exact hb r c hrc
      · rw [fillIteration_of_not_gate env rn st hg] at h1
        have e := Option.some.inj h1
        intro r c hrc
        rw [← e]
        exact hb r c hrc
    rw [randomFill_succ, h1] at h
    simp only at h
    by_cases hc : st1.cpt < 800
    · rw [if_pos hc] at h
      exact ih st1 a hb1 h
    · rw [if_neg hc] at h
      have e : st1 = a := Option.some.inj h
      rw [← e]
      exact hb1

theorem prepareCells_zeroEnv : prepareCells zeroEnv 800 allDead 8 0 = some (allDead, 800) := by
  rw [prepareCells_random, randomFill_zeroEnv 0]
  rfl

theorem zeroPrefixEnv_gate : (0 : Int) < zeroPrefixEnv.RAND_MAX / 2 := by decide

theorem zeroPrefixEnv_draws (k : Nat) (hk : k < 1600) : zeroPrefixEnv.draws k = 0 := by
  simp [zeroPrefixEnv, hk]

/-- Evaluation for C17 at the failing input: with a generator that always returns 0, the
first iteration of the random fill on the all-dead grid picks the cell `(0, 0)`, which
reads dead; the iteration advances the loop count to 1 and consumes two draws, and the
loop goes on from that state, but the picked cell is not alive afterwards. -/
theorem random_fill_border_pick_not_marked :
    ∃ st1, fillIteration zeroEnv 0 ⟨allDead, 0, 0, 0⟩ = some st1 ∧
      randomFill zeroEnv 0 800 ⟨allDead, 0, 0, 0⟩ = randomFill zeroEnv 0 799 st1 ∧
      pickLine zeroEnv 0 = 0 ∧ pickColumn zeroEnv 0 = 0 ∧
      isCellAlive allDead 0 0 = some false ∧ st1.cpt = 1 ∧ st1.drawn = 2 ∧
      st1.cells.cell 0 0 = false := by
  have h : fillIteration zeroEnv 0 ⟨allDead, 0, 0, 0⟩ = some ⟨allDead, 1, 1, 2⟩ :=
    fillIteration_zero_pick zeroEnv zeroEnv_gate 0 (by decide) 0 rfl rfl
  refine ⟨⟨allDead, 1, 1, 2⟩, h, ?_, rfl, rfl, ?_, rfl, rfl, cell_allDead 0 0⟩
  · have e : (800 : Nat) = 799 + 1 := rfl
    rw [e, randomFill_succ, h]
    simp only []
    rw [if_pos (by decide)]
  · rw [isCellAlive_of_inside allDead 0 0 (by decide), cellAt_allDead]

/-- The iterations of the random fill.  With `RAND_MAX ≥ 2` (the C standard requires at
least 32767) the test `randomNo < RAND_MAX / 2` holds for `randomNo` 0.  Every iteration
returns and consumes exactly two draws, row = draw mod 41 and column = draw mod 41, both
between 0 and 40, and its read of the picked cell is inside the array; it advances the
loop count and calls `setCell` with `life` true on the picked cell if and only if the
picked cell reads dead, and that call makes the cell alive when its row and its column
are at least 1. -/
theorem fillIteration_accept (env : RandEnv) (fuel : Nat) (st : FillState)
    (hmax : 2 ≤ env.RAND_MAX) :
    (∀ (g : Grid) (k : Int), prepareCells env fuel g 8 k =
      (randomFill env 0 fuel ⟨g, k, 0, 0⟩).map (fun s => (s.cells, s.cellAliveCpt))) ∧
    (0 : Int) < env.RAND_MAX / 2 ∧
    (pickLine env st.drawn = env.draws st.drawn % 41 ∧
      pickColumn env st.drawn = env.draws (st.drawn + 1) % 41 ∧
      pickLine env st.drawn ≤ 40 ∧ pickColumn env st.drawn ≤ 40) ∧
    isCellAlive st.cells (pickLine env st.drawn : Int) (pickColumn env st.drawn : Int)
      = some (st.cells.cellAt (pickLine env st.drawn : Int) (pickColumn env st.drawn : Int)) ∧
    (∃ st1, fillIteration env 0 st = some st1 ∧ st1.drawn = st.drawn + 2 ∧
      randomFill env 0 (fuel + 1) st =
        (if st1.cpt < 800 then randomFill env 0 fuel st1 else some st1) ∧
      (st.cells.cellAt (pickLine env st.drawn : Int) (pickColumn env st.drawn : Int) = false →
        st1.cpt = wrapInt32 (st.cpt + 1) ∧
        (st1.cells, st1.cellAliveCpt) = setCell st.cells (pickLine env st.drawn : Int)
          (pickColumn env st.drawn : Int) true st.cellAliveCpt ∧
        (1 ≤ pickLine env st.drawn → 1 ≤ pickColumn env st.drawn →
          st1.cells.cellAt (pickLine env st.drawn : Int) (pickColumn env st.drawn : Int)
            = true)) ∧
      (st.cells.cellAt (pickLine env st.drawn : Int) (pickColumn env st.drawn : Int) = true →
        st1.cpt = st.cpt ∧ st1.cells = st.cells ∧ st1.cellAliveCpt = st.cellAliveCpt)) := by
  have hg : (0 : Int) < env.RAND_MAX / 2 := by omega
  have hl : pickLine env st.drawn < 41 := Nat.mod_lt _ (by decide)
  have hc : pickColumn env st.drawn < 41 := Nat.mod_lt _ (by decide)
  have hit := fillIteration_of_gate env 0 st hg
  refine ⟨fun g k => prepareCells_random env fuel g k, hg, ⟨rfl, rfl, by omega, by omega⟩,
    isCellAlive_of_inside st.cells _ _ (by omega), ?_⟩
  by_cases hdead : st.cells.cellAt (pickLine env st.drawn : Int) (pickColumn env st.drawn : Int)
      = false
  · rw [if_pos hdead] at hit
    refine ⟨_, hit, rfl, ?_, ?_, ?_⟩
    · rw [randomFill_succ, hit]
    · intro _
      refine ⟨rfl, rfl, ?_⟩
      intro h1 h2
      have hl42 : pickLine env st.drawn < 42 := by omega
      have hc42 : pickColumn env st.drawn < 42 := by omega
      show (setCell st.cells (pickLine env st.drawn : Int) (pickColumn env st.drawn : Int) true
        st.cellAliveCpt).1.cellAt (pickLine env st.drawn : Int) (pickColumn env st.drawn : Int)
        = true
      rw [cellAt_natCast _ _ _ hl42 hc42, cell_setCell]
      have ha : accepted (pickLine env st.drawn : Int) (pickColumn env st.drawn : Int) := by
        unfold accepted
        omega
      rw [if_pos ⟨ha, rfl, rfl⟩]
    · intro h
      rw [hdead] at h
      exact Bool.noConfusion h
  · rw [if_neg hdead] at hit
    refine ⟨_, hit, rfl, ?_, ?_, ?_⟩
    · rw [randomFill_succ, hit]
    · intro h
      exact absurd h hdead
    · intro _
      exact ⟨rfl, rfl, rfl⟩

/-- C20: random fill, counter versus grid.  When `prepareCells` with the selector 8,
started on the all-dead grid with the counter 0, returns, the counter is exactly 800;
the run has consumed an even number `n` of draws, two per iteration, and the number of
alive cells of the returned grid plus the number of iterations among the `n / 2` whose
picked row or picked column was 0 is 800, so the grid holds at most 800 alive cells; the
border of the returned grid is dead.  Every picked coordinate lies in 0 to 40, so every
read is inside the array, and a pick with row 0 or column 0 is rejected by the guard of
`setCell`. -/
theorem random_fill_counter_and_population (env : RandEnv) (fuel : Nat) (g : Grid) (k : Int)
    (h : prepareCells env fuel allDead 8 0 = some (g, k)) :
    k = 800 ∧
    (∃ st, randomFill env 0 fuel ⟨allDead, 0, 0, 0⟩ = some st ∧ st.cells = g ∧
      st.cpt = 800 ∧ st.drawn % 2 = 0 ∧
      aliveCells g + borderPicks env (st.drawn / 2) = 800) ∧
    aliveCells g ≤ 800 ∧
    (∀ r c, border r c → g.cell r c = false) ∧
    (∀ (i : Nat) (b : Grid), pickLine env i ≤ 40 ∧ pickColumn env i ≤ 40 ∧
      isCellAlive b (pickLine env i : Int) (pickColumn env i : Int) ≠ none) ∧
    (∀ (i : Nat) (b : Grid) (c : Int), (pickLine env i = 0 ∨ pickColumn env i = 0) →
      (setCell b (pickLine env i : Int) (pickColumn env i : Int) true c).1 = b) := by
  rw [prepareCells_random] at h
  have hpick : ∀ (i : Nat) (b : Grid), pickLine env i ≤ 40 ∧ pickColumn env i ≤ 40 ∧
      isCellAlive b (pickLine env i : Int) (pickColumn env i : Int) ≠ none := by
    intro i b
    have hl : pickLine env i < 41 := Nat.mod_lt _ (by decide)
    have hc : pickColumn env i < 41 := Nat.mod_lt _ (by decide)
    refine ⟨by omega, by omega, ?_⟩
    rw [isCellAlive_of_inside b _ _ (by omega)]
    simp
  have hrej : ∀ (i : Nat) (b : Grid) (c : Int), (pickLine env i = 0 ∨ pickColumn env i = 0) →
      (setCell b (pickLine env i : Int) (pickColumn env i : Int) true c).1 = b := by
    intro i b c hz
    apply setCell_fst_of_not_accepted
    unfold accepted
    omega
  cases hst : randomFill env 0 fuel ⟨allDead, 0, 0, 0⟩ with
  | none =>
    rw [hst] at h
    exact absurd h (by simp)
  | some st =>
    rw [hst] at h
    have e := Option.some.inj h
    have eg : st.cells = g := congrArg Prod.fst e
    have ek : st.cellAliveCpt = k := congrArg Prod.snd e
    have hg : (0 : Int) < env.RAND_MAX / 2 := by
      by_contra hn
      rw [randomFill_none_of_not_gate env 0 hn fuel _ (by decide)] at hst
      exact absurd hst (by simp)
    obtain ⟨⟨hb, hev, hcc, _, _, hsum⟩, h800⟩ :=
      randomFill_inv env hg fuel _ st (fillInv_start env) (by decide) hst
    rw [eg] at hb hsum
    rw [h800] at hsum hcc
    have hsumN : aliveCells g + borderPicks env (st.drawn / 2) = 800 := by omega
    refine ⟨?_, ⟨st, rfl, eg, h800, hev, hsumN⟩, by omega, hb, hpick, hrej⟩
    rw [← ek, hcc]

/-- Witness of C20: a generator that always returns 0; all 800 iterations pick the
cell `(0, 0)`. -/
theorem random_fill_counter_and_population_witness :
    prepareCells zeroEnv 800 allDead 8 0 = some (allDead, 800) ∧
    ((800 : Int) = 800 ∧
    (∃ st, randomFill zeroEnv 0 800 ⟨allDead, 0, 0, 0⟩ = some st ∧ st.cells = allDead ∧
      st.cpt = 800 ∧ st.drawn % 2 = 0 ∧
      aliveCells allDead + borderPicks zeroEnv (st.drawn / 2) = 800) ∧
    aliveCells allDead ≤ 800 ∧
    (∀ r c, border r c → allDead.cell r c = false) ∧
    (∀ (i : Nat) (b : Grid), pickLine zeroEnv i ≤ 40 ∧ pickColumn zeroEnv i ≤ 40 ∧
      isCellAlive b (pickLine zeroEnv i : Int) (pickColumn zeroEnv i : Int) ≠ none) ∧
    (∀ (i : Nat) (b : Grid) (c : Int), (pickLine zeroEnv i = 0 ∨ pickColumn zeroEnv i = 0) →
      (setCell b (pickLine zeroEnv i : Int) (pickColumn zeroEnv i : Int) true c).1 = b)) :=
  ⟨prepareCells_zeroEnv,
    random_fill_counter_and_population zeroEnv 800 allDead 800 prepareCells_zeroEnv⟩

/-! ## The driver invariant and the accesses of the engine -/

/-- On a grid with a dead border the alive cells are the alive interior cells. -/
theorem aliveCells_eq_aliveInterior {g : Grid} (hb : ∀ r c, border r c → g.cell r c = false) :
    aliveCells g = aliveInterior g := by
  unfold aliveCells aliveInterior
  congr 1
  apply Finset.filter_congr
  intro p _
  constructor
  · intro h
    refine ⟨?_, h⟩
    rcases interior_or_border p.1 p.2 with hi | hbo
    · exact hi
    · rw [hb p.1 p.2 hbo] at h
      exact Bool.noConfusion h
  · intro h
    exact h.2

/-- C18: driver invariant, the displayed count matches the displayed grid.  If every
border cell of the current grid is dead, then one turn of the driver loop returns, for
every content of the second buffer and every prior counter value; afterwards every
border cell of the current grid is still dead, its interior is Conway's successor of the
previous current grid, and the counter is the total number of alive cells of the current
grid; the counter is the one `lifeGameUpdate` returned, `copie` has no access to it.
Hence after every number `n ≥ 1` of turns the counter is the number of alive cells of
the current grid. -/
theorem driver_counter_invariant (d : Driver)
    (hb : ∀ r c, border r c → d.cells1.cell r c = false) :
    (∃ d1, generation d = some d1 ∧
      (∀ r c, border r c → d1.cells1.cell r c = false) ∧
      (∀ r c, interior r c → d1.cells1.cell r c = conwayNext d.cells1 r c) ∧
      d1.cellAliveCpt = (aliveCells d1.cells1 : Int) ∧
      lifeGameUpdate d.cells1 d.cells2 d.cellAliveCpt = some (d1.cells2, d1.cellAliveCpt)) ∧
    (∀ n, 1 ≤ n → ∃ dn, generations n d = some dn ∧
      (∀ r c, border r c → dn.cells1.cell r c = false) ∧
      dn.cellAliveCpt = (aliveCells dn.cells1 : Int)) := by
  have step : ∀ e : Driver, (∀ r c, border r c → e.cells1.cell r c = false) →
      ∃ e1, generation e = some e1 ∧
        (∀ r c, border r c → e1.cells1.cell r c = false) ∧
        (∀ r c, interior r c → e1.cells1.cell r c = conwayNext e.cells1 r c) ∧
        e1.cellAliveCpt = (aliveCells e1.cells1 : Int) ∧
        lifeGameUpdate e.cells1 e.cells2 e.cellAliveCpt = some (e1.cells2, e1.cellAliveCpt) := by
    intro e he
    obtain ⟨c2, hu, hc2⟩ := lifeGameUpdate_spec e.cells1 e.cells2 e.cellAliveCpt
    obtain ⟨c1, hco, hc1⟩ := copie_spec c2 e.cells1
    have hgen : generation e = some ⟨c1, c2, (aliveInterior c2 : Int),
        wrapInt32 (e.noIteration + 1)⟩ := by
      simp only [generation, hu, hco, Option.bind_eq_bind, Option.some_bind, Option.pure_def]
    have hbd : ∀ r c, border r c → c1.cell r c = false := by
      intro r c hrc
      rw [hc1 r c, if_neg (not_interior_of_border hrc)]
      exact he r c hrc
    have hint : ∀ r c, interior r c → c1.cell r c = c2.cell r c := by
      intro r c hi
      rw [hc1 r c, if_pos hi]
    refine ⟨_, hgen, hbd, ?_, ?_, hu⟩
    · intro r c hi
      show c1.cell r c = _
      rw [hint r c hi, hc2 r c, if_pos hi]
    · show ((aliveInterior c2 : Nat) : Int) = ((aliveCells c1 : Nat) : Int)
      rw [aliveCells_eq_aliveInterior hbd]
      congr 1
      unfold aliveInterior
      congr 1
      apply Finset.filter_congr
      intro p _
      constructor
      · rintro ⟨h1, h2⟩
        exact ⟨h1, by rw [hint p.1 p.2 h1]; exact h2⟩
      · rintro ⟨h1, h2⟩
        exact ⟨h1, by rw [← hint p.1 p.2 h1]; exact h2⟩
  refine ⟨step d hb, ?_⟩
  intro n hn
  obtain ⟨m, rfl⟩ : ∃ m, n = m + 1 := ⟨n - 1, by omega⟩
  clear hn
  induction m generalizing d with
  | zero =>
    obtain ⟨d1, h1, h2, _, h4, _⟩ := step d hb
    refine ⟨d1, ?_, h2, h4⟩
    rw [generations_succ, h1]
    rfl
  | succ k ih =>
    obtain ⟨d1, h1, h2, _, _, _⟩ := step d hb
    obtain ⟨dn, h5, h6, h7⟩ := ih d1 h2
    refine ⟨dn, ?_, h6, h7⟩
    rw [generations_succ, h1]
    exact h5

/-- Witness of C18: the driver state of `main` before the first turn when the board is
all-dead, with a second buffer that holds a block and the counter 7. -/
theorem driver_counter_invariant_witness :
    (∀ r c, border r c → allDead.cell r c = false) ∧
    ((∃ d1, generation ⟨allDead, (addPattern allDead 20 20 1 0).1, 7, 1⟩ = some d1 ∧
      (∀ r c, border r c → d1.cells1.cell r c = false) ∧
      (∀ r c, interior r c → d1.cells1.cell r c = conwayNext allDead r c) ∧
      d1.cellAliveCpt = (aliveCells d1.cells1 : Int) ∧
      lifeGameUpdate allDead (addPattern allDead 20 20 1 0).1 7
        = some (d1.cells2, d1.cellAliveCpt)) ∧
    (∀ n, 1 ≤ n → ∃ dn,
      generations n ⟨allDead, (addPattern allDead 20 20 1 0).1, 7, 1⟩ = some dn ∧
      (∀ r c, border r c → dn.cells1.cell r c = false) ∧
      dn.cellAliveCpt = (aliveCells dn.cells1 : Int))) :=
  ⟨fun r c _ => cell_allDead r c,
    driver_counter_invariant ⟨allDead, (addPattern allDead 20 20 1 0).1, 7, 1⟩
      (fun r c _ => cell_allDead r c)⟩

/-- C16: in-bounds access of the engine.  For every cell `(line, column)` visited by the
loops of `lifeGameUpdate` (both between 1 and 40) and every `(frameLine, frameColumn)`
visited by the loops over its frame, the row and the column read are between 0 and 41
and the read is inside the array; the write for `(line, column)` passes the guard of
`setCell`, and the read of `copie` at `(line, column)` is inside the array.  Hence
`lifeGameUpdate` and `copie`, where a read outside the array gives no result, always
return. -/
theorem engine_in_bounds (cur next src dst : Grid) (cpt : Int)
    (line column frameLine frameColumn : Int)
    (hl : line ∈ loopRange 1 ((WIDTH : Int) - 1))
    (hc : column ∈ loopRange 1 ((HEIGHT : Int) - 1))
    (hfl : frameLine ∈ loopRange (line - 1) (line + 1 + 1))
    (hfc : frameColumn ∈ loopRange (column - 1) (column + 1 + 1)) :
    (1 ≤ line ∧ line ≤ 40 ∧ 1 ≤ column ∧ column ≤ 40) ∧
    (0 ≤ frameLine ∧ frameLine ≤ 41 ∧ 0 ≤ frameColumn ∧ frameColumn ≤ 41) ∧
    isCellAlive cur frameLine frameColumn
      = some (cur.cellAt frameLine frameColumn) ∧
    (line > 0 ∧ line < (WIDTH : Int) ∧ column > 0 ∧ column < (WIDTH : Int)) ∧
    isCellAlive src line column = some (src.cellAt line column) ∧
    (∃ r, lifeGameUpdate cur next cpt = some r) ∧
    (∃ r, copie src dst = some r) := by
  have h1 := mem_loopRange.mp hl
  have h2 := mem_loopRange.mp hc
  have h3 := mem_loopRange.mp hfl
  have h4 := mem_loopRange.mp hfc
  simp only [WIDTH, HEIGHT] at h1 h2 ⊢
  have b1 : 1 ≤ line ∧ line ≤ 40 := by omega
  have b2 : 1 ≤ column ∧ column ≤ 40 := by omega
  refine ⟨⟨b1.1, b1.2, b2.1, b2.2⟩, by omega,
    isCellAlive_of_inside cur _ _ (by omega), by omega,
    isCellAlive_of_inside src _ _ (by omega), ?_, ?_⟩
  · obtain ⟨r, hr, _⟩ := lifeGameUpdate_spec cur next cpt
    exact ⟨_, hr⟩
  · obtain ⟨r, hr, _⟩ := copie_spec src dst
    exact ⟨_, hr⟩

/-- Witness of C16: the corner cell `(40, 40)` of the interior and the corner `(41, 41)`
of its frame. -/
theorem engine_in_bounds_witness :
    ((40 : Int) ∈ loopRange 1 ((WIDTH : Int) - 1) ∧ (40 : Int) ∈ loopRange 1 ((HEIGHT : Int) - 1) ∧
      (41 : Int) ∈ loopRange (40 - 1) (40 + 1 + 1) ∧
      (41 : Int) ∈ loopRange (40 - 1) (40 + 1 + 1)) ∧
    isCellAlive (addPattern allDead 20 20 4 0).1 41 41
      = some ((addPattern allDead 20 20 4 0).1.cellAt 41 41) ∧
    (∃ r, lifeGameUpdate (addPattern allDead 20 20 4 0).1 allDead 7 = some r) ∧
    (∃ r, copie (addPattern allDead 20 20 4 0).1 allDead = some r) :=
  have hl : (40 : Int) ∈ loopRange 1 ((WIDTH : Int) - 1) := by decide
  have hf : (41 : Int) ∈ loopRange (40 - 1) (40 + 1 + 1) := by decide
  have h := engine_in_bounds (addPattern allDead 20 20 4 0).1 allDead
    (addPattern allDead 20 20 4 0).1 allDead 7 40 40 41 41 hl hl hf hf
  ⟨⟨hl, hl, hf, hf⟩, h.2.2.1, h.2.2.2.2.2.1, h.2.2.2.2.2.2⟩

/-! ## Pattern placement -/

theorem writes_nil (s : Grid × Int) : writes [] s = s := rfl

theorem writes_cons (p : Int × Int) (ps : List (Int × Int)) (s : Grid × Int) :
    writes (p :: ps) s = writes ps (setCell s.1 p.1 p.2 true s.2) := rfl

theorem writes_append (ps qs : List (Int × Int)) (s : Grid × Int) :
    writes (ps ++ qs) s = writes qs (writes ps s) := by
  unfold writes
  rw [List.foldl_append]

/-- A loop over the column offset that calls `setCell` with `life` true. -/
theorem loop_row (line column : Int) (bs : List Int) :
    ∀ s : Grid × Int, bs.foldl (fun s b => setCell s.1 line (column + b) true s.2) s =
      writes (bs.map (fun b => (line, column + b))) s := by
  induction bs with
  | nil => intro s; rfl
  | cons b bs ih =>
    intro s
    rw [List.foldl_cons, ih, List.map_cons, writes_cons]

/-- A loop over the column offset that calls `setCell` for the offsets that pass a
test. -/
theorem loop_row_filter (line column : Int) (p : Int → Bool) (bs : List Int) :
    ∀ s : Grid × Int,
      bs.foldl (fun s b => if p b = true then setCell s.1 line (column + b) true s.2 else s) s =
        writes ((bs.filter p).map (fun b => (line, column + b))) s := by
  induction bs with
  | nil => intro s; rfl
  | cons b bs ih =>
    intro s
    rw [List.foldl_cons, ih, List.filter_cons]
    by_cases hp : p b = true
    · rw [if_pos hp, if_pos hp, List.map_cons, writes_cons]
    · rw [if_neg hp, if_neg hp]

/-- Two nested loops over the row offset and the column offset that call `setCell` with
`life` true. -/
theorem loop_nested (line column : Int) (bs : List Int) (as : List Int) :
    ∀ s : Grid × Int,
      as.foldl (fun s a => bs.foldl
        (fun s b => setCell s.1 (line + a) (column + b) true s.2) s) s =
      writes (as.flatMap (fun a => bs.map (fun b => (line + a, column + b)))) s := by
  induction as with
  | nil => intro s; rfl
  | cons a as ih =>
    intro s
    rw [List.foldl_cons, ih, loop_row, List.flatMap_cons, writes_append]

theorem writes_eq_setCells (ps : List (Nat × Nat)) :
    ∀ s : Grid × Int, writes (ps.map (fun p => ((p.1 : Int), (p.2 : Int)))) s = setCells ps s := by
  induction ps with
  | nil => intro s; rfl
  | cons p ps ih =>
    intro s
    rw [List.map_cons, writes_cons, setCells_cons, ih]

theorem addPattern_kok (g : Grid) (k : Int) :
    addPattern g 20 20 5 k = setCells (patternCells 5) (g, k) := by
  unfold addPattern
  rw [if_neg (by decide), if_neg (by decide), if_neg (by decide), if_neg (by decide),
    if_pos rfl]
  simp only [loop_nested]
  rw [← writes_append, ← writes_append, ← writes_append, ← writes_eq_setCells]
  congr 1

theorem addPattern_pentadecathlon (g : Grid) (k : Int) :
    addPattern g 20 20 6 k = setCells (patternCells 6) (g, k) := by
  unfold addPattern
  rw [if_neg (by decide), if_neg (by decide), if_neg (by decide), if_neg (by decide),
    if_neg (by decide), if_pos rfl]
  simp only [loop_row_filter]
  have e : ∀ (s : Grid × Int) (a b : Int), setCell s.1 a b true s.2 = writes [(a, b)] s :=
    fun _ _ _ => rfl
  rw [e (g, k), e, e, e, ← writes_append, ← writes_append, ← writes_append, ← writes_append,
    ← writes_eq_setCells]
  congr 1

/-- What `prepareCells` does for the selectors 1 to 7: the calls of `setCell` of the
pattern, in order. -/
theorem prepareCells_pattern (env : RandEnv) (fuel : Nat) (g : Grid) (k : Int) (s : Nat)
    (hs : 1 ≤ s ∧ s ≤ 7) :
    prepareCells env fuel g s k = some (setCells (patternCells s) (g, k)) := by
  obtain ⟨h1, h7⟩ := hs
  interval_cases s
  · rfl
  · rfl
  · rfl
  · rfl
  · show some (addPattern g 20 20 5 k) = _
    rw [addPattern_kok]
  · show some (addPattern g 20 20 6 k) = _
    rw [addPattern_pentadecathlon]
  · rfl

theorem patternCells_interior (s : Nat) :
    ∀ p ∈ patternCells s, 1 ≤ p.1 ∧ p.1 ≤ 40 ∧ 1 ≤ p.2 ∧ p.2 ≤ 40 := by
  by_cases hs : s ≤ 7
  · interval_cases s <;> decide
  · have e : patternCells s = [] := by
      unfold patternCells
      have e0 : patternOffsets s = [] := by
        unfold patternOffsets
        split <;> first | omega | rfl
      rw [e0]
      rfl
    rw [e]
    intro p hp
    exact absurd hp (List.not_mem_nil p)

theorem patternCells_nodup (s : Nat) (hs : s ≤ 7) : (patternCells s).Nodup := by
  interval_cases s <;> decide

theorem patternOffsets_nonneg (s : Nat) (hs : s ≤ 7) :
    ∀ d ∈ patternOffsets s, 0 ≤ (patternAnchor s).1 + d.1 ∧ 0 ≤ (patternAnchor s).2 + d.2 := by
  interval_cases s <;> decide

theorem mem_patternCells (s : Nat) (hs : s ≤ 7) (r c : Nat) :
    (r, c) ∈ patternCells s ↔ ∃ d ∈ patternOffsets s,
      (r : Int) = (patternAnchor s).1 + d.1 ∧ (c : Int) = (patternAnchor s).2 + d.2 := by
  unfold patternCells
  rw [List.mem_map]
  constructor
  · rintro ⟨d, hd, e⟩
    have hp := patternOffsets_nonneg s hs d hd
    have e1 : ((patternAnchor s).1 + d.1).toNat = r := congrArg Prod.fst e
    have e2 : ((patternAnchor s).2 + d.2).toNat = c := congrArg Prod.snd e
    exact ⟨d, hd, by omega, by omega⟩
  · rintro ⟨d, hd, e1, e2⟩
    refine ⟨d, hd, ?_⟩
    apply Prod.ext
    · show ((patternAnchor s).1 + d.1).toNat = r
      omega
    · show ((patternAnchor s).2 + d.2).toNat = c
      omega

/-- The number of alive cells of a board given by a list of distinct interior cells. -/
theorem aliveCells_ofList {g : Grid} {l : List (Nat × Nat)}
    (H : ∀ r c, g.cell r c = ofList l r.val c.val)
    (hbox : ∀ p ∈ l, 1 ≤ p.1 ∧ p.1 ≤ 40 ∧ 1 ≤ p.2 ∧ p.2 ≤ 40) (hnd : l.Nodup) :
    aliveCells g = l.length := by
  have hb : ∀ r c, border r c → g.cell r c = false := by
    intro r c hrc
    rw [H r c]
    exact ofList_border hbox (not_interior_of_border hrc)
  rw [aliveCells_eq_aliveInterior hb]
  exact aliveInterior_ofList (fun r c _ => H r c) hbox hnd

/-- C12: pattern placement and count.  For every selector `s` from 1 to 7,
`prepareCells` on the all-dead grid with the counter 0 returns a grid in which the alive
cells are exactly the cells of the pattern, the anchor plus each listed offset (anchor
`(20, 20)` for the selectors 1 to 6, `(4, 4)` for the glider), and a counter that is the
number of calls of `setCell`, one per listed cell, and equals the number of alive cells
of the grid: 4, 4, 6, 3, 48, 12, 5. -/
theorem pattern_placement (env : RandEnv) (fuel : Nat) (s : Nat) (hs : 1 ≤ s ∧ s ≤ 7) :
    ∃ g : Grid, prepareCells env fuel allDead s 0 = some (g, ((patternOffsets s).length : Int)) ∧
      (∀ r c, g.cell r c = true ↔ ∃ d ∈ patternOffsets s,
        (r.val : Int) = (patternAnchor s).1 + d.1 ∧ (c.val : Int) = (patternAnchor s).2 + d.2) ∧
      aliveCells g = (patternOffsets s).length ∧
      (patternOffsets s).length = [4, 4, 6, 3, 48, 12, 5].getD (s - 1) 0 ∧
      patternAnchor s = (if s = 7 then (4, 4) else (20, 20)) := by
  have hlen : (patternCells s).length = (patternOffsets s).length := by
    unfold patternCells
    rw [List.length_map]
  have hint := patternCells_interior s
  obtain ⟨hcells, hcpt⟩ := setCells_allDead (patternCells s)
    (fun p hp => by have := hint p hp; omega)
    (by
      rw [hlen]
      obtain ⟨h1, h7⟩ := hs
      interval_cases s <;> decide)
  refine ⟨(setCells (patternCells s) (allDead, 0)).1, ?_, ?_, ?_, ?_, rfl⟩
  · rw [prepareCells_pattern env fuel allDead 0 s hs, ← hlen, ← hcpt]
  · intro r c
    rw [hcells r c, ofList_eq_true_iff, mem_patternCells s hs.2]
  · rw [aliveCells_ofList hcells hint (patternCells_nodup s hs.2), hlen]
  · obtain ⟨h1, h7⟩ := hs
    interval_cases s <;> rfl

/-- Witness of C12: the selector 5, Kok's galaxy. -/
theorem pattern_placement_witness :
    (1 ≤ 5 ∧ 5 ≤ 7) ∧
    ∃ g : Grid, prepareCells sampleEnv 0 allDead 5 0
        = some (g, ((patternOffsets 5).length : Int)) ∧
      (∀ r c, g.cell r c = true ↔ ∃ d ∈ patternOffsets 5,
        (r.val : Int) = (patternAnchor 5).1 + d.1 ∧ (c.val : Int) = (patternAnchor 5).2 + d.2) ∧
      aliveCells g = (patternOffsets 5).length ∧
      (patternOffsets 5).length = [4, 4, 6, 3, 48, 12, 5].getD (5 - 1) 0 ∧
      patternAnchor 5 = (if 5 = 7 then (4, 4) else (20, 20)) :=
  ⟨by decide, pattern_placement sampleEnv 0 5 (by decide)⟩

theorem prepareCells_default (env : RandEnv) (fuel : Nat) (g : Grid) (k : Int) (u : Nat)
    (hu : u = 0 ∨ 10 ≤ u) : prepareCells env fuel g u k = some (g, k) := by
  have h1 : ¬ u = 1 := by omega
  have h2 : ¬ u = 2 := by omega
  have h3 : ¬ u = 3 := by omega
  have h4 : ¬ u = 4 := by omega
  have h5 : ¬ u = 5 := by omega
  have h6 : ¬ u = 6 := by omega
  have h7 : ¬ u = 7 := by omega
  have h8 : ¬ u = 8 := by omega
  have h9 : ¬ u = 9 := by omega
  simp only [prepareCells, if_neg h1, if_neg h2, if_neg h3, if_neg h4, if_neg h5, if_neg h6,
    if_neg h7, if_neg h8, if_neg h9]

/-- C19: the initializer keeps the border dead.  For every selector value and every
initial counter, when `prepareCells` applied to the all-dead grid returns a grid, every
border cell (row 0, row 41, column 0, column 41) of that grid is dead; for every
selector other than 8 it does return, for the selector 8 it returns when the loop of the
random fill ends.  The guard of `setCell` itself accepts a write at the index 41. -/
theorem prepareCells_border_dead (env : RandEnv) (fuel : Nat) (userChoice : Nat) (k : Int)
    (g : Grid) (k1 : Int) (h : prepareCells env fuel allDead userChoice k = some (g, k1)) :
    (∀ r c, border r c → g.cell r c = false) ∧
    (∀ u : Nat, u ≠ 8 → ∃ r, prepareCells env fuel allDead u k = some r) ∧
    (setCell allDead 41 41 true 0).1.cell 41 41 = true := by
  have hret : ∀ u : Nat, u ≠ 8 → ∃ r, prepareCells env fuel allDead u k = some r := by
    intro u hu
    by_cases h0 : u = 0 ∨ 10 ≤ u
    · exact ⟨_, prepareCells_default env fuel allDead k u h0⟩
    · by_cases h9 : u = 9
      · rw [h9]
        exact ⟨_, prepareCells_fill env fuel allDead k⟩
      · exact ⟨_, prepareCells_pattern env fuel allDead k u (by omega)⟩
  have h41 : (setCell allDead 41 41 true 0).1.cell 41 41 = true := by
    rw [cell_setCell]
    have ha : accepted 41 41 := by decide
    rw [if_pos ⟨ha, rfl, rfl⟩]
  refine ⟨?_, hret, h41⟩
  by_cases h0 : userChoice = 0 ∨ 10 ≤ userChoice
  · rw [prepareCells_default env fuel allDead k userChoice h0] at h
    have e : allDead = g := congrArg Prod.fst (Option.some.inj h)
    rw [← e]
    exact fun r c _ => cell_allDead r c
  · by_cases h9 : userChoice = 9
    · rw [h9, prepareCells_fill] at h
      have e : (paint (fun _ _ => true) (loopRange 1 41) (loopRange 1 41) (allDead, k)).1 = g :=
        congrArg Prod.fst (Option.some.inj h)
      intro r c hrc
      rw [← e]
      show (paint (fun _ _ => true) (loopRange 1 41) (loopRange 1 41) (allDead, k)).1.cell r c
        = false
      rw [cell_paint_interior, if_neg (not_interior_of_border hrc)]
      exact cell_allDead r c
    · by_cases h8 : userChoice = 8
      · rw [h8, prepareCells_random] at h
        cases hst : randomFill env 0 fuel ⟨allDead, k, 0, 0⟩ with
        | none =>
          rw [hst] at h
          exact absurd h (by simp)
        | some st =>
          rw [hst] at h
          have e : st.cells = g := congrArg Prod.fst (Option.some.inj h)
          rw [← e]
          exact randomFill_border env 0 fuel _ st (fun r c _ => cell_allDead r c) hst
      · have hs : 1 ≤ userChoice ∧ userChoice ≤ 7 := by omega
        rw [prepareCells_pattern env fuel allDead k userChoice hs] at h
        have e : (setCells (patternCells userChoice) (allDead, k)).1 = g :=
          congrArg Prod.fst (Option.some.inj h)
        have hint := patternCells_interior userChoice
        intro r c hrc
        rw [← e]
        show (setCells (patternCells userChoice) (allDead, k)).1.cell r c = false
        rw [cell_setCells _ r c (allDead, k) (fun p hp => by have := hint p hp; omega),
          ofList_border hint (not_interior_of_border hrc), cell_allDead]
        rfl

/-- Witness of C19: the random fill with a generator that always returns 0. -/
theorem prepareCells_border_dead_witness :
    prepareCells zeroEnv 800 allDead 8 0 = some (allDead, 800) ∧
    (∀ r c, border r c → allDead.cell r c = false) ∧
    (∀ u : Nat, u ≠ 8 → ∃ r, prepareCells zeroEnv 800 allDead u 0 = some r) ∧
    (setCell allDead 41 41 true 0).1.cell 41 41 = true :=
  ⟨prepareCells_zeroEnv,
    prepareCells_border_dead zeroEnv 800 8 0 allDead 800 prepareCells_zeroEnv⟩

/-! ## Boards as rows of bits -/

theorem getD_map_range (F : Nat → Nat) (n i : Nat) (h : i < n) :
    ((List.range n).map F).getD i 0 = F i := by
  rw [List.getD_eq_getElem?_getD, List.getElem?_map, List.getElem?_range h]
  rfl

theorem testBit_one_shiftLeft (a j : Nat) : (1 <<< a).testBit j = Nat.beq a j := by
  rw [Nat.one_shiftLeft, Nat.testBit_two_pow]
  by_cases h : a = j
  · subst h
    simp
  · rw [nat_beq_eq_false h]
    simp [h]

theorem testBit_foldl_or (j : Nat) (l : List (Nat × Nat)) :
    ∀ m0 : Nat, (l.foldl (fun m p => m ||| (1 <<< p.2)) m0).testBit j =
      (m0.testBit j || l.any (fun p => Nat.beq p.2 j)) := by
  induction l with
  | nil => intro m0; simp
  | cons p ps ih =>
    intro m0
    rw [List.foldl_cons, ih, Nat.testBit_or, testBit_one_shiftLeft, List.any_cons, Bool.or_assoc]

/-- The rows of bits built from a list of alive cells give the board of that list. -/
theorem bitAt_rowsOfList (l : List (Nat × Nat)) (i j : Nat) (hi : i < 42) :
    bitAt (rowsOfList l) i j = ofList l i j := by
  unfold bitAt rowsOfList ofList
  rw [getD_map_range _ 42 i hi, testBit_foldl_or, Nat.zero_testBit, Bool.false_or,
    List.any_filter]

/-- The adder on single bits computes Conway's rule. -/
theorem ruleBool_eq : ∀ (a1 a2 a3 b1 b2 b3 m1 m3 m : Bool),
    ruleBool a1 a2 a3 b1 b2 b3 m1 m3 m =
      (Nat.beq (a3.toNat + a2.toNat + a1.toNat + m3.toNat + m1.toNat + b3.toNat + b2.toNat
          + b1.toNat) 3 ||
        (Nat.beq (a3.toNat + a2.toNat + a1.toNat + m3.toNat + m1.toNat + b3.toNat + b2.toNat
          + b1.toNat) 2 && m)) := by
  decide

/-- The bit `j ≥ 1` of `rowStep`: Conway's rule on the bits around the column `j` of
the three rows. -/
theorem testBit_rowStep (up mid down j : Nat) (hj : 1 ≤ j) :
    (rowStep up mid down).testBit j =
      (Nat.beq ((up.testBit (j - 1)).toNat + (up.testBit j).toNat + (up.testBit (j + 1)).toNat
          + (mid.testBit (j - 1)).toNat + (mid.testBit (j + 1)).toNat
          + (down.testBit (j - 1)).toNat + (down.testBit j).toNat
          + (down.testBit (j + 1)).toNat) 3 ||
        (Nat.beq ((up.testBit (j - 1)).toNat + (up.testBit j).toNat
          + (up.testBit (j + 1)).toNat
          + (mid.testBit (j - 1)).toNat + (mid.testBit (j + 1)).toNat
          + (down.testBit (j - 1)).toNat + (down.testBit j).toNat
          + (down.testBit (j + 1)).toNat) 2 && mid.testBit j)) := by
  have hd : decide (j ≥ 1) = true := by simp; omega
  have e : 1 + j = j + 1 := by omega
  have h := ruleBool_eq (up.testBit (j + 1)) (up.testBit j) (up.testBit (j - 1))
    (down.testBit (j + 1)) (down.testBit j) (down.testBit (j - 1))
    (mid.testBit (j + 1)) (mid.testBit (j - 1)) (mid.testBit j)
  rw [← h]
  unfold rowStep maj3 ruleBool maj3B
  simp only [Nat.testBit_and, Nat.testBit_or, Nat.testBit_xor, Nat.testBit_shiftRight,
    Nat.testBit_shiftLeft, hd, Bool.true_and, e]

theorem interiorMask_testBit : ∀ j, j < 42 →
    interiorMask.testBit j = decide (1 ≤ j ∧ j ≤ 40) := by
  decide

theorem borderMask_testBit : ∀ j, j < 42 →
    borderMask.testBit j = decide (j = 0 ∨ j = 41) := by
  decide

/-- The board of the rows after one step: Conway's successor in the rows and columns 1
to 40, the same cells elsewhere. -/
theorem bitAt_stepRows (rows : List Nat) (i j : Nat) (hi : i < 42) (hj : j < 42) :
    bitAt (stepRows rows) i j =
      if 1 ≤ i ∧ i ≤ 40 ∧ 1 ≤ j ∧ j ≤ 40 then stepNat (bitAt rows) i j else bitAt rows i j := by
  unfold bitAt stepRows
  rw [getD_map_range _ 42 i hi]
  by_cases hi2 : 1 ≤ i ∧ i ≤ 40
  · rw [if_pos hi2, Nat.testBit_or, Nat.testBit_and, Nat.testBit_and,
      interiorMask_testBit j hj, borderMask_testBit j hj]
    by_cases hj2 : 1 ≤ j ∧ j ≤ 40
    · have h1 : decide (1 ≤ j ∧ j ≤ 40) = true := by simp [hj2]
      have h2 : decide (j = 0 ∨ j = 41) = false := by
        simp
        omega
      rw [h1, h2, Bool.and_true, Bool.and_false, Bool.or_false, if_pos ⟨hi2.1, hi2.2, hj2⟩,
        testBit_rowStep _ _ _ j hj2.1]
      rfl
    · have h1 : decide (1 ≤ j ∧ j ≤ 40) = false := by simp [hj2]
      have h2 : decide (j = 0 ∨ j = 41) = true := by
        simp
        omega
      have hn : ¬ (1 ≤ i ∧ i ≤ 40 ∧ 1 ≤ j ∧ j ≤ 40) := fun h => hj2 h.2.2
      rw [h1, h2, Bool.and_true, Bool.and_false, Bool.false_or, if_neg hn]
  · have hn : ¬ (1 ≤ i ∧ i ≤ 40 ∧ 1 ≤ j ∧ j ≤ 40) := fun h => hi2 ⟨h.1, h.2.1⟩
    rw [if_neg hi2, if_neg hn]

/-- One turn of the driver loop on a board given by rows of bits: the turn returns and
the board shown next is given by `stepRows`. -/
theorem generation_rows (d : Driver) (rows : List Nat)
    (H : ∀ r c, d.cells1.cell r c = bitAt rows r.val c.val) :
    ∃ d1, generation d = some d1 ∧
      ∀ r c, d1.cells1.cell r c = bitAt (stepRows rows) r.val c.val := by
  obtain ⟨c1, c2, h1, _, h3⟩ := generation_spec d
  refine ⟨_, h1, ?_⟩
  intro r c
  show c1.cell r c = _
  have hr := r.isLt
  have hc := c.isLt
  simp only [HEIGHT, WIDTH] at hr hc
  rw [h3 r c, bitAt_stepRows rows r.val c.val hr hc]
  by_cases hi : interior r c
  · have hi2 : 1 ≤ r.val ∧ r.val ≤ 40 ∧ 1 ≤ c.val ∧ c.val ≤ 40 := hi
    rw [if_pos hi, if_pos hi2, conwayNext_eq_stepNat H r c hi]
  · have hi2 : ¬ (1 ≤ r.val ∧ r.val ≤ 40 ∧ 1 ≤ c.val ∧ c.val ≤ 40) := hi
    rw [if_neg hi, if_neg hi2, H r c]

/-- Any number of turns of the driver loop on a board given by rows of bits. -/
theorem generations_rows (n : Nat) : ∀ (d : Driver) (rows : List Nat),
    (∀ r c, d.cells1.cell r c = bitAt rows r.val c.val) →
    ∃ dn, generations n d = some dn ∧
      ∀ r c, dn.cells1.cell r c = bitAt (iterRows n rows) r.val c.val := by
  induction n with
  | zero =>
    intro d rows H
    exact ⟨d, rfl, H⟩
  | succ k ih =>
    intro d rows H
    obtain ⟨d1, h1, h2⟩ := generation_rows d rows H
    obtain ⟨dn, h3, h4⟩ := ih d1 (stepRows rows) h2
    refine ⟨dn, ?_, h4⟩
    rw [generations_succ, h1]
    exact h3

/-- The board `prepareCells` makes of the all-dead grid for a selector from 1 to 7, as
rows of bits. -/
theorem pattern_rows (env : RandEnv) (fuel : Nat) (s : Nat) (hs : 1 ≤ s ∧ s ≤ 7) :
    ∃ g : Grid, prepareCells env fuel allDead s 0 = some (g, ((patternCells s).length : Int)) ∧
      (∀ r c, g.cell r c = ofList (patternCells s) r.val c.val) ∧
      (∀ r c, g.cell r c = bitAt (rowsOfList (patternCells s)) r.val c.val) := by
  have hint := patternCells_interior s
  obtain ⟨hcells, hcpt⟩ := setCells_allDead (patternCells s)
    (fun p hp => by have := hint p hp; omega)
    (by
      obtain ⟨h1, h7⟩ := hs
      interval_cases s <;> decide)
  refine ⟨(setCells (patternCells s) (allDead, 0)).1, ?_, hcells, ?_⟩
  · rw [prepareCells_pattern env fuel allDead 0 s hs, ← hcpt]
  · intro r c
    have hr := r.isLt
    simp only [HEIGHT] at hr
    rw [hcells r c, bitAt_rowsOfList _ _ _ hr]

/-! ## Runs of the driver on the documented patterns -/

theorem glider_checkStep_one :
    checkStep [(4, 5), (5, 6), (6, 4), (6, 5), (6, 6)]
      [(5, 4), (5, 6), (6, 5), (6, 6), (7, 5)] 4 7 = true := by
  decide!

theorem glider_checkStep_two :
    checkStep [(5, 4), (5, 6), (6, 5), (6, 6), (7, 5)]
      [(5, 6), (6, 4), (6, 6), (7, 5), (7, 6)] 4 7 = true := by
  decide!

theorem glider_checkStep_three :
    checkStep [(5, 6), (6, 4), (6, 6), (7, 5), (7, 6)]
      [(5, 5), (6, 6), (6, 7), (7, 5), (7, 6)] 4 7 = true := by
  decide!

theorem glider_checkStep_four :
    checkStep [(5, 5), (6, 6), (6, 7), (7, 5), (7, 6)]
      [(5, 6), (6, 7), (7, 5), (7, 6), (7, 7)] 4 7 = true := by
  decide!

/-- The driver started on the board of a selector from 1 to 7 shows the same board again
after `n` turns when the rows of the pattern are a fixed point of `n` steps. -/
theorem pattern_recurs (env : RandEnv) (fuel : Nat) (s n : Nat) (hs : 1 ≤ s ∧ s ≤ 7)
    (hper : iterRows n (rowsOfList (patternCells s)) = rowsOfList (patternCells s))
    (c2 : Grid) (n0 : Int) :
    ∃ g0 k0, prepareCells env fuel allDead s 0 = some (g0, k0) ∧
      ∃ dn, generations n ⟨g0, c2, k0, n0⟩ = some dn ∧ dn.cells1 = g0 := by
  obtain ⟨g0, hp, _, hrows⟩ := pattern_rows env fuel s hs
  obtain ⟨dn, hg, hdn⟩ := generations_rows n ⟨g0, c2, ((patternCells s).length : Int), n0⟩
    (rowsOfList (patternCells s)) hrows
  refine ⟨g0, _, hp, dn, hg, ?_⟩
  apply Grid.ext_cell
  intro r c
  rw [hdn r c, hper, hrows r c]

/-- The driver started on the board of a selector from 1 to 7 shows another board after
one turn when one step of the rows changes the cell `(i, j)`. -/
theorem pattern_changes (env : RandEnv) (fuel : Nat) (s : Nat) (hs : 1 ≤ s ∧ s ≤ 7)
    (i : Fin HEIGHT) (j : Fin WIDTH)
    (hne : bitAt (stepRows (rowsOfList (patternCells s))) i.val j.val ≠
      bitAt (rowsOfList (patternCells s)) i.val j.val)
    (c2 : Grid) (n0 : Int) :
    ∃ g0 k0, prepareCells env fuel allDead s 0 = some (g0, k0) ∧
      ∃ d1, generations 1 ⟨g0, c2, k0, n0⟩ = some d1 ∧ d1.cells1 ≠ g0 := by
  obtain ⟨g0, hp, _, hrows⟩ := pattern_rows env fuel s hs
  obtain ⟨d1, hg, hd1⟩ := generations_rows 1 ⟨g0, c2, ((patternCells s).length : Int), n0⟩
    (rowsOfList (patternCells s)) hrows
  refine ⟨g0, _, hp, d1, hg, ?_⟩
  intro e
  apply hne
  have h1 := hd1 i j
  rw [e, hrows i j] at h1
  exact h1.symm

theorem tub_rows_fixed :
    iterRows 1 (rowsOfList (patternCells 2)) = rowsOfList (patternCells 2) := by
  decide!

theorem ship_rows_fixed :
    iterRows 1 (rowsOfList (patternCells 3)) = rowsOfList (patternCells 3) := by
  decide!

theorem kok_rows_period :
    iterRows 8 (rowsOfList (patternCells 5)) = rowsOfList (patternCells 5) := by
  decide!

theorem pentadecathlon_rows_period :
    iterRows 15 (rowsOfList (patternCells 6)) = rowsOfList (patternCells 6) := by
  decide!

theorem kok_rows_change :
    bitAt (stepRows (rowsOfList (patternCells 5))) 15 20 ≠
      bitAt (rowsOfList (patternCells 5)) 15 20 := by
  decide!

theorem pentadecathlon_rows_change :
    bitAt (stepRows (rowsOfList (patternCells 6))) 19 17 ≠
      bitAt (rowsOfList (patternCells 6)) 19 17 := by
  decide!

/-- C14: glider translation.  Starting from an all-dead grid and the counter 0,
`prepareCells` with the selector 7 returns the counter 5 and a grid in which exactly the
cells (4,5), (5,6), (6,4), (6,5), (6,6) are alive; four turns of the driver loop (started
with an all-dead second buffer) return, and afterwards the alive cells are exactly
(5,6), (6,7), (7,5), (7,6), (7,7), which is the initial shape moved one row down and one
column right, and the counter is 5. -/
theorem glider_translation (env : RandEnv) (fuel : Nat) :
    ∃ (g0 : Grid) (d4 : Driver), prepareCells env fuel allDead 7 0 = some (g0, 5) ∧
      (∀ r c, g0.cell r c = true ↔
        (r.val, c.val) ∈ [(4, 5), (5, 6), (6, 4), (6, 5), (6, 6)]) ∧
      generations 4 ⟨g0, allDead, 5, 1⟩ = some d4 ∧
      (∀ r c, d4.cells1.cell r c = true ↔
        (r.val, c.val) ∈ [(5, 6), (6, 7), (7, 5), (7, 6), (7, 7)]) ∧
      (∀ r c, d4.cells1.cell r c = true ↔
        ∃ r0 c0, g0.cell r0 c0 = true ∧ r.val = r0.val + 1 ∧ c.val = c0.val + 1) ∧
      d4.cellAliveCpt = 5 := by
  obtain ⟨hcells, hcpt⟩ := setCells_allDead [(4, 5), (5, 6), (6, 4), (6, 5), (6, 6)]
    (by decide) (by decide)
  obtain ⟨d1, h1, c1, _⟩ := generation_pattern
    ⟨(setCells [(4, 5), (5, 6), (6, 4), (6, 5), (6, 6)] (allDead, 0)).1, allDead, 5, 1⟩ hcells
    glider_checkStep_one (by decide)
  obtain ⟨d2, h2, c2, _⟩ := generation_pattern d1 c1 glider_checkStep_two (by decide)
  obtain ⟨d3, h3, c3, _⟩ := generation_pattern d2 c2 glider_checkStep_three (by decide)
  obtain ⟨d4, h4, c4, k4, _⟩ := generation_pattern d3 c3 glider_checkStep_four (by decide)
  have hg0 := iff_mem_of_ofList hcells
  have hg4 := iff_mem_of_ofList c4
  refine ⟨(setCells [(4, 5), (5, 6), (6, 4), (6, 5), (6, 6)] (allDead, 0)).1, d4, ?_,
    hg0, ?_, hg4, ?_, k4⟩
  · rw [prepareCells_pattern env fuel allDead 0 7 (by decide)]
    show some (setCells [(4, 5), (5, 6), (6, 4), (6, 5), (6, 6)] (allDead, 0)) = _
    rw [← Prod.eta (setCells _ _), hcpt]
    rfl
  · rw [generations_succ, h1]
    show generations 3 d1 = some d4
    rw [generations_succ, h2]
    show generations 2 d2 = some d4
    rw [generations_succ, h3]
    show generations 1 d3 = some d4
    rw [generations_succ, h4]
    rfl
  · intro r c
    rw [hg4 r c]
    constructor
    · intro h
      simp only [List.mem_cons, Prod.mk.injEq, List.mem_singleton, List.not_mem_nil,
        or_false] at h
      rcases h with ⟨e1, e2⟩ | ⟨e1, e2⟩ | ⟨e1, e2⟩ | ⟨e1, e2⟩ | ⟨e1, e2⟩
      · exact ⟨⟨4, by decide⟩, ⟨5, by decide⟩, (hg0 _ _).2 (by decide), e1, e2⟩
      · exact ⟨⟨5, by decide⟩, ⟨6, by decide⟩, (hg0 _ _).2 (by decide), e1, e2⟩
      · exact ⟨⟨6, by decide⟩, ⟨4, by decide⟩, (hg0 _ _).2 (by decide), e1, e2⟩
      · exact ⟨⟨6, by decide⟩, ⟨5, by decide⟩, (hg0 _ _).2 (by decide), e1, e2⟩
      · exact ⟨⟨6, by decide⟩, ⟨6, by decide⟩, (hg0 _ _).2 (by decide), e1, e2⟩
    · rintro ⟨r0, c0, h0, hr, hc⟩
      have h := (hg0 r0 c0).1 h0
      simp only [List.mem_cons, Prod.mk.injEq, List.mem_singleton, List.not_mem_nil,
        or_false] at h
      rcases h with ⟨e1, e2⟩ | ⟨e1, e2⟩ | ⟨e1, e2⟩ | ⟨e1, e2⟩ | ⟨e1, e2⟩ <;>
        · rw [hr, hc, e1, e2]
          decide

/-- C15: the documented stable and oscillating structures recur.  Starting from an
all-dead grid and the counter 0, for every content of the second buffer and every
iteration number of the driver: for the selectors 2 (tub) and 3 (ship) one turn of the
driver loop returns and the grid is the one `prepareCells` returned; for the selector 5
(Kok's galaxy) eight turns return and the grid is the initial one; for the selector 6
(pentadecathlon) fifteen turns return and the grid is the initial one; for the selectors
5 and 6 the grid after one turn is not the initial one. -/
theorem documented_structures_recur (env : RandEnv) (fuel : Nat) (c2 : Grid) (n0 : Int) :
    (∃ g0 k0, prepareCells env fuel allDead 2 0 = some (g0, k0) ∧
      ∃ d1, generations 1 ⟨g0, c2, k0, n0⟩ = some d1 ∧ d1.cells1 = g0) ∧
    (∃ g0 k0, prepareCells env fuel allDead 3 0 = some (g0, k0) ∧
      ∃ d1, generations 1 ⟨g0, c2, k0, n0⟩ = some d1 ∧ d1.cells1 = g0) ∧
    (∃ g0 k0, prepareCells env fuel allDead 5 0 = some (g0, k0) ∧
      ∃ d8, generations 8 ⟨g0, c2, k0, n0⟩ = some d8 ∧ d8.cells1 = g0) ∧
    (∃ g0 k0, prepareCells env fuel allDead 6 0 = some (g0, k0) ∧
      ∃ d15, generations 15 ⟨g0, c2, k0, n0⟩ = some d15 ∧ d15.cells1 = g0) ∧
    (∃ g0 k0, prepareCells env fuel allDead 5 0 = some (g0, k0) ∧
      ∃ d1, generations 1 ⟨g0, c2, k0, n0⟩ = some d1 ∧ d1.cells1 ≠ g0) ∧
    (∃ g0 k0, prepareCells env fuel allDead 6 0 = some (g0, k0) ∧
      ∃ d1, generations 1 ⟨g0, c2, k0, n0⟩ = some d1 ∧ d1.cells1 ≠ g0) :=
  ⟨pattern_recurs env fuel 2 1 (by decide) tub_rows_fixed c2 n0,
    pattern_recurs env fuel 3 1 (by decide) ship_rows_fixed c2 n0,
    pattern_recurs env fuel 5 8 (by decide) kok_rows_period c2 n0,
    pattern_recurs env fuel 6 15 (by decide) pentadecathlon_rows_period c2 n0,
    pattern_changes env fuel 5 (by decide) ⟨15, by decide⟩ ⟨20, by decide⟩ kok_rows_change c2 n0,
    pattern_changes env fuel 6 (by decide) ⟨19, by decide⟩ ⟨17, by decide⟩
      pentadecathlon_rows_change c2 n0⟩

/-! ## The random fill on the generator state -/

/-- The loop on the generator state makes the same steps as the loop on the sequence of
draws that the generator gives from the state `s0`. -/
theorem randomFillGen_eq (lib : Generator) (rn : Int) (s0 : Nat) (fuel : Nat) :
    ∀ st : FillState,
      randomFillGen lib rn fuel ⟨st.cells, st.cellAliveCpt, st.cpt, lib.stateAfter s0 st.drawn⟩ =
        (randomFill ⟨lib.RAND_MAX, lib.draw s0⟩ rn fuel st).map
          (fun t => ⟨t.cells, t.cellAliveCpt, t.cpt, lib.stateAfter s0 t.drawn⟩) := by
  induction fuel with
  | zero =>
    intro st
    rfl
  | succ n ih =>
    intro st
    rw [randomFillGen, randomFill]
    simp only []
    show (match (if rn < lib.RAND_MAX / 2 then
        Option.map (fun alive => alive == false)
          (isCellAlive st.cells ((lib.draw s0 st.drawn : Int) % ((HEIGHT : Int) - 1))
            ((lib.draw s0 (st.drawn + 1) : Int) % ((WIDTH : Int) - 1)))
      else some false) with
      | none => none
      | some accept => _) = _
    cases h : (if rn < lib.RAND_MAX / 2 then
        Option.map (fun alive => alive == false)
          (isCellAlive st.cells ((lib.draw s0 st.drawn : Int) % ((HEIGHT : Int) - 1))
            ((lib.draw s0 (st.drawn + 1) : Int) % ((WIDTH : Int) - 1)))
      else some false) with
    | none => rfl
    | some accept =>
      cases accept with
      | true =>
        simp only [if_true]
        have e := ih ⟨(setCell st.cells ((lib.draw s0 st.drawn : Int) % ((HEIGHT : Int) - 1))
            ((lib.draw s0 (st.drawn + 1) : Int) % ((WIDTH : Int) - 1)) true st.cellAliveCpt).1,
          (setCell st.cells ((lib.draw s0 st.drawn : Int) % ((HEIGHT : Int) - 1))
            ((lib.draw s0 (st.drawn + 1) : Int) % ((WIDTH : Int) - 1)) true st.cellAliveCpt).2,
          wrapInt32 (st.cpt + 1), st.drawn + 2⟩
        split
        · exact e
        · rfl
      | false =>
        simp only [Bool.false_eq_true, if_false]
        have e := ih ⟨st.cells, st.cellAliveCpt, st.cpt, st.drawn + 2⟩
        split
        · exact e
        · rfl

/-! ## A run of the random fill that writes 800 cells -/

/-- One iteration of the random fill that picks the next cell of the interior in the
order row by row: the cell reads dead, is written, and both counters advance. -/
theorem sweep_iteration (env : RandEnv) (hg : (0 : Int) < env.RAND_MAX / 2) (i : Nat)
    (hi : i < 800) (hl : pickLine env (2 * i) = 1 + i / 40)
    (hc : pickColumn env (2 * i) = 1 + i % 40) (g : Grid)
    (H : ∀ r c, g.cell r c = sweepCells i r.val c.val) :
    ∃ g1, fillIteration env 0 ⟨g, i, i, 2 * i⟩
        = some ⟨g1, (i : Int) + 1, (i : Int) + 1, 2 * (i + 1)⟩ ∧
      ∀ r c, g1.cell r c = sweepCells (i + 1) r.val c.val := by
  have h1 := fillIteration_of_gate env 0 ⟨g, i, i, 2 * i⟩ hg
  simp only [hl, hc] at h1
  have hdead : g.cellAt ((1 + i / 40 : Nat) : Int) ((1 + i % 40 : Nat) : Int) = false := by
    rw [cellAt_natCast g _ _ (by omega) (by omega), H]
    unfold sweepCells
    rw [decide_eq_false_iff_not]
    simp only []
    omega
  rw [if_pos hdead] at h1
  have hw : wrapInt32 ((i : Int) + 1) = (i : Int) + 1 := wrapInt32_small ⟨by omega, by omega⟩
  rw [setCell_snd, if_pos rfl, hw] at h1
  refine ⟨_, h1, ?_⟩
  intro r c
  rw [cell_setCell, H]
  have hr := r.isLt
  have hcc := c.isLt
  simp only [HEIGHT, WIDTH] at hr hcc
  unfold sweepCells accepted
  by_cases hP : ((0 : Int) < ((1 + i / 40 : Nat) : Int) ∧ ((1 + i / 40 : Nat) : Int) < 42 ∧
      (0 : Int) < ((1 + i % 40 : Nat) : Int) ∧ ((1 + i % 40 : Nat) : Int) < 42) ∧
      (r.val : Int) = ((1 + i / 40 : Nat) : Int) ∧ (c.val : Int) = ((1 + i % 40 : Nat) : Int)
  · rw [if_pos hP]
    symm
    rw [decide_eq_true_iff]
    omega
  · rw [if_neg hP, decide_eq_decide]
    constructor
    · intro h
      omega
    · intro h
      omega

/-- The random fill when the iteration `i` picks the cell number `i` of the interior in
the order row by row, for the first 800 iterations: the run returns after 800
iterations, which have written the rows 1 to 20. -/
theorem randomFill_sweep (env : RandEnv) (hg : (0 : Int) < env.RAND_MAX / 2)
    (hp : ∀ i, i < 800 → pickLine env (2 * i) = 1 + i / 40 ∧
      pickColumn env (2 * i) = 1 + i % 40) (extra : Nat) :
    ∀ (m i : Nat), i + m + 1 = 800 → ∀ g : Grid,
      (∀ r c, g.cell r c = sweepCells i r.val c.val) →
      ∃ g1, randomFill env 0 (m + 1 + extra) ⟨g, i, i, 2 * i⟩ = some ⟨g1, 800, 800, 1600⟩ ∧
        ∀ r c, g1.cell r c = sweepCells 800 r.val c.val := by
  intro m
  induction m with
  | zero =>
    intro i hi g H
    obtain ⟨g1, h1, h2⟩ := sweep_iteration env hg i (by omega) (hp i (by omega)).1
      (hp i (by omega)).2 g H
    have ei : i = 799 := by omega
    subst ei
    refine ⟨g1, ?_, h2⟩
    have e : 0 + 1 + extra = extra + 1 := by omega
    rw [e, randomFill_succ, h1]
    simp only []
    norm_num
  | succ n ih =>
    intro i hi g H
    obtain ⟨g1, h1, h2⟩ := sweep_iteration env hg i (by omega) (hp i (by omega)).1
      (hp i (by omega)).2 g H
    obtain ⟨g2, h3, h4⟩ := ih (i + 1) (by omega) g1 h2
    refine ⟨g2, ?_, h4⟩
    have e : n + 1 + 1 + extra = (n + 1 + extra) + 1 := by omega
    rw [e, randomFill_succ, h1]
    simp only []
    have hlt : (i : Int) + 1 < 800 := by omega
    rw [if_pos hlt]
    have e2 : ((i + 1 : Nat) : Int) = (i : Int) + 1 := by push_cast; rfl
    rw [e2] at h3
    exact h3

theorem sweepGen_stateAfter (s k : Nat) : sweepGen.stateAfter s k = s + k := by
  induction k with
  | zero => rfl
  | succ n ih =>
    show (sweepGen.rand (sweepGen.stateAfter s n)).2 = s + (n + 1)
    rw [ih]
    rfl

theorem sweepGen_draw (k : Nat) :
    sweepGen.env.draws k = if k % 2 = 0 then 1 + (k / 2 / 40) % 40 else 1 + (k / 2) % 40 := by
  show (sweepGen.rand (sweepGen.stateAfter (sweepGen.srand 0) k)).1 = _
  rw [sweepGen_stateAfter]
  have e : sweepGen.srand 0 + k = k := by
    show 0 + k = k
    omega
  rw [e]
  rfl

theorem sweepGen_picks (i : Nat) (hi : i < 800) :
    pickLine sweepGen.env (2 * i) = 1 + i / 40 ∧
      pickColumn sweepGen.env (2 * i) = 1 + i % 40 := by
  unfold pickLine pickColumn
  rw [sweepGen_draw, sweepGen_draw]
  have h0 : (2 * i) % 2 = 0 := by omega
  have h1 : ¬ (2 * i + 1) % 2 = 0 := by omega
  rw [if_pos h0, if_neg h1]
  constructor <;> omega

theorem sweepGen_gate : (0 : Int) < sweepGen.env.RAND_MAX / 2 := by decide

/-- The random fill with the generator `sweepGen` on the all-dead grid with the counter
0: after 800 iterations, which have consumed 1600 draws, the run returns the counter 800
and a grid in which exactly the rows 1 to 20 of the interior are alive. -/
theorem randomFill_sweepGen (extra : Nat) :
    ∃ g1, randomFill sweepGen.env 0 (800 + extra) ⟨allDead, 0, 0, 0⟩
        = some ⟨g1, 800, 800, 1600⟩ ∧
      ∀ r c, g1.cell r c = sweepCells 800 r.val c.val := by
  have h := randomFill_sweep sweepGen.env sweepGen_gate sweepGen_picks extra 799 0 (by omega)
    allDead (by
      intro r c
      rw [cell_allDead]
      symm
      unfold sweepCells
      rw [decide_eq_false_iff_not]
      omega)
  exact h

theorem prepareCellsGen_random (lib : Generator) (fuel gen : Nat) (cells : Grid) (cpt : Int) :
    prepareCellsGen lib fuel gen cells 8 cpt =
      (randomFillGen lib 0 fuel ⟨cells, cpt, 0, lib.srand 0⟩).map
        (fun st => ((st.cells, st.cellAliveCpt), st.gen)) := rfl

/-- The random fill on the generator state in terms of the sequence of draws after
`srand(0)`: the same grid and counter, and the generator is left in the state after the
draws consumed. -/
theorem prepareCellsGen_eq (lib : Generator) (fuel gen : Nat) (cells : Grid) (cpt : Int) :
    prepareCellsGen lib fuel gen cells 8 cpt =
      (randomFill lib.env 0 fuel ⟨cells, cpt, 0, 0⟩).map
        (fun t => ((t.cells, t.cellAliveCpt), lib.stateAfter (lib.srand 0) t.drawn)) := by
  rw [prepareCellsGen_random]
  have h := randomFillGen_eq lib 0 (lib.srand 0) fuel ⟨cells, cpt, 0, 0⟩
  have e : lib.stateAfter (lib.srand 0) 0 = lib.srand 0 := rfl
  simp only [e] at h
  rw [h, Option.map_map]
  rfl

/-- The last iteration of the loop of the random fill, entered without a reseed in the
state `s` of the generator `sweepGen` on the all-dead grid: the cell written depends on
the state. -/
theorem randomFillGen_sweepGen_last (s : Nat) :
    ∃ a, randomFillGen sweepGen 0 1 ⟨allDead, 0, 799, s⟩ = some a ∧
      ∀ r c, a.cells.cell r c = true ↔
        ((r.val : Int) = ((sweepGen.draw s 0 % 41 : Nat) : Int) ∧
          (c.val : Int) = ((sweepGen.draw s 1 % 41 : Nat) : Int) ∧
          1 ≤ sweepGen.draw s 0 % 41 ∧ 1 ≤ sweepGen.draw s 1 % 41) := by
  have h := randomFillGen_eq sweepGen 0 s 1 ⟨allDead, 0, 799, 0⟩
  have e : sweepGen.stateAfter s 0 = s := rfl
  simp only [e] at h
  have hg0 : (0 : Int) < sweepGen.RAND_MAX / 2 := by decide
  have hg : (0 : Int) < (⟨sweepGen.RAND_MAX, sweepGen.draw s⟩ : RandEnv).RAND_MAX / 2 := hg0
  have hit := fillIteration_of_gate ⟨sweepGen.RAND_MAX, sweepGen.draw s⟩ 0
    ⟨allDead, 0, 799, 0⟩ hg
  simp only [cellAt_allDead, if_true] at hit
  have hw : wrapInt32 ((799 : Int) + 1) = 800 := by decide
  rw [h, randomFill_succ, hit]
  simp only [hw]
  refine ⟨_, rfl, ?_⟩
  intro r c
  have hl : sweepGen.draw s 0 % 41 < 41 := Nat.mod_lt _ (by decide)
  have hc : sweepGen.draw s 1 % 41 < 41 := Nat.mod_lt _ (by decide)
  show (setCell allDead ((sweepGen.draw s 0 % 41 : Nat) : Int)
    ((sweepGen.draw s 1 % 41 : Nat) : Int) true 0).1.cell r c = true ↔ _
  rw [cell_setCell, cell_allDead]
  unfold accepted
  constructor
  · intro hh
    split at hh
    · omega
    · exact Bool.noConfusion hh
  · intro hh
    rw [if_pos (by omega)]

/-- C13: reproducible random fill.  `prepareCells` with the selector 8 calls `srand(0)`:
the loop of the random fill starts in the state `srand 0` of the generator, whatever the
state `gen1` was when the function was called.  The result therefore does not depend on
that state: two runs from the same grid and counter, entered in any two states of the
generator (also the second run entered in the state the first run has left), return
together, with the same grid, the same counter and the generator in the same state.  The
result is a function of the grid, the counter and the sequence of draws that follows
`srand(0)`: it is the result of the loop on that sequence, the generator is left in the
state after the draws consumed, a run that returns under one bound on the iterations
returns the same under every other bound under which it returns, and a C library with
the same `RAND_MAX` whose sequence after `srand(0)` agrees on the draws consumed gives
the same grid and counter. -/
theorem random_fill_reproducible (lib : Generator) (fuel : Nat) (cells : Grid) (cpt : Int)
    (gen1 gen2 : Nat) :
    prepareCellsGen lib fuel gen1 cells 8 cpt =
      (randomFillGen lib 0 fuel ⟨cells, cpt, 0, lib.srand 0⟩).map
        (fun st => ((st.cells, st.cellAliveCpt), st.gen)) ∧
    prepareCellsGen lib fuel gen1 cells 8 cpt = prepareCellsGen lib fuel gen2 cells 8 cpt ∧
    (∀ r1, prepareCellsGen lib fuel gen1 cells 8 cpt = some r1 →
      prepareCellsGen lib fuel r1.2 cells 8 cpt = some r1) ∧
    prepareCellsGen lib fuel gen1 cells 8 cpt =
      (randomFill lib.env 0 fuel ⟨cells, cpt, 0, 0⟩).map
        (fun t => ((t.cells, t.cellAliveCpt), lib.stateAfter (lib.srand 0) t.drawn)) ∧
    (prepareCellsGen lib fuel gen1 cells 8 cpt).map Prod.fst
      = prepareCells lib.env fuel cells 8 cpt ∧
    (∀ fuel2 r1 r2, prepareCellsGen lib fuel gen1 cells 8 cpt = some r1 →
      prepareCellsGen lib fuel2 gen2 cells 8 cpt = some r2 → r1 = r2) ∧
    (∀ r1, prepareCellsGen lib fuel gen1 cells 8 cpt = some r1 →
      ∃ n, r1.2 = lib.stateAfter (lib.srand 0) n ∧
        ∀ (lib2 : Generator) (gen3 : Nat), lib2.RAND_MAX = lib.RAND_MAX →
          (∀ k, k < n → lib.env.draws k = lib2.env.draws k) →
          (prepareCellsGen lib2 fuel gen3 cells 8 cpt).map Prod.fst = some r1.1) := by
  refine ⟨rfl, rfl, fun r1 h => h, prepareCellsGen_eq lib fuel gen1 cells cpt, ?_, ?_, ?_⟩
  · rw [prepareCellsGen_eq, prepareCells_random, Option.map_map]
    rfl
  · intro fuel2 r1 r2 h1 h2
    rw [prepareCellsGen_eq] at h1 h2
    cases ha : randomFill lib.env 0 fuel ⟨cells, cpt, 0, 0⟩ with
    | none =>
      rw [ha] at h1
      exact absurd h1 (by simp)
    | some a =>
      cases hb : randomFill lib.env 0 fuel2 ⟨cells, cpt, 0, 0⟩ with
      | none =>
        rw [hb] at h2
        exact absurd h2 (by simp)
      | some b =>
        rw [ha] at h1
        rw [hb] at h2
        have e := randomFill_fuel lib.env 0 fuel fuel2 _ a b ha hb
        rw [← Option.some.inj h1, ← Option.some.inj h2, e]
  · intro r1 h1
    rw [prepareCellsGen_eq] at h1
    cases ha : randomFill lib.env 0 fuel ⟨cells, cpt, 0, 0⟩ with
    | none =>
      rw [ha] at h1
      exact absurd h1 (by simp)
    | some a =>
      rw [ha] at h1
      have e1 := Option.some.inj h1
      refine ⟨a.drawn, ?_, ?_⟩
      · rw [← e1]
      · intro lib2 gen3 hmax hd
        have h2 := randomFill_congr lib.env lib2.env 0 hmax.symm fuel _ a ha hd
        rw [prepareCellsGen_eq, h2, ← e1]
        rfl

/-- Witness of C13: with the generator `sweepGen`, the run entered in the state 0 and
the run entered in the state 7 both return, after 1600 draws from the state `srand 0`,
the counter 800 and the same grid, in which exactly the rows 1 to 20 of the interior are
alive.  The loop alone does depend on the state of the generator: entered without the
reseed at its last iteration, it writes the cell `(1, 1)` from the state 0 and the cell
`(1, 2)` from the state 2. -/
theorem random_fill_reproducible_witness :
    (∃ g, prepareCellsGen sweepGen 800 0 allDead 8 0 = some ((g, 800), 1600) ∧
      prepareCellsGen sweepGen 800 7 allDead 8 0 = some ((g, 800), 1600) ∧
      ∀ r c, g.cell r c = true ↔ (1 ≤ r.val ∧ r.val ≤ 20 ∧ 1 ≤ c.val ∧ c.val ≤ 40)) ∧
    (∃ a b, randomFillGen sweepGen 0 1 ⟨allDead, 0, 799, 0⟩ = some a ∧
      randomFillGen sweepGen 0 1 ⟨allDead, 0, 799, 2⟩ = some b ∧
      a.cells.cell 1 2 = false ∧ b.cells.cell 1 2 = true) := by
  constructor
  · obtain ⟨g, hrun, hg⟩ := randomFill_sweepGen 0
    have h0 : prepareCellsGen sweepGen 800 0 allDead 8 0 = some ((g, 800), 1600) := by
      rw [prepareCellsGen_eq, hrun]
      show some ((g, (800 : Int)), sweepGen.stateAfter (sweepGen.srand 0) 1600) = _
      rw [sweepGen_stateAfter]
      rfl
    refine ⟨g, h0, ?_, ?_⟩
    · rw [← (random_fill_reproducible sweepGen 800 allDead 0 0 7).2.1]
      exact h0
    · intro r c
      rw [hg r c]
      unfold sweepCells
      rw [decide_eq_true_iff]
      have hc := c.isLt
      simp only [WIDTH] at hc
      omega
  · obtain ⟨a, ha, hca⟩ := randomFillGen_sweepGen_last 0
    obtain ⟨b, hb, hcb⟩ := randomFillGen_sweepGen_last 2
    refine ⟨a, b, ha, hb, ?_, ?_⟩
    · cases hx : a.cells.cell 1 2 with
      | false => rfl
      | true =>
        have h := (hca 1 2).1 hx
        exact absurd h.2.1 (by decide)
    · exact (hcb 1 2).2 (by decide)

end GameOfLife
